import Mathlib

/-!
# Interactive edit tool of pcbnew (`pcbnew/tools/edit_tool.cpp`)

A shallow embedding of `EDIT_TOOL` : the event loop `Main`, the single-shot
behaviours `Rotate`, `Flip`, `Remove`, `Properties`, `CopyItems`, the nested
session `PasteItems`, and the helpers `remove`, `updateRatsnest`,
`getModificationPoint`, `makeSelection`, `processChanges`.

The tool is stateful : every behaviour is a function `World → World`.  A `World`
holds the item store (a pointer is an index into `items`), the view, the
selection, the undo and redo lists, the members of `EDIT_TOOL` and a
chronological `log` of the calls made to the collaborators (undo journal,
view, ratsnest, selection tool, dialogs).  Collaborators whose code is not part
of `edit_tool.cpp` are modelled from the specification and say so.
-/

namespace EditTool

/-! ## Geometry -/

/-- A point with integer coordinates (`wxPoint`, `VECTOR2I`). -/
structure wxPoint where
  x : Int
  y : Int
deriving DecidableEq, Repr

instance : Add wxPoint := ⟨fun a b => ⟨a.x + b.x, a.y + b.y⟩⟩
instance : Sub wxPoint := ⟨fun a b => ⟨a.x - b.x, a.y - b.y⟩⟩
instance : Neg wxPoint := ⟨fun a => ⟨-a.x, -a.y⟩⟩
instance : Inhabited wxPoint := ⟨⟨0, 0⟩⟩

/-! ## Items -/

/-- Type tags of board items (`KICAD_T`), those `EDIT_TOOL::remove` switches on,
and `NOT_USED` for every other tag. -/
inductive KICAD_T
  | PCB_MODULE_T
  | PCB_PAD_T
  | PCB_MODULE_TEXT_T
  | PCB_MODULE_EDGE_T
  | PCB_LINE_T
  | PCB_TEXT_T
  | PCB_TRACE_T
  | PCB_VIA_T
  | PCB_DIMENSION_T
  | PCB_TARGET_T
  | PCB_MARKER_T
  | PCB_ZONE_T
  | PCB_ZONE_AREA_T
  | NOT_USED
deriving DecidableEq, Repr

/-- Role of a footprint text (`TEXTE_MODULE::TEXT_TYPE`). -/
inductive TEXT_TYPE
  | TEXT_is_REFERENCE
  | TEXT_is_VALUE
  | TEXT_is_DIVERS
deriving DecidableEq, Repr

/-- Who owns an item : the board, a footprint (by pointer), nobody (unlinked but
alive, as after `BOARD::Remove`), or the item has been destroyed
(`DeleteStructure`). -/
inductive OWNER
  | document
  | container (m : Nat)
  | unlinked
  | destroyed
deriving DecidableEq, Repr

/-- Modelled from the spec: an Item ("a placeable entity with identity, a type
tag, a position, a set of geometric/rendering attributes"); the classes
`BOARD_ITEM`, `MODULE`, `D_PAD`, `TEXTE_MODULE`, `EDGE_MODULE` are declared
outside `edit_tool.cpp`.  `pos0` is the position in the owning footprint's
local frame, `flipped` the board side, `attrs` stands for the shape and the
remaining attributes, which no operation of the tool changes. -/
structure BOARD_ITEM where
  type : KICAD_T
  pos : wxPoint
  pos0 : wxPoint
  orient : Int
  flipped : Bool
  owner : OWNER
  textType : TEXT_TYPE
  flags : Nat
  attrs : Nat
deriving DecidableEq, Repr

/-! ## Undo journal -/

/-- Kinds of undo/redo commands (`UNDO_REDO_T`). -/
inductive UNDO_REDO_T
  | UR_UNSPECIFIED
  | UR_CHANGED
  | UR_NEW
  | UR_DELETED
  | UR_MOVED
  | UR_FLIPPED
  | UR_ROTATED
  | UR_MODEDIT
deriving DecidableEq, Repr

/-- One picked item of a `PICKED_ITEMS_LIST` : the pointer, its status, and the
copy of the item's prior state kept for undo. -/
structure ITEM_PICKER where
  item : Nat
  status : UNDO_REDO_T
  link : Option BOARD_ITEM
deriving DecidableEq, Repr

/-- An undo command (`PICKED_ITEMS_LIST`).  `uid` is the identity of the list
object : `Properties` compares the tips of the undo list by pointer. -/
structure PICKED_ITEMS_LIST where
  uid : Nat
  m_Status : UNDO_REDO_T
  m_TransformPoint : wxPoint
  pickers : List ITEM_PICKER
deriving DecidableEq, Repr

/-! ## View and effects -/

/-- Update flags of a view item (`KIGFX::VIEW_ITEM::VIEW_UPDATE_FLAGS`). -/
inductive VIEW_UPDATE_FLAGS
  | GEOMETRY
  | LAYERS
  | ALL
deriving DecidableEq, Repr

/-- Messages shown by `DisplayError` in `EDIT_TOOL::remove`. -/
inductive ERROR_MSG
  | cannotDeleteReference
  | cannotDeleteValue
deriving DecidableEq, Repr

/-- Tool actions run through `m_toolMgr->RunAction`. -/
inductive COMMON_ACTIONS
  | editActivate
  | rotate
  | flip
  | remove
  | properties
  | copyItems
  | pasteItems
  | selectionClear
  | selectionSingle
  | pointEditorUpdate
deriving DecidableEq, Repr

/-- A call made by the tool to one of its collaborators, in the order of the
source. -/
inductive Effect
  | onModify
  | saveUndo (kind : UNDO_REDO_T) (ids : List Nat)
  | restoreUndo
  | itemMove (id : Nat)
  | itemRotate (id : Nat)
  | itemFlip (id : Nat)
  | clearFlags (id : Nat)
  | setFlags (id : Nat)
  | boardRemove (id : Nat)
  | deleteStructure (id : Nat)
  | moduleAdd (m : Nat) (id : Nat)
  | setLastEditTime (m : Nat)
  | viewAdd (id : Nat)
  | viewRemove (id : Nat)
  | viewUpdate (id : Nat) (flag : VIEW_UPDATE_FLAGS)
  | groupViewUpdate (flag : VIEW_UPDATE_FLAGS)
  | itemsViewUpdate (ids : List Nat) (flags : List VIEW_UPDATE_FLAGS)
  | previewAdd
  | previewViewUpdate
  | previewClear
  | previewRemove
  | previewMove
  | previewRotate
  | previewFlip
  | rnClearSimple
  | rnUpdate (id : Nat)
  | rnAddSimple (id : Nat)
  | rnRecalculate
  | displayError (msg : ERROR_MSG)
  | runAction (a : COMMON_ACTIONS)
  | editItemRequest (id : Nat)
  | saveClipboard
  | activate
  | showCursor (b : Bool)
  | setSnapping (b : Bool)
  | setAutoPan (b : Bool)
  | forceCursorPosition (b : Bool)
  | setTransitions
deriving DecidableEq, Repr

/-! ## Events -/

/-- Category of a tool event (`TOOL_EVENT_CATEGORY`). -/
inductive TOOL_EVENT_CATEGORY
  | TC_NONE
  | TC_MOUSE
  | TC_KEYBOARD
  | TC_COMMAND
  | TC_MESSAGE
deriving DecidableEq, Repr

/-- Action of a tool event (`TOOL_ACTIONS`). -/
inductive TOOL_ACTIONS
  | TA_NONE
  | TA_MOUSE_CLICK
  | TA_MOUSE_UP
  | TA_MOUSE_DRAG
  | TA_MOUSE_MOTION
  | TA_CANCEL_TOOL
  | TA_UNDO_REDO
  | TA_ACTIVATE
  | TA_ACTION
deriving DecidableEq, Repr

/-- Modelled from the spec: an event handed out by `Wait()` ("pointer motion,
pointer button down/up/click, cancel, external command actions, external
undo/redo notifications"); `TOOL_EVENT` is declared outside `edit_tool.cpp`.
`cursor` is what `controls->GetCursorPosition()` returns while the event is
handled. -/
structure TOOL_EVENT where
  category : TOOL_EVENT_CATEGORY
  action : TOOL_ACTIONS
  leftButton : Bool
  ctrl : Bool
  command : Option COMMON_ACTIONS
  cursor : wxPoint
deriving DecidableEq, Repr

namespace TOOL_EVENT

def IsCancel (e : TOOL_EVENT) : Bool := e.action = TOOL_ACTIONS.TA_CANCEL_TOOL

def IsActivate (e : TOOL_EVENT) : Bool := e.action = TOOL_ACTIONS.TA_ACTIVATE

def IsMotion (e : TOOL_EVENT) : Bool := e.action = TOOL_ACTIONS.TA_MOUSE_MOTION

def IsDragLeft (e : TOOL_EVENT) : Bool :=
  e.action = TOOL_ACTIONS.TA_MOUSE_DRAG && e.leftButton

def IsMouseUpLeft (e : TOOL_EVENT) : Bool :=
  e.action = TOOL_ACTIONS.TA_MOUSE_UP && e.leftButton

def IsClickLeft (e : TOOL_EVENT) : Bool :=
  e.action = TOOL_ACTIONS.TA_MOUSE_CLICK && e.leftButton

def IsAction (e : TOOL_EVENT) (a : COMMON_ACTIONS) : Bool :=
  e.category = TOOL_EVENT_CATEGORY.TC_COMMAND && e.action = TOOL_ACTIONS.TA_ACTION
    && e.command = some a

end TOOL_EVENT

/-! ## The world -/

/-- A free-standing footprint with its children, not linked into the board :
the temporary `MODULE module( board )` of `CopyItems` and the `pastedModule` of
`PasteItems`. -/
structure MODULE_DATA where
  self : BOARD_ITEM
  m_Pads : List BOARD_ITEM
  m_Drawings : List BOARD_ITEM
deriving DecidableEq, Repr

/-- Everything the edit tool reads or writes. -/
structure World where
  /-- the item store; a `BOARD_ITEM*` is an index into it -/
  items : List BOARD_ITEM
  /-- items registered with the `KIGFX::VIEW` -/
  view : List Nat
  /-- `m_selectionTool->GetSelection().items`, in order -/
  selection : List Nat
  /-- `GetScreen()->m_UndoList.m_CommandsList` (last = tip) -/
  undoList : List PICKED_ITEMS_LIST
  redoList : List PICKED_ITEMS_LIST
  /-- next identity handed to a new `PICKED_ITEMS_LIST` -/
  nextUid : Nat
  m_dragging : Bool
  m_offset : wxPoint
  m_cursor : wxPoint
  m_updateFlag : List VIEW_UPDATE_FLAGS
  m_editModules : Bool
  /-- `getViewControls()->GetCursorPosition()` -/
  viewCursor : wxPoint
  /-- `m_toolMgr->GetCurrentToolId() == m_toolId` -/
  toolActive : Bool
  /-- `editFrame->GetRotationAngle()`, in tenths of a degree -/
  rotationAngle : Int
  /-- the item `selectionSingle` finds under the pointer, if any -/
  pick : Option Nat
  /-- `m_toolMgr->GetClipboard()` -/
  clipboard : String
  m_Status_Pcb : Nat
  log : List Effect

/-- Collaborators that are functions : they are parameters of the behaviours
that call them. -/
structure ENV where
  /-- the floating-point branch of `RotatePoint`, taken for angles that are not
  a multiple of a quarter turn -/
  rotateGeneric : Int → wxPoint → wxPoint
  /-- `pad->ViewBBox().Contains( cursor )` -/
  viewBBoxContains : BOARD_ITEM → wxPoint → Bool
  /-- `editFrame->OnEditItemRequest( NULL, item )`, the external property editor -/
  OnEditItemRequest : Nat → World → World
  /-- `io.Format( &module, 0 ); io.GetStringOutput( true )` -/
  Format : MODULE_DATA → String
  /-- `io.Parse( clipboard )` ; `none` when it throws -/
  Parse : String → Option MODULE_DATA

/-- Append one effect to the log. -/
def emit (w : World) (e : Effect) : World :=
  { w with log := w.log ++ [e] }

/-- Position of the object stored at index `id` ; the origin for an index that
is not in the store. -/
def posAt (l : List BOARD_ITEM) (id : Nat) : wxPoint :=
  match l[id]? with
  | some it => it.pos
  | none => default

/-- `aItem->GetPosition()`. -/
def GetPosition (w : World) (id : Nat) : wxPoint := posAt w.items id

/-- `aItem->Type()`. -/
def TypeOf (w : World) (id : Nat) : KICAD_T :=
  match w.items[id]? with
  | some it => it.type
  | none => KICAD_T.NOT_USED

/-- Apply `f` to the object stored at index `id`; nothing happens when the
index is not in the store. -/
def modifyAt (l : List BOARD_ITEM) (id : Nat) (f : BOARD_ITEM → BOARD_ITEM) : List BOARD_ITEM :=
  match l[id]? with
  | some it => l.set id (f it)
  | none => l

/-- Apply `f` to the item behind a pointer. -/
def modifyItem (w : World) (id : Nat) (f : BOARD_ITEM → BOARD_ITEM) : World :=
  { w with items := modifyAt w.items id f }

/-! ## Item operations -/

/-- Modelled from the spec: `NORMALIZE_ANGLE_POS`, an angle in tenths of a
degree brought into `[0, 3600)`. -/
def NORMALIZE_ANGLE_POS (a : Int) : Int := a % 3600

/-- Modelled from the spec: `RotatePoint`, the rotation of a vector by an angle
in tenths of a degree ("a fixed angular increment").  Quarter turns are exact
on integers; every other angle goes through floating point in the program and
is the parameter `generic` here. -/
def RotatePoint (generic : Int → wxPoint → wxPoint) (p : wxPoint) (angle : Int) : wxPoint :=
  let a := NORMALIZE_ANGLE_POS angle
  if a = 0 then p
  else if a = 900 then ⟨p.y, -p.x⟩
  else if a = 1800 then ⟨-p.x, -p.y⟩
  else if a = 2700 then ⟨-p.y, p.x⟩
  else generic a p

/-- Modelled from the spec: `Move(delta)` of an item. -/
def BOARD_ITEM.Move (it : BOARD_ITEM) (delta : wxPoint) : BOARD_ITEM :=
  { it with pos := it.pos + delta }

/-- Modelled from the spec: `Rotate(center, angle)` of an item : the position
turns about the centre and the orientation advances by the angle. -/
def BOARD_ITEM.Rotate (generic : Int → wxPoint → wxPoint) (it : BOARD_ITEM)
    (center : wxPoint) (angle : Int) : BOARD_ITEM :=
  { it with pos := center + RotatePoint generic (it.pos - center) angle,
            orient := NORMALIZE_ANGLE_POS (it.orient + angle) }

/-- Modelled from the spec: `Flip(center)` of an item : the position is mirrored
about the horizontal line through the centre, the orientation is mirrored and
the item changes board side. -/
def BOARD_ITEM.Flip (it : BOARD_ITEM) (center : wxPoint) : BOARD_ITEM :=
  { it with pos := ⟨it.pos.x, center.y - (it.pos.y - center.y)⟩,
            orient := NORMALIZE_ANGLE_POS (- it.orient),
            flipped := !it.flipped }

/-- Modelled from the spec: `Clone()` ("deep copy, new identity") : the copy has
the attributes of the original and is not linked to any owner. -/
def BOARD_ITEM.Clone (it : BOARD_ITEM) : BOARD_ITEM :=
  { it with owner := OWNER.unlinked }

/-- The call `item->Move( delta )` on a stored item. -/
def itemMove (w : World) (id : Nat) (delta : wxPoint) : World :=
  emit (modifyItem w id (fun it => it.Move delta)) (Effect.itemMove id)

/-- The call `item->Rotate( center, angle )` on a stored item. -/
def itemRotate (env : ENV) (w : World) (id : Nat) (center : wxPoint) (angle : Int) : World :=
  emit (modifyItem w id (fun it => it.Rotate env.rotateGeneric center angle)) (Effect.itemRotate id)

/-- The call `item->Flip( center )` on a stored item. -/
def itemFlip (w : World) (id : Nat) (center : wxPoint) : World :=
  emit (modifyItem w id (fun it => it.Flip center)) (Effect.itemFlip id)

/-! ## Collaborators -/

/-- Modelled from the spec: View Synchronizer `Add(item)`. -/
def viewAdd (w : World) (id : Nat) : World :=
  emit { w with view := w.view ++ [id] } (Effect.viewAdd id)

/-- Modelled from the spec: View Synchronizer `Remove(item)`. -/
def viewRemove (w : World) (id : Nat) : World :=
  emit { w with view := w.view.filter (fun j => j != id) } (Effect.viewRemove id)

/-- Modelled from the spec: View Synchronizer `Invalidate(item, flag)`
(`item->ViewUpdate( flag )`). -/
def viewUpdate (w : World) (id : Nat) (flag : VIEW_UPDATE_FLAGS) : World :=
  emit w (Effect.viewUpdate id flag)

/-- Modelled from the spec: `BOARD::Remove`, the item leaves the Item Graph but
stays alive for the undo journal. -/
def boardRemove (w : World) (id : Nat) : World :=
  emit (modifyItem w id (fun it => { it with owner := OWNER.unlinked })) (Effect.boardRemove id)

/-- Modelled from the spec: `DeleteStructure`, the item is unlinked from its
owner and destroyed; a destroyed item is no longer known to the View
Synchronizer ("the removed items are absent from both the Item Graph and the
View Synchronizer"). -/
def DeleteStructure (w : World) (id : Nat) : World :=
  let w1 := modifyItem w id (fun it => { it with owner := OWNER.destroyed })
  emit { w1 with view := w1.view.filter (fun j => j != id) } (Effect.deleteStructure id)

/-- Modelled from the spec: Selection Service `Clear()`
(`RunAction( COMMON_ACTIONS::selectionClear )`). -/
def selectionClear (w : World) : World :=
  emit { w with selection := [] } (Effect.runAction COMMON_ACTIONS.selectionClear)

/-- Modelled from the spec: Selection Service `PickOneUnderPointer()`
(`RunAction( COMMON_ACTIONS::selectionSingle )`) : the item under the pointer,
if there is one, becomes the selection. -/
def selectionSingle (w : World) : World :=
  let w1 := emit w (Effect.runAction COMMON_ACTIONS.selectionSingle)
  { w1 with selection :=
      match w.pick with
      | some id => [id]
      | none => w.selection }

/-- Modelled from the spec: Journal `BeginEntry(kind, items)`
(`SaveCopyInUndoList`) : one entry is appended, holding for every picked item
its status (the command kind when unspecified) and a snapshot of its state. -/
def SaveCopyInUndoList (w : World) (picked : List (Nat × UNDO_REDO_T)) (kind : UNDO_REDO_T)
    (transformPoint : wxPoint) : World :=
  let entry : PICKED_ITEMS_LIST :=
    { uid := w.nextUid, m_Status := kind, m_TransformPoint := transformPoint,
      pickers := picked.map (fun p =>
        { item := p.1,
          status := if p.2 = UNDO_REDO_T.UR_UNSPECIFIED then kind else p.2,
          link := w.items[p.1]? }) }
  emit { w with undoList := w.undoList ++ [entry], nextUid := w.nextUid + 1 }
    (Effect.saveUndo kind (picked.map (fun p => p.1)))

/-- Write the snapshots of an undo entry back into the item store. -/
def restorePickers (items : List BOARD_ITEM) : List ITEM_PICKER → List BOARD_ITEM
  | [] => items
  | p :: ps =>
    match p.link with
    | some s => restorePickers (items.set p.item s) ps
    | none => restorePickers items ps

/-- Modelled from the spec: Journal `RestoreFromTip()`
(`RestoreCopyFromUndoList`) : "Undo pops the latest entry, reverses each covered
item to its before state, and pushes an inverse entry onto the redo stack";
nothing happens on an empty undo list. -/
def RestoreCopyFromUndoList (w : World) : World :=
  match w.undoList.getLast? with
  | none => w
  | some entry =>
    let inverse : PICKED_ITEMS_LIST :=
      { entry with pickers := entry.pickers.map (fun p => { p with link := w.items[p.item]? }) }
    emit { w with items := restorePickers w.items entry.pickers,
                  undoList := w.undoList.dropLast,
                  redoList := w.redoList ++ [inverse] }
      Effect.restoreUndo

/-- The selection as a picked-items list : every status is unspecified. -/
def selectionItems (w : World) : List (Nat × UNDO_REDO_T) :=
  w.selection.map (fun i => (i, UNDO_REDO_T.UR_UNSPECIFIED))

/-- `enableUpdateFlag( flag )` : `m_updateFlag |= flag`. -/
def enableUpdateFlag (w : World) (flag : VIEW_UPDATE_FLAGS) : World :=
  { w with m_updateFlag := if flag ∈ w.m_updateFlag then w.m_updateFlag else w.m_updateFlag ++ [flag] }

/-- `EDIT_TOOL::setTransitions`. -/
def setTransitions (w : World) : World := emit w Effect.setTransitions

/-- `item->ClearFlags()`. -/
def clearFlags (w : World) (id : Nat) : World :=
  emit (modifyItem w id (fun it => { it with flags := 0 })) (Effect.clearFlags id)

/-- `item->SetFlags( flags )` : `m_Flags |= flags`. -/
def setFlags (w : World) (id : Nat) (flags : Nat) : World :=
  emit (modifyItem w id (fun it => { it with flags := it.flags ||| flags })) (Effect.setFlags id)

/-- `item->GetFlags()`. -/
def GetFlags (w : World) (id : Nat) : Nat :=
  match w.items[id]? with
  | some it => it.flags
  | none => 0

/-- Pointers to the items of the store that satisfy `p`, in store order. -/
def itemsWhere (w : World) (p : BOARD_ITEM → Bool) : List Nat :=
  (List.range w.items.length).filter (fun i =>
    match w.items[i]? with
    | some it => p it
    | none => false)

/-- `module->Pads()` : the pads owned by the footprint. -/
def Pads (w : World) (m : Nat) : List Nat :=
  itemsWhere w (fun it => it.owner = OWNER.container m && it.type = KICAD_T.PCB_PAD_T)

/-- `module->GraphicalItems()` and the reference and value texts : the children
of the footprint that are not pads. -/
def GraphicalItems (w : World) (m : Nat) : List Nat :=
  itemsWhere w (fun it => it.owner = OWNER.container m && it.type != KICAD_T.PCB_PAD_T)

/-- Modelled from the spec: `MODULE::RunOnChildren`, a call on every child item
of a container, pads first. -/
def RunOnChildren (w : World) (m : Nat) (f : World → Nat → World) : World :=
  (Pads w m ++ GraphicalItems w m).foldl f w

/-- `getModel<BOARD>()->m_Modules` : the first footprint of the board. -/
def m_Modules (w : World) : Option Nat :=
  (itemsWhere w (fun it => it.owner = OWNER.document && it.type = KICAD_T.PCB_MODULE_T)).head?

/-! ## `EDIT_TOOL` helpers -/

/-- `EDIT_TOOL::makeSelection`. -/
def makeSelection (w : World) : World × Bool :=
  let w1 := if w.selection.isEmpty then selectionSingle w else w
  (w1, !w1.selection.isEmpty)

/-- `EDIT_TOOL::getModificationPoint` ; it may refresh `m_cursor`. -/
def getModificationPoint (w : World) : World × wxPoint :=
  if w.selection.length = 1 then
    (w, GetPosition w (w.selection.headD 0) - w.m_offset)
  else
    let w1 := if !w.toolActive then { w with m_cursor := w.viewCursor } else w
    (w1, w1.m_cursor)

/-- `EDIT_TOOL::updateRatsnest`. -/
def updateRatsnest (w : World) (aRedraw : Bool) : World :=
  w.selection.foldl
    (fun w1 i =>
      let w2 := emit w1 (Effect.rnUpdate i)
      if aRedraw then emit w2 (Effect.rnAddSimple i) else w2)
    (emit w Effect.rnClearSimple)

/-- `EDIT_TOOL::processChanges`. -/
def processChanges (w : World) (aList : PICKED_ITEMS_LIST) : World :=
  aList.pickers.foldl
    (fun w1 p =>
      match p.status with
      | UNDO_REDO_T.UR_CHANGED => viewUpdate w1 p.item VIEW_UPDATE_FLAGS.GEOMETRY
      | UNDO_REDO_T.UR_MODEDIT => viewUpdate w1 p.item VIEW_UPDATE_FLAGS.GEOMETRY
      | UNDO_REDO_T.UR_DELETED =>
        let w2 := if TypeOf w1 p.item = KICAD_T.PCB_MODULE_T
                  then RunOnChildren w1 p.item viewRemove else w1
        viewRemove w2 p.item
      | UNDO_REDO_T.UR_NEW =>
        let w2 := if TypeOf w1 p.item = KICAD_T.PCB_MODULE_T
                  then RunOnChildren w1 p.item viewAdd else w1
        viewUpdate (viewAdd w2 p.item) p.item VIEW_UPDATE_FLAGS.ALL
      | _ => w1)
    w

/-! ## Rotate and Flip -/

/-- The loop of `EDIT_TOOL::Rotate` over the selected items. -/
def rotateLoop (env : ENV) (w : World) (rotatePoint : wxPoint) : World :=
  w.selection.foldl
    (fun v i =>
      let v1 := itemRotate env v i rotatePoint v.rotationAngle
      if !v1.m_dragging then viewUpdate v1 i VIEW_UPDATE_FLAGS.GEOMETRY else v1)
    w

/-- The loop of `EDIT_TOOL::Flip` over the selected items. -/
def flipLoop (w : World) (flipPoint : wxPoint) : World :=
  w.selection.foldl
    (fun v i =>
      let v1 := itemFlip v i flipPoint
      if !v1.m_dragging then viewUpdate v1 i VIEW_UPDATE_FLAGS.LAYERS else v1)
    w

/-- `EDIT_TOOL::Rotate`. -/
def Rotate (env : ENV) (w : World) : World :=
  let unselect := w.selection.isEmpty
  let (w0, ok) := makeSelection w
  if !ok then setTransitions w0
  else
    let (w1, rotatePoint) := getModificationPoint w0
    let w2 := if !w1.m_dragging
              then SaveCopyInUndoList (emit w1 Effect.onModify) (selectionItems w1)
                     UNDO_REDO_T.UR_ROTATED rotatePoint
              else w1
    let w3 := rotateLoop env w2 rotatePoint
    let w4 := updateRatsnest w3 w3.m_dragging
    let w5 := { w4 with m_offset := GetPosition w4 (w4.selection.headD 0) - rotatePoint }
    let w6 := if w5.m_dragging then emit w5 (Effect.groupViewUpdate VIEW_UPDATE_FLAGS.GEOMETRY)
              else emit w5 Effect.rnRecalculate
    let w7 := if unselect then selectionClear w6 else w6
    setTransitions (emit w7 (Effect.runAction COMMON_ACTIONS.pointEditorUpdate))

/-- `EDIT_TOOL::Flip`. -/
def Flip (w : World) : World :=
  let unselect := w.selection.isEmpty
  let (w0, ok) := makeSelection w
  if !ok then setTransitions w0
  else
    let (w1, flipPoint) := getModificationPoint w0
    let w2 := if !w1.m_dragging
              then SaveCopyInUndoList (emit w1 Effect.onModify) (selectionItems w1)
                     UNDO_REDO_T.UR_FLIPPED flipPoint
              else w1
    let w3 := flipLoop w2 flipPoint
    let w4 := updateRatsnest w3 w3.m_dragging
    let w5 := { w4 with m_offset := GetPosition w4 (w4.selection.headD 0) - flipPoint }
    let w6 := if w5.m_dragging then emit w5 (Effect.groupViewUpdate VIEW_UPDATE_FLAGS.GEOMETRY)
              else emit w5 Effect.rnRecalculate
    let w7 := if unselect then selectionClear w6 else w6
    setTransitions (emit w7 (Effect.runAction COMMON_ACTIONS.pointEditorUpdate))

/-! ## Remove -/

/-- The shared tail of the cases `PCB_MODULE_TEXT_T` (fall through), `PCB_PAD_T`
and `PCB_MODULE_EDGE_T` of `EDIT_TOOL::remove` : the child is deleted in
child-edit mode only, and the function returns. -/
def removeChild (w : World) (aItem : Nat) : World :=
  if w.m_editModules then
    let w1 := match w.items[aItem]? with
      | some it =>
        match it.owner with
        | OWNER.container m => emit w (Effect.setLastEditTime m)
        | _ => w
      | none => w
    DeleteStructure { w1 with m_Status_Pcb := 0 } aItem
  else w

/-- The statements after the switch of `EDIT_TOOL::remove`. -/
def removeTopLevel (w : World) (aItem : Nat) : World :=
  boardRemove (viewRemove w aItem) aItem

/-- `EDIT_TOOL::remove`. -/
def remove (w : World) (aItem : Nat) : World :=
  match TypeOf w aItem with
  | KICAD_T.PCB_MODULE_T =>
    let w1 := clearFlags w aItem
    let w2 := RunOnChildren w1 aItem viewRemove
    removeTopLevel { w2 with m_Status_Pcb := 0 } aItem
  | KICAD_T.PCB_MODULE_TEXT_T =>
    if w.m_editModules then
      match (w.items[aItem]?).map (fun it => it.textType) with
      | some TEXT_TYPE.TEXT_is_REFERENCE =>
        emit w (Effect.displayError ERROR_MSG.cannotDeleteReference)
      | some TEXT_TYPE.TEXT_is_VALUE =>
        emit w (Effect.displayError ERROR_MSG.cannotDeleteValue)
      | _ => removeChild w aItem
    else removeChild w aItem
  | KICAD_T.PCB_PAD_T => removeChild w aItem
  | KICAD_T.PCB_MODULE_EDGE_T => removeChild w aItem
  | KICAD_T.PCB_LINE_T => removeTopLevel w aItem
  | KICAD_T.PCB_TEXT_T => removeTopLevel w aItem
  | KICAD_T.PCB_TRACE_T => removeTopLevel w aItem
  | KICAD_T.PCB_VIA_T => removeTopLevel w aItem
  | KICAD_T.PCB_DIMENSION_T => removeTopLevel w aItem
  | KICAD_T.PCB_TARGET_T => removeTopLevel w aItem
  | KICAD_T.PCB_MARKER_T => removeTopLevel w aItem
  | KICAD_T.PCB_ZONE_T => removeTopLevel w aItem
  | KICAD_T.PCB_ZONE_AREA_T => removeTopLevel w aItem
  | KICAD_T.NOT_USED => w

/-- `EDIT_TOOL::Remove`. -/
def Remove (w : World) : World :=
  let (w0, ok) := makeSelection w
  if !ok then setTransitions w0
  else
    let selectedItems := (selectionItems w0).map (fun p => (p.1, UNDO_REDO_T.UR_DELETED))
    let w1 := selectionClear w0
    let w2 := SaveCopyInUndoList (emit w1 Effect.onModify) selectedItems
                UNDO_REDO_T.UR_DELETED default
    let w3 := selectedItems.foldl (fun v p => remove v p.1) w2
    setTransitions (emit w3 Effect.rnRecalculate)

/-! ## Main -/

/-- Modelled from the spec: `Wait()` hands out the next event; while it is
handled the view controls report the cursor position that came with it. -/
def Wait (w : World) (evt : TOOL_EVENT) : World :=
  { w with viewCursor := evt.cursor }

/-- The loop of the dragging branch of `EDIT_TOOL::Main` : every selected item
moves by the same vector. -/
def moveLoop (w : World) (delta : wxPoint) : World :=
  w.selection.foldl (fun v i => itemMove v i delta) w

/-- The branch of the loop of `EDIT_TOOL::Main` for a motion or left-drag
event. -/
def mainMotion (w : World) (ctrl : Bool) : World :=
  let w1 := { w with m_cursor := w.viewCursor }
  let w2 :=
    if w1.m_dragging then
      let movement := w1.m_cursor - GetPosition w1 (w1.selection.headD 0)
      let w3 := moveLoop w1 (movement + w1.m_offset)
      updateRatsnest w3 true
    else
      let w3 := SaveCopyInUndoList (emit w1 Effect.onModify) (selectionItems w1)
                  UNDO_REDO_T.UR_CHANGED default
      let w4 :=
        if ctrl then
          { w3 with m_cursor := GetPosition w3 (w3.selection.headD 0), m_offset := ⟨0, 0⟩ }
        else
          { w3 with m_offset := GetPosition w3 (w3.selection.headD 0) - w3.m_cursor }
      { w4 with m_dragging := true }
  emit (emit w2 (Effect.groupViewUpdate VIEW_UPDATE_FLAGS.GEOMETRY))
    (Effect.runAction COMMON_ACTIONS.pointEditorUpdate)

/-- The `while( OPT_TOOL_EVENT evt = Wait() )` loop of `EDIT_TOOL::Main` over the
events still to come; the result carries the locals `restore` and `unselect`.
The loop also ends when `Wait()` has no event left. -/
def mainLoop (env : ENV) : World → Bool → List TOOL_EVENT → World × Bool × Bool
  | w, unselect, [] => (w, false, unselect)
  | w, unselect, evt :: rest =>
    if evt.IsCancel then (Wait w evt, true, unselect)
    else if evt.action = TOOL_ACTIONS.TA_UNDO_REDO then (Wait w evt, false, true)
    else if evt.category = TOOL_EVENT_CATEGORY.TC_COMMAND then
      if evt.IsAction COMMON_ACTIONS.rotate then
        mainLoop env (Rotate env (Wait w evt)) unselect rest
      else if evt.IsAction COMMON_ACTIONS.flip then
        mainLoop env (enableUpdateFlag (Flip (Wait w evt)) VIEW_UPDATE_FLAGS.LAYERS) unselect rest
      else if evt.IsAction COMMON_ACTIONS.remove then
        (Remove (Wait w evt), false, unselect)
      else mainLoop env (Wait w evt) unselect rest
    else if evt.IsMotion || evt.IsDragLeft then
      mainLoop env (mainMotion (Wait w evt) evt.ctrl) unselect rest
    else if evt.IsMouseUpLeft || evt.IsClickLeft then (Wait w evt, false, unselect)
    else mainLoop env (Wait w evt) unselect rest

/-- The statements of `EDIT_TOOL::Main` after the loop. -/
def mainFinish (w : World) (restore unselect : Bool) : World :=
  let w1 := { w with m_dragging := false }
  let w2 := if restore then RestoreCopyFromUndoList w1
            else emit w1 (Effect.itemsViewUpdate w1.selection w1.m_updateFlag)
  let w3 := if unselect then selectionClear w2 else w2
  let w4 := emit (emit w3 Effect.rnClearSimple) Effect.rnRecalculate
  let w5 := emit (emit (emit w4 (Effect.showCursor false)) (Effect.setSnapping false))
              (Effect.setAutoPan false)
  setTransitions w5

/-- `EDIT_TOOL::Main`, run on the events that `Wait()` hands out. -/
def Main (env : ENV) (w : World) (events : List TOOL_EVENT) : World :=
  let unselect := w.selection.isEmpty
  let (w0, ok) := makeSelection w
  if !ok then setTransitions w0
  else
    let w1 := { emit w0 Effect.activate with
                toolActive := true, m_dragging := false,
                m_updateFlag := [VIEW_UPDATE_FLAGS.GEOMETRY] }
    let w2 := emit (emit (emit (emit w1 (Effect.showCursor true)) (Effect.setSnapping true))
                (Effect.setAutoPan true)) (Effect.forceCursorPosition false)
    let r := mainLoop env w2 unselect events
    mainFinish r.1 r.2.1 r.2.2

/-! ## Properties -/

/-- The item `Properties` edits : the selected item, or, for a footprint, its
first pad whose bounding box contains the cursor. -/
def propertiesTarget (env : ENV) (w : World) : Nat :=
  let item := w.selection.headD 0
  if TypeOf w item = KICAD_T.PCB_MODULE_T then
    match (Pads w item).find? (fun pad =>
      match w.items[pad]? with
      | some it => env.viewBBoxContains it w.viewCursor
      | none => false) with
    | some pad => pad
    | none => item
  else item

/-- `EDIT_TOOL::Properties`. -/
def Properties (env : ENV) (w : World) : World :=
  let (w0, ok) := makeSelection w
  if !ok then setTransitions w0
  else
    let w9 :=
      if w0.selection.length = 1 then
        let item := propertiesTarget env w0
        let w1 := selectionClear w0
        let flags := GetFlags w1 item
        let w2 := clearFlags w1 item
        let lastChange := w2.undoList.getLast?
        let w3 := env.OnEditItemRequest item (emit w2 (Effect.editItemRequest item))
        let currentChange := w3.undoList.getLast?
        let w8 :=
          if lastChange.map (fun l => l.uid) ≠ currentChange.map (fun l => l.uid) then
            let w4 := match currentChange with
              | some l => processChanges w3 l
              | none => w3
            let w5 := updateRatsnest w4 true
            let w6 := emit w5 Effect.rnRecalculate
            let w7 := viewUpdate w6 item VIEW_UPDATE_FLAGS.ALL
            emit w7 (Effect.runAction COMMON_ACTIONS.pointEditorUpdate)
          else w3
        setFlags w8 item flags
      else w0
    setTransitions w9

/-! ## Copy and paste -/

/-- The footprint `MODULE module( board )` before anything is added to it. -/
def MODULE_DATA.empty : MODULE_DATA :=
  { self := { type := KICAD_T.PCB_MODULE_T, pos := ⟨0, 0⟩, pos0 := ⟨0, 0⟩, orient := 0,
              flipped := false, owner := OWNER.unlinked,
              textType := TEXT_TYPE.TEXT_is_DIVERS, flags := 0, attrs := 0 },
    m_Pads := [], m_Drawings := [] }

/-- Modelled from the spec: `MODULE::Add` on a free-standing footprint ("a
footprint holding pads and graphics") : a pad joins the pads, any other item the
graphical items. -/
def MODULE_DATA.Add (m : MODULE_DATA) (c : BOARD_ITEM) : MODULE_DATA :=
  if c.type = KICAD_T.PCB_PAD_T then { m with m_Pads := m.m_Pads ++ [c] }
  else { m with m_Drawings := m.m_Drawings ++ [c] }

/-- Modelled from the spec: `MODULE::SetPosition` : the footprint and its
children move by the same vector. -/
def MODULE_DATA.SetPosition (m : MODULE_DATA) (p : wxPoint) : MODULE_DATA :=
  let delta := p - m.self.pos
  { self := m.self.Move delta,
    m_Pads := m.m_Pads.map (fun c => c.Move delta),
    m_Drawings := m.m_Drawings.map (fun c => c.Move delta) }

/-- Modelled from the spec: `MODULE::Rotate` : the footprint and its children
turn about the same centre. -/
def MODULE_DATA.Rotate (generic : Int → wxPoint → wxPoint) (m : MODULE_DATA)
    (center : wxPoint) (angle : Int) : MODULE_DATA :=
  { self := m.self.Rotate generic center angle,
    m_Pads := m.m_Pads.map (fun c => c.Rotate generic center angle),
    m_Drawings := m.m_Drawings.map (fun c => c.Rotate generic center angle) }

/-- Modelled from the spec: `MODULE::Flip` : the footprint and its children
are mirrored about the same centre. -/
def MODULE_DATA.Flip (m : MODULE_DATA) (center : wxPoint) : MODULE_DATA :=
  { self := m.self.Flip center,
    m_Pads := m.m_Pads.map (fun c => c.Flip center),
    m_Drawings := m.m_Drawings.map (fun c => c.Flip center) }

/-- The clone that `CopyItems` adds for a selected item : a footprint text is
converted to the common type. -/
def copyClone (it : BOARD_ITEM) : BOARD_ITEM :=
  let clone := it.Clone
  if clone.type = KICAD_T.PCB_MODULE_TEXT_T
  then { clone with textType := TEXT_TYPE.TEXT_is_DIVERS }
  else clone

/-- One pass of the loop of `CopyItems` : the clone of the selected item is
added to the temporary footprint. -/
def copyStep (w : World) (m : MODULE_DATA) (i : Nat) : MODULE_DATA :=
  match w.items[i]? with
  | some it => m.Add (copyClone it)
  | none => m

/-- The temporary footprint `CopyItems` builds from the selection. -/
def copyModule (w : World) : MODULE_DATA :=
  w.selection.foldl (copyStep w) MODULE_DATA.empty

/-- `EDIT_TOOL::CopyItems`. -/
def CopyItems (env : ENV) (w : World) : World :=
  if !w.m_editModules then setTransitions w
  else
    let (w0, ok) := makeSelection w
    if !ok then setTransitions w0
    else
      let data := env.Format (copyModule w0)
      setTransitions (emit { w0 with clipboard := data } Effect.saveClipboard)

/-- A new object enters the item store; its pointer is returned. -/
def allocItem (w : World) (it : BOARD_ITEM) : World × Nat :=
  ({ w with items := w.items ++ [it] }, w.items.length)

/-- Modelled from the spec: `MODULE::Add` on a footprint of the board : the
footprint becomes the owner of the item. -/
def moduleAdd (w : World) (m : Nat) (id : Nat) : World :=
  emit (modifyItem w id (fun it => { it with owner := OWNER.container m })) (Effect.moduleAdd m id)

/-- Modelled from the spec: `SetLocalCoord` ("each clone's position is rebased
from document coordinates to the destination's local coordinate frame"). -/
def SetLocalCoord (env : ENV) (w : World) (id : Nat) : World :=
  modifyItem w id (fun it =>
    match it.owner with
    | OWNER.container m =>
      match w.items[m]? with
      | some parent =>
        { it with pos0 := RotatePoint env.rotateGeneric (it.pos - parent.pos) (- parent.orient) }
      | none => it
    | _ => it)

/-- One pass of the loop over `pastedModule->Pads()` in the commit branch. -/
def pastePad (env : ENV) (currentModule : Nat) (w : World) (pad : BOARD_ITEM) : World :=
  let a := allocItem w pad.Clone
  viewAdd (SetLocalCoord env (moduleAdd a.1 currentModule a.2) a.2) a.2

/-- One pass of the loop over `pastedModule->GraphicalItems()` in the commit
branch. -/
def pasteDrawing (env : ENV) (currentModule : Nat) (w : World) (drawing : BOARD_ITEM) : World :=
  let a := allocItem w drawing.Clone
  let w2 :=
    if drawing.type = KICAD_T.PCB_MODULE_TEXT_T then
      let w1 := modifyItem a.1 a.2 (fun it => { it with textType := TEXT_TYPE.TEXT_is_DIVERS })
      SetLocalCoord env (moduleAdd w1 currentModule a.2) a.2
    else if drawing.type = KICAD_T.PCB_MODULE_EDGE_T then
      SetLocalCoord env (moduleAdd a.1 currentModule a.2) a.2
    else a.1
  viewAdd w2 a.2

/-- The branch `evt->IsClick( BUT_LEFT )` of the loop of `PasteItems` : the
commit. -/
def pasteCommit (env : ENV) (w : World) (currentModule : Nat) (pasted : MODULE_DATA) : World :=
  let w1 := SaveCopyInUndoList (emit w Effect.onModify)
              [(currentModule, UNDO_REDO_T.UR_UNSPECIFIED)] UNDO_REDO_T.UR_MODEDIT default
  let w2 := emit { w1 with m_Status_Pcb := 0 } (Effect.setLastEditTime currentModule)
  let w3 := pasted.m_Pads.foldl (pastePad env currentModule) w2
  let w4 := pasted.m_Drawings.foldl (pasteDrawing env currentModule) w3
  emit w4 Effect.previewClear

/-- The `while( OPT_TOOL_EVENT evt = Wait() )` loop of `PasteItems`. -/
def pasteLoop (env : ENV) (currentModule : Nat) : World → MODULE_DATA → List TOOL_EVENT → World
  | w, _, [] => w
  | w, pasted, evt :: rest =>
    if evt.IsMotion then
      pasteLoop env currentModule
        (emit (emit (Wait w evt) Effect.previewMove) Effect.previewViewUpdate)
        (pasted.SetPosition evt.cursor) rest
    else if evt.category = TOOL_EVENT_CATEGORY.TC_COMMAND then
      if evt.IsAction COMMON_ACTIONS.rotate then
        pasteLoop env currentModule
          (emit (emit (Wait w evt) Effect.previewRotate) Effect.previewViewUpdate)
          (pasted.Rotate env.rotateGeneric pasted.self.pos w.rotationAngle) rest
      else if evt.IsAction COMMON_ACTIONS.flip then
        pasteLoop env currentModule
          (emit (emit (Wait w evt) Effect.previewFlip) Effect.previewViewUpdate)
          (pasted.Flip pasted.self.pos) rest
      else if evt.IsCancel || evt.IsActivate then
        emit (Wait w evt) Effect.previewClear
      else pasteLoop env currentModule (Wait w evt) pasted rest
    else if evt.IsClickLeft then
      pasteCommit env (Wait w evt) currentModule pasted
    else pasteLoop env currentModule (Wait w evt) pasted rest

/-- `EDIT_TOOL::PasteItems`, run on the events that `Wait()` hands out.  The
footprint editor always has a footprint on its board; `currentModule` is the
null pointer otherwise and the pointer `0` stands for it. -/
def PasteItems (env : ENV) (w : World) (events : List TOOL_EVENT) : World :=
  if !w.m_editModules then setTransitions w
  else
    match env.Parse w.clipboard with
    | none => setTransitions w
    | some pastedModule =>
      let currentModule := (m_Modules w).getD 0
      let w1 := selectionClear (emit w Effect.previewAdd)
      let w2 := emit (emit w1 (Effect.showCursor true)) (Effect.setSnapping true)
      let w3 := { emit w2 Effect.activate with toolActive := true }
      let w4 := pasteLoop env currentModule w3 pastedModule events
      let w5 := emit (emit (emit w4 (Effect.showCursor false)) (Effect.setSnapping false))
                  (Effect.setAutoPan false)
      setTransitions (emit w5 Effect.previewRemove)

/-! ## List-level counterparts of the loops -/

/-- The item store after `f` has been applied at every pointer of `ids`, in
order. -/
def modifyAll (f : BOARD_ITEM → BOARD_ITEM) (ids : List Nat) (l : List BOARD_ITEM) :
    List BOARD_ITEM :=
  ids.foldl (fun acc i => modifyAt acc i f) l

/-- The log entries of the loop of `Rotate`. -/
def rotateTrace (dragging : Bool) : List Nat → List Effect
  | [] => []
  | i :: t =>
    (if dragging then [Effect.itemRotate i]
     else [Effect.itemRotate i, Effect.viewUpdate i VIEW_UPDATE_FLAGS.GEOMETRY])
      ++ rotateTrace dragging t

/-- The log entries of the loop of `Flip`. -/
def flipTrace (dragging : Bool) : List Nat → List Effect
  | [] => []
  | i :: t =>
    (if dragging then [Effect.itemFlip i]
     else [Effect.itemFlip i, Effect.viewUpdate i VIEW_UPDATE_FLAGS.LAYERS])
      ++ flipTrace dragging t

/-- The log entries of `updateRatsnest` after `ClearSimple`. -/
def ratsnestTrace (aRedraw : Bool) : List Nat → List Effect
  | [] => []
  | i :: t =>
    (if aRedraw then [Effect.rnUpdate i, Effect.rnAddSimple i] else [Effect.rnUpdate i])
      ++ ratsnestTrace aRedraw t

/-- The pivot `getModificationPoint` returns. -/
def pivot (w : World) : wxPoint :=
  if w.selection.length = 1 then GetPosition w (w.selection.headD 0) - w.m_offset
  else if w.toolActive then w.m_cursor else w.viewCursor

/-- The item store after the loop of `Rotate`. -/
def rotatedItems (env : ENV) (w : World) : List BOARD_ITEM :=
  modifyAll (fun it => it.Rotate env.rotateGeneric (pivot w) w.rotationAngle) w.selection w.items

/-- The item store after the loop of `Flip`. -/
def flippedItems (w : World) : List BOARD_ITEM :=
  modifyAll (fun it => it.Flip (pivot w)) w.selection w.items

/-- The branches of the `if` chain in the loop of `EDIT_TOOL::Main`. -/
inductive MAIN_BRANCH
  | cancel
  | undoRedo
  | rotate
  | flip
  | remove
  | command
  | motion
  | finish
  | ignored
deriving DecidableEq, Repr

/-- The branch of the loop of `EDIT_TOOL::Main` that handles an event : the
conditions of the `if` chain, in the order of the source. -/
def mainBranch (evt : TOOL_EVENT) : MAIN_BRANCH :=
  if evt.IsCancel then MAIN_BRANCH.cancel
  else if evt.action = TOOL_ACTIONS.TA_UNDO_REDO then MAIN_BRANCH.undoRedo
  else if evt.category = TOOL_EVENT_CATEGORY.TC_COMMAND then
    if evt.IsAction COMMON_ACTIONS.rotate then MAIN_BRANCH.rotate
    else if evt.IsAction COMMON_ACTIONS.flip then MAIN_BRANCH.flip
    else if evt.IsAction COMMON_ACTIONS.remove then MAIN_BRANCH.remove
    else MAIN_BRANCH.command
  else if evt.IsMotion || evt.IsDragLeft then MAIN_BRANCH.motion
  else if evt.IsMouseUpLeft || evt.IsClickLeft then MAIN_BRANCH.finish
  else MAIN_BRANCH.ignored

/-- An event that keeps a drag going : a motion or left-drag event, or a rotate
or flip command. -/
def isDragEvent (evt : TOOL_EVENT) : Bool :=
  mainBranch evt = MAIN_BRANCH.motion || mainBranch evt = MAIN_BRANCH.rotate
    || mainBranch evt = MAIN_BRANCH.flip

/-- The world `EDIT_TOOL::Main` enters its loop with, from the world left by
`makeSelection`. -/
def mainEntry (w0 : World) : World :=
  let w1 := { emit w0 Effect.activate with
              toolActive := true, m_dragging := false,
              m_updateFlag := [VIEW_UPDATE_FLAGS.GEOMETRY] }
  emit (emit (emit (emit w1 (Effect.showCursor true)) (Effect.setSnapping true))
    (Effect.setAutoPan true)) (Effect.forceCursorPosition false)

/-- Two item stores that differ at most at the pointers of `S`. -/
def touchOnly (S : List Nat) (a b : List BOARD_ITEM) : Prop :=
  b.length = a.length ∧ ∀ j, j ∉ S → b[j]? = a[j]?

/-- What handling drag events keeps fixed, between the world `a` in which the
drag was armed and a later world `w` : the selection, the undo list, the
dragging flag, and every item outside the selection. -/
def DragInv (a w : World) : Prop :=
  w.selection = a.selection ∧ w.undoList = a.undoList ∧ w.m_dragging = true
    ∧ touchOnly a.selection a.items w.items

/-- The undo entry `SaveCopyInUndoList( selection.items, UR_CHANGED )` appends
when a drag is armed in the world `w`. -/
def armEntry (w : World) : PICKED_ITEMS_LIST :=
  { uid := w.nextUid, m_Status := UNDO_REDO_T.UR_CHANGED, m_TransformPoint := default,
    pickers := w.selection.map (fun i =>
      { item := i, status := UNDO_REDO_T.UR_CHANGED, link := w.items[i]? }) }

/-! ## Concrete worlds and events -/

/-- A board item of the given type at the given position, owned by the board. -/
def exItem (t : KICAD_T) (p : wxPoint) : BOARD_ITEM :=
  { type := t, pos := p, pos0 := ⟨0, 0⟩, orient := 0, flipped := false,
    owner := OWNER.document, textType := TEXT_TYPE.TEXT_is_DIVERS, flags := 0, attrs := 0 }

/-- Collaborators that do nothing : no property editor, an empty clipboard
codec. -/
def exEnv : ENV :=
  { rotateGeneric := fun _ p => p,
    viewBBoxContains := fun _ _ => false,
    OnEditItemRequest := fun _ w => w,
    Format := fun _ => "",
    Parse := fun _ => none }

/-- A board with two graphic lines, `A` at (10,10) and `B` at (20,10), both
selected; the pointer is at (12,10). -/
def exWorld : World :=
  { items := [exItem KICAD_T.PCB_LINE_T ⟨10, 10⟩, exItem KICAD_T.PCB_LINE_T ⟨20, 10⟩],
    view := [0, 1], selection := [0, 1], undoList := [], redoList := [], nextUid := 0,
    m_dragging := false, m_offset := ⟨0, 0⟩, m_cursor := ⟨0, 0⟩, m_updateFlag := [],
    m_editModules := false, viewCursor := ⟨12, 10⟩, toolActive := false,
    rotationAngle := 900, pick := none, clipboard := "", m_Status_Pcb := 1, log := [] }

/-- A pointer motion to `p`. -/
def evMotion (p : wxPoint) : TOOL_EVENT :=
  { category := TOOL_EVENT_CATEGORY.TC_MOUSE, action := TOOL_ACTIONS.TA_MOUSE_MOTION,
    leftButton := false, ctrl := false, command := none, cursor := p }

/-- Release of the left button at `p`. -/
def evMouseUp (p : wxPoint) : TOOL_EVENT :=
  { category := TOOL_EVENT_CATEGORY.TC_MOUSE, action := TOOL_ACTIONS.TA_MOUSE_UP,
    leftButton := true, ctrl := false, command := none, cursor := p }

/-- A left click at `p`. -/
def evClick (p : wxPoint) : TOOL_EVENT :=
  { category := TOOL_EVENT_CATEGORY.TC_MOUSE, action := TOOL_ACTIONS.TA_MOUSE_CLICK,
    leftButton := true, ctrl := false, command := none, cursor := p }

/-- The cancel event, with the pointer at `p`. -/
def evCancel (p : wxPoint) : TOOL_EVENT :=
  { category := TOOL_EVENT_CATEGORY.TC_COMMAND, action := TOOL_ACTIONS.TA_CANCEL_TOOL,
    leftButton := false, ctrl := false, command := none, cursor := p }

/-- The command event of a tool action, with the pointer at `p`. -/
def evCommand (a : COMMON_ACTIONS) (p : wxPoint) : TOOL_EVENT :=
  { category := TOOL_EVENT_CATEGORY.TC_COMMAND, action := TOOL_ACTIONS.TA_ACTION,
    leftButton := false, ctrl := false, command := some a, cursor := p }

/-- The undo entry `SaveCopyInUndoList( selection.items, kind, point )` appends
in the world `w`. -/
def journalEntry (w : World) (kind : UNDO_REDO_T) (point : wxPoint) : PICKED_ITEMS_LIST :=
  { uid := w.nextUid, m_Status := kind, m_TransformPoint := point,
    pickers := w.selection.map (fun i => { item := i, status := kind, link := w.items[i]? }) }

/-- The quarter turn of an item about `r` : `Rotate( r, 900 )`. -/
def quarterTurn (env : ENV) (r : wxPoint) (it : BOARD_ITEM) : BOARD_ITEM :=
  it.Rotate env.rotateGeneric r 900

/-- The board of `exWorld` with only `A` selected and a drag offset of (3,4)
left over from an earlier gesture. -/
def exOneWorld : World :=
  { exWorld with selection := [0], m_offset := ⟨3, 4⟩ }

/-- A behaviour that found nothing to work on : the world `v` it leaves is the
world `w` it started in, but for log entries that are the pick request or the
re-arming of the transitions. -/
def quietExit (w v : World) : Prop :=
  ∃ t, v = { w with log := w.log ++ t }
    ∧ ∀ e ∈ t, e = Effect.runAction COMMON_ACTIONS.selectionSingle ∨ e = Effect.setTransitions

/-- An effect that changes an item of the document or what the view shows : a
move, rotation, flip, flag change, removal, deletion, addition, restore, and
every view add, remove or invalidate. -/
def Effect.isVisible : Effect → Bool
  | Effect.restoreUndo => true
  | Effect.itemMove _ => true
  | Effect.itemRotate _ => true
  | Effect.itemFlip _ => true
  | Effect.clearFlags _ => true
  | Effect.setFlags _ => true
  | Effect.boardRemove _ => true
  | Effect.deleteStructure _ => true
  | Effect.moduleAdd _ _ => true
  | Effect.setLastEditTime _ => true
  | Effect.viewAdd _ => true
  | Effect.viewRemove _ => true
  | Effect.viewUpdate _ _ => true
  | Effect.groupViewUpdate _ => true
  | Effect.itemsViewUpdate _ _ => true
  | Effect.previewAdd => true
  | Effect.previewViewUpdate => true
  | Effect.previewClear => true
  | Effect.previewRemove => true
  | Effect.previewMove => true
  | Effect.previewRotate => true
  | Effect.previewFlip => true
  | _ => false

/-- A trace in which an undo entry of the given kind is appended before anything
visible happens : it splits into a prefix without visible effect, the
`SaveCopyInUndoList` call, and the rest. -/
def journalFirst (kind : UNDO_REDO_T) (t : List Effect) : Prop :=
  ∃ pre ids post, t = pre ++ Effect.saveUndo kind ids :: post
    ∧ ∀ e ∈ pre, e.isVisible = false

/-- The log of `v` continues the log of `w`. -/
def LogExt (w v : World) : Prop := ∃ t, v.log = w.log ++ t

/-- The board of `exWorld` with only `A` selected and no drag offset. -/
def exFlipWorld : World :=
  { exWorld with selection := [0] }

/-- The board of `exWorld` with nothing selected and nothing under the
pointer. -/
def exIdleWorld : World :=
  { exWorld with selection := [] }

/-! ## Removal : what is on the board -/

/-- The owner recorded for the item behind a pointer. -/
def ownerAt (w : World) (i : Nat) : Option OWNER :=
  (w.items[i]?).map (fun it => it.owner)

/-- The item is part of the board : it is owned by the board, or by a footprint
that is owned by the board. -/
def onBoard (w : World) (i : Nat) : Bool :=
  match ownerAt w i with
  | some OWNER.document => true
  | some (OWNER.container m) =>
    TypeOf w m = KICAD_T.PCB_MODULE_T && ownerAt w m = some OWNER.document
  | _ => false

/-- The item has left the document : it is unlinked or destroyed. -/
def gone (w : World) (i : Nat) : Prop :=
  ownerAt w i = some OWNER.unlinked ∨ ownerAt w i = some OWNER.destroyed

/-- The children of a footprint, as `RunOnChildren` visits them. -/
def childrenOf (w : World) (m : Nat) : List Nat :=
  Pads w m ++ GraphicalItems w m

/-- The items `EDIT_TOOL::remove` takes out of the document : a footprint, an
item owned by the board (line, text, track, via, dimension, target, marker,
zone), and, in child-edit mode only, a pad, a footprint edge, or a footprint
text that is neither the reference nor the value. -/
def removable (editModules : Bool) (it : BOARD_ITEM) : Bool :=
  match it.type with
  | KICAD_T.PCB_MODULE_T => true
  | KICAD_T.PCB_MODULE_TEXT_T =>
    editModules && it.textType = TEXT_TYPE.TEXT_is_DIVERS
  | KICAD_T.PCB_PAD_T => editModules
  | KICAD_T.PCB_MODULE_EDGE_T => editModules
  | KICAD_T.NOT_USED => false
  | _ => true

/-- `removable`, for the item behind a pointer. -/
def removableAt (w : World) (i : Nat) : Bool :=
  match w.items[i]? with
  | some it => removable w.m_editModules it
  | none => false

/-- A footprint `M` at (100,100) with its reference text, a pad and an edge, and
a track on the board; the footprint and the track are selected. -/
def exBoardWorld : World :=
  { exWorld with
    items := [exItem KICAD_T.PCB_MODULE_T ⟨100, 100⟩,
              { exItem KICAD_T.PCB_MODULE_TEXT_T ⟨100, 90⟩ with
                owner := OWNER.container 0, textType := TEXT_TYPE.TEXT_is_REFERENCE },
              { exItem KICAD_T.PCB_PAD_T ⟨95, 100⟩ with owner := OWNER.container 0 },
              { exItem KICAD_T.PCB_MODULE_EDGE_T ⟨105, 100⟩ with owner := OWNER.container 0 },
              exItem KICAD_T.PCB_TRACE_T ⟨50, 50⟩],
    view := [0, 1, 2, 3, 4],
    selection := [0, 4] }

/-- The footprint editor on the board of `exBoardWorld` : child-edit mode, the
pad and the edge of the footprint are selected. -/
def exEditWorld : World :=
  { exBoardWorld with m_editModules := true, selection := [2, 3] }

/-- The board of `exBoardWorld` outside child-edit mode, with the reference text
of the footprint selected. -/
def exTextWorld : World :=
  { exBoardWorld with selection := [1] }

/-- What one call `remove( aItem )` does to the world, from `w` to `v` : the
other items keep their state, the view only shrinks, and the item itself, when
it is one that `remove` takes out of the document, is unlinked or destroyed and
has left the view, a footprint together with its children. -/
def RemoveStep (w v : World) (i : Nat) : Prop :=
  v.m_editModules = w.m_editModules
    ∧ v.items.length = w.items.length
    ∧ (∀ j, j ≠ i → v.items[j]? = w.items[j]?)
    ∧ (∀ j, j ∈ v.view → j ∈ w.view)
    ∧ (∀ it, w.items[i]? = some it →
        if removable w.m_editModules it then
          (∃ it2, v.items[i]? = some it2 ∧ it2.type = it.type ∧ it2.textType = it.textType
              ∧ (it2.owner = OWNER.unlinked ∨ it2.owner = OWNER.destroyed))
            ∧ i ∉ v.view
            ∧ (it.type = KICAD_T.PCB_MODULE_T →
                ∀ j, ownerAt w j = some (OWNER.container i) → j ∉ v.view)
        else v.items[i]? = some it)

/-- What the loop of `Remove` keeps true, between the world `w` it starts in and
a later world `v` : items keep their type and role; an item whose owner changed
is unlinked or destroyed and has left the view; the view only shrinks; and the
children of a footprint whose owner changed have left the view. -/
def RemoveInv (w v : World) : Prop :=
  v.m_editModules = w.m_editModules
    ∧ v.items.length = w.items.length
    ∧ (∀ j it, w.items[j]? = some it →
        ∃ it2, v.items[j]? = some it2 ∧ it2.type = it.type ∧ it2.textType = it.textType
          ∧ (it2.owner = it.owner
              ∨ ((it2.owner = OWNER.unlinked ∨ it2.owner = OWNER.destroyed) ∧ j ∉ v.view)))
    ∧ (∀ j, j ∈ v.view → j ∈ w.view)
    ∧ (∀ m, TypeOf w m = KICAD_T.PCB_MODULE_T → ownerAt v m ≠ ownerAt w m →
        ∀ j, ownerAt w j = some (OWNER.container m) → j ∉ v.view)

/-- What the loop of `Remove` has achieved in the world `v` for an item `i` it
has handled : when `remove` takes the item out of the document, the item is
unlinked or destroyed and has left the view, and so have the children it had in
the world `w` when it is a footprint. -/
def Removed (w v : World) (i : Nat) : Prop :=
  ∀ it, w.items[i]? = some it → removable w.m_editModules it = true →
    gone v i ∧ i ∉ v.view
      ∧ (it.type = KICAD_T.PCB_MODULE_T →
          ∀ j, ownerAt w j = some (OWNER.container i) → j ∉ v.view)

/-- The board of `exTextWorld` in child-edit mode. -/
def exTextEditWorld : World :=
  { exTextWorld with m_editModules := true }

/-! ## Copy and paste : what is copied, and what it becomes -/

/-- The branches of the `if` chain in the loop of `EDIT_TOOL::PasteItems`. -/
inductive PASTE_BRANCH
  | motion
  | rotate
  | flip
  | cancel
  | command
  | click
  | ignored
deriving DecidableEq, Repr

/-- The branch of the loop of `EDIT_TOOL::PasteItems` that handles an event : the
conditions of the `if` chain, in the order of the source. -/
def pasteBranch (evt : TOOL_EVENT) : PASTE_BRANCH :=
  if evt.IsMotion then PASTE_BRANCH.motion
  else if evt.category = TOOL_EVENT_CATEGORY.TC_COMMAND then
    if evt.IsAction COMMON_ACTIONS.rotate then PASTE_BRANCH.rotate
    else if evt.IsAction COMMON_ACTIONS.flip then PASTE_BRANCH.flip
    else if evt.IsCancel || evt.IsActivate then PASTE_BRANCH.cancel
    else PASTE_BRANCH.command
  else if evt.IsClickLeft then PASTE_BRANCH.click
  else PASTE_BRANCH.ignored

/-- An event that keeps the preview of `PasteItems` alive : everything but the
cancel event and the left click. -/
def isPreviewEvent (evt : TOOL_EVENT) : Bool :=
  pasteBranch evt != PASTE_BRANCH.cancel && pasteBranch evt != PASTE_BRANCH.click

/-- The footprint with `f` applied to itself and to every child. -/
def MODULE_DATA.mapAll (f : BOARD_ITEM → BOARD_ITEM) (m : MODULE_DATA) : MODULE_DATA :=
  { self := f m.self, m_Pads := m.m_Pads.map f, m_Drawings := m.m_Drawings.map f }

/-- A change of placement : the type, the role, the shape and attributes, the
owner and the flags of the item stay. -/
def keepsShape (f : BOARD_ITEM → BOARD_ITEM) : Prop :=
  ∀ it, (f it).type = it.type ∧ (f it).textType = it.textType ∧ (f it).attrs = it.attrs
    ∧ (f it).owner = it.owner ∧ (f it).flags = it.flags

/-- The items of the working set, in selection order. -/
def selectedItems (w : World) : List BOARD_ITEM :=
  w.selection.filterMap (fun i => w.items[i]?)

/-- The order in which `PasteItems` adds the copies : pads first, then the
graphical items. -/
def pasteOrder (l : List BOARD_ITEM) : List BOARD_ITEM :=
  l.filter (fun it => it.type = KICAD_T.PCB_PAD_T)
    ++ l.filter (fun it => !(it.type = KICAD_T.PCB_PAD_T))

/-- A child item of a footprint : a pad, a footprint text or a footprint edge. -/
def isChildType (t : KICAD_T) : Bool :=
  t = KICAD_T.PCB_PAD_T || t = KICAD_T.PCB_MODULE_TEXT_T || t = KICAD_T.PCB_MODULE_EDGE_T

/-- The local coordinates `SetLocalCoord` gives an item of the footprint
`parent`. -/
def localCoord (env : ENV) (parent : BOARD_ITEM) (p : wxPoint) : wxPoint :=
  RotatePoint env.rotateGeneric (p - parent.pos) (- parent.orient)

/-- The item `new` is a pasted copy of `orig` in the footprint `cm` : same type,
same shape and attributes, owned by the footprint, with the generic role when it
is a text, and with local coordinates that are its position rebased to the
footprint `parent`. -/
def pastedFrom (env : ENV) (cm : Nat) (parent : BOARD_ITEM) (orig new : BOARD_ITEM) : Prop :=
  new.type = orig.type ∧ new.attrs = orig.attrs ∧ new.owner = OWNER.container cm
    ∧ (new.type = KICAD_T.PCB_MODULE_TEXT_T → new.textType = TEXT_TYPE.TEXT_is_DIVERS)
    ∧ new.pos0 = localCoord env parent new.pos

/-- The item `new` is placed where `orig` is : same position, orientation and
side. -/
def samePlace (orig new : BOARD_ITEM) : Prop :=
  new.pos = orig.pos ∧ new.orient = orig.orient ∧ new.flipped = orig.flipped

/-- The item the commit branch of `PasteItems` stores for a child `c` of the
pasted footprint, in the footprint `cm` whose state is `parent`. -/
def commitClone (env : ENV) (cm : Nat) (parent : BOARD_ITEM) (c : BOARD_ITEM) : BOARD_ITEM :=
  if c.type = KICAD_T.PCB_PAD_T then
    { c.Clone with owner := OWNER.container cm, pos0 := localCoord env parent c.pos }
  else if c.type = KICAD_T.PCB_MODULE_TEXT_T then
    { c.Clone with textType := TEXT_TYPE.TEXT_is_DIVERS, owner := OWNER.container cm,
                   pos0 := localCoord env parent c.pos }
  else if c.type = KICAD_T.PCB_MODULE_EDGE_T then
    { c.Clone with owner := OWNER.container cm, pos0 := localCoord env parent c.pos }
  else c.Clone

/-- The footprint editor on the board of `exBoardWorld` : child-edit mode, the
reference text, the pad and the edge of the footprint are selected. -/
def exCopyWorld : World :=
  { exBoardWorld with m_editModules := true, selection := [1, 2, 3] }

/-- Collaborators with a clipboard codec that returns the footprint copied from
`exCopyWorld`. -/
def exCodecEnv : ENV :=
  { exEnv with
    Format := fun _ => "(module)",
    Parse := fun s => if s = "(module)" then some (copyModule exCopyWorld) else none }

/-- An event after which the loop of `EDIT_TOOL::Main` waits for the next one :
no `break` is reached while it is handled. -/
def staysInLoop (evt : TOOL_EVENT) : Bool :=
  match mainBranch evt with
  | MAIN_BRANCH.rotate => true
  | MAIN_BRANCH.flip => true
  | MAIN_BRANCH.command => true
  | MAIN_BRANCH.motion => true
  | MAIN_BRANCH.ignored => true
  | _ => false

/-- The notification that an undo or redo was run, with the pointer at `p`. -/
def evUndoRedo (p : wxPoint) : TOOL_EVENT :=
  { category := TOOL_EVENT_CATEGORY.TC_MESSAGE, action := TOOL_ACTIONS.TA_UNDO_REDO,
    leftButton := false, ctrl := false, command := none, cursor := p }

/-- The board of `exBoardWorld` outside child-edit mode, with the pad of the
footprint and the track selected. -/
def exMixedWorld : World :=
  { exBoardWorld with selection := [2, 4] }

/-- The anchor of a drag : the tool is dragging and the first item of the
working set sits at `m_cursor + m_offset`. -/
def dragAnchored (v : World) : Prop :=
  v.m_dragging = true ∧ GetPosition v (v.selection.headD 0) = v.m_cursor + v.m_offset

/-- The cursor of the last motion or left-drag event among `events`, or `c`
when there is none. -/
def lastCursor (c : wxPoint) (events : List TOOL_EVENT) : wxPoint :=
  events.foldl (fun c e => if mainBranch e = MAIN_BRANCH.motion then e.cursor else c) c

/-- A working set of distinct pointers to items of the store. -/
def validSelection (w : World) : Prop :=
  w.selection ≠ [] ∧ w.selection.Nodup ∧ ∀ i ∈ w.selection, i < w.items.length

/-! ## Properties : what is propagated after the editor -/

/-- The calls on the ratsnest (`RN_DATA`). -/
def Effect.isRatsnest : Effect → Bool
  | Effect.rnClearSimple => true
  | Effect.rnUpdate _ => true
  | Effect.rnAddSimple _ => true
  | Effect.rnRecalculate => true
  | _ => false

/-- A step from `w` to `v` that only talks to the view : the selection, the
items and the undo list are kept, and the effects added to the log hold no call
on the ratsnest. -/
def viewOnly (w v : World) : Prop :=
  v.selection = w.selection ∧ v.items = w.items ∧ v.undoList = w.undoList
    ∧ ∃ t, v.log = w.log ++ t ∧ ∀ e ∈ t, Effect.isRatsnest e = false

/-- The identity of the tip of the undo list, what `undoList.back()` points
to. -/
def tipUid (w : World) : Option Nat :=
  w.undoList.getLast?.map (fun l => l.uid)

/-- The world in which `Properties` calls the property editor, from the world
`w0` left by `makeSelection` : the selection is cleared and the flags of the
item are cleared. -/
def propertiesRequest (env : ENV) (w0 : World) : World :=
  emit (clearFlags (selectionClear w0) (propertiesTarget env w0))
    (Effect.editItemRequest (propertiesTarget env w0))

/-- The world the property editor hands back to `Properties`. -/
def propertiesEdited (env : ENV) (w0 : World) : World :=
  env.OnEditItemRequest (propertiesTarget env w0) (propertiesRequest env w0)

/-- Collaborators with a property editor that journals the item as changed and
moves it by (5,0). -/
def exEditorEnv : ENV :=
  { exEnv with
    OnEditItemRequest := fun id w =>
      itemMove (SaveCopyInUndoList (emit w Effect.onModify) [(id, UNDO_REDO_T.UR_CHANGED)]
        UNDO_REDO_T.UR_CHANGED default) id ⟨5, 0⟩ }

/-- The body of the loop of `processChanges`, for one picked item. -/
def processStep (w1 : World) (p : ITEM_PICKER) : World :=
  match p.status with
  | UNDO_REDO_T.UR_CHANGED => viewUpdate w1 p.item VIEW_UPDATE_FLAGS.GEOMETRY
  | UNDO_REDO_T.UR_MODEDIT => viewUpdate w1 p.item VIEW_UPDATE_FLAGS.GEOMETRY
  | UNDO_REDO_T.UR_DELETED =>
    let w2 := if TypeOf w1 p.item = KICAD_T.PCB_MODULE_T
              then RunOnChildren w1 p.item viewRemove else w1
    viewRemove w2 p.item
  | UNDO_REDO_T.UR_NEW =>
    let w2 := if TypeOf w1 p.item = KICAD_T.PCB_MODULE_T
              then RunOnChildren w1 p.item viewAdd else w1
    viewUpdate (viewAdd w2 p.item) p.item VIEW_UPDATE_FLAGS.ALL
  | _ => w1

/-! # Theorems -/

theorem moveLoop_fold (delta : wxPoint) (ids : List Nat) (w : World) :
    ids.foldl (fun v i => itemMove v i delta) w =
      { w with items := modifyAll (fun it => it.Move delta) ids w.items,
               log := w.log ++ ids.map Effect.itemMove } := by
  induction ids generalizing w with
  | nil => simp [modifyAll]
  | cons i t ih =>
    rw [List.foldl_cons, ih]
    simp [itemMove, modifyItem, emit, modifyAll]

theorem moveLoop_eq (w : World) (delta : wxPoint) :
    moveLoop w delta =
      { w with items := modifyAll (fun it => it.Move delta) w.selection w.items,
               log := w.log ++ w.selection.map Effect.itemMove } :=
  moveLoop_fold delta w.selection w

theorem rotateLoop_fold (env : ENV) (r : wxPoint) (ids : List Nat) (w : World) :
    ids.foldl
      (fun v i =>
        let v1 := itemRotate env v i r v.rotationAngle
        if !v1.m_dragging then viewUpdate v1 i VIEW_UPDATE_FLAGS.GEOMETRY else v1) w =
      { w with items := modifyAll (fun it => it.Rotate env.rotateGeneric r w.rotationAngle)
                          ids w.items,
               log := w.log ++ rotateTrace w.m_dragging ids } := by
  induction ids generalizing w with
  | nil => simp [modifyAll, rotateTrace]
  | cons i t ih =>
    rw [List.foldl_cons, ih]
    cases h : w.m_dragging <;>
      simp [itemRotate, viewUpdate, modifyItem, emit, modifyAll, rotateTrace, h]

theorem rotateLoop_eq (env : ENV) (w : World) (r : wxPoint) :
    rotateLoop env w r =
      { w with items := modifyAll (fun it => it.Rotate env.rotateGeneric r w.rotationAngle)
                          w.selection w.items,
               log := w.log ++ rotateTrace w.m_dragging w.selection } :=
  rotateLoop_fold env r w.selection w

theorem flipLoop_fold (c : wxPoint) (ids : List Nat) (w : World) :
    ids.foldl
      (fun v i =>
        let v1 := itemFlip v i c
        if !v1.m_dragging then viewUpdate v1 i VIEW_UPDATE_FLAGS.LAYERS else v1) w =
      { w with items := modifyAll (fun it => it.Flip c) ids w.items,
               log := w.log ++ flipTrace w.m_dragging ids } := by
  induction ids generalizing w with
  | nil => simp [modifyAll, flipTrace]
  | cons i t ih =>
    rw [List.foldl_cons, ih]
    cases h : w.m_dragging <;>
      simp [itemFlip, viewUpdate, modifyItem, emit, modifyAll, flipTrace, h]

theorem flipLoop_eq (w : World) (c : wxPoint) :
    flipLoop w c =
      { w with items := modifyAll (fun it => it.Flip c) w.selection w.items,
               log := w.log ++ flipTrace w.m_dragging w.selection } :=
  flipLoop_fold c w.selection w

theorem updateRatsnest_fold (aRedraw : Bool) (ids : List Nat) (w : World) :
    ids.foldl
      (fun w1 i =>
        let w2 := emit w1 (Effect.rnUpdate i)
        if aRedraw then emit w2 (Effect.rnAddSimple i) else w2) w =
      { w with log := w.log ++ ratsnestTrace aRedraw ids } := by
  induction ids generalizing w with
  | nil => simp [ratsnestTrace]
  | cons i t ih =>
    rw [List.foldl_cons, ih]
    cases aRedraw <;> simp [emit, ratsnestTrace]

theorem updateRatsnest_eq (w : World) (aRedraw : Bool) :
    updateRatsnest w aRedraw =
      { w with log := w.log ++ Effect.rnClearSimple :: ratsnestTrace aRedraw w.selection } := by
  unfold updateRatsnest
  rw [updateRatsnest_fold]
  simp [emit]

/-! ## Normal forms -/

theorem getModificationPoint_eq (w : World) :
    getModificationPoint w =
      ({ w with m_cursor := if w.selection.length = 1 ∨ w.toolActive = true then w.m_cursor
                            else w.viewCursor }, pivot w) := by
  unfold getModificationPoint pivot
  by_cases h : w.selection.length = 1
  · simp [h]
  · cases w
    rename_i ta _ _ _ _ _
    cases ta <;> simp_all

theorem isEmpty_of_ne {l : List Nat} (h : l ≠ []) : l.isEmpty = false := by
  cases l with
  | nil => exact absurd rfl h
  | cons a t => rfl

theorem makeSelection_of_ne (w : World) (h : w.selection ≠ []) : makeSelection w = (w, true) := by
  unfold makeSelection
  simp [isEmpty_of_ne h]

theorem Rotate_dragging (env : ENV) (w : World) (h : w.selection ≠ []) (hd : w.m_dragging = true) :
    Rotate env w =
      { w with
        items := rotatedItems env w,
        m_cursor := if w.selection.length = 1 ∨ w.toolActive = true then w.m_cursor
                    else w.viewCursor,
        m_offset := posAt (rotatedItems env w) (w.selection.headD 0) - pivot w,
        log := w.log ++ rotateTrace true w.selection
                 ++ Effect.rnClearSimple :: ratsnestTrace true w.selection
                 ++ [Effect.groupViewUpdate VIEW_UPDATE_FLAGS.GEOMETRY,
                     Effect.runAction COMMON_ACTIONS.pointEditorUpdate,
                     Effect.setTransitions] } := by
  unfold Rotate
  simp only [makeSelection_of_ne w h, getModificationPoint_eq]
  simp [hd, isEmpty_of_ne h, rotateLoop_eq, updateRatsnest_eq, setTransitions, emit, GetPosition,
    rotatedItems]

theorem Flip_dragging (w : World) (h : w.selection ≠ []) (hd : w.m_dragging = true) :
    Flip w =
      { w with
        items := flippedItems w,
        m_cursor := if w.selection.length = 1 ∨ w.toolActive = true then w.m_cursor
                    else w.viewCursor,
        m_offset := posAt (flippedItems w) (w.selection.headD 0) - pivot w,
        log := w.log ++ flipTrace true w.selection
                 ++ Effect.rnClearSimple :: ratsnestTrace true w.selection
                 ++ [Effect.groupViewUpdate VIEW_UPDATE_FLAGS.GEOMETRY,
                     Effect.runAction COMMON_ACTIONS.pointEditorUpdate,
                     Effect.setTransitions] } := by
  unfold Flip
  simp only [makeSelection_of_ne w h, getModificationPoint_eq]
  simp [hd, isEmpty_of_ne h, flipLoop_eq, updateRatsnest_eq, setTransitions, emit, GetPosition,
    flippedItems]

/-- The entry appended when a drag is armed. -/
theorem mainMotion_dragging (w : World) (ctrl : Bool) (hd : w.m_dragging = true) :
    mainMotion w ctrl =
      { w with
        items := modifyAll
          (fun it => it.Move (w.viewCursor - posAt w.items (w.selection.headD 0) + w.m_offset))
          w.selection w.items,
        m_cursor := w.viewCursor,
        log := w.log ++ w.selection.map Effect.itemMove
                 ++ Effect.rnClearSimple :: ratsnestTrace true w.selection
                 ++ [Effect.groupViewUpdate VIEW_UPDATE_FLAGS.GEOMETRY,
                     Effect.runAction COMMON_ACTIONS.pointEditorUpdate] } := by
  unfold mainMotion
  simp [hd, moveLoop_eq, updateRatsnest_eq, emit, GetPosition]

/-! ## Item stores that differ only on the selection -/

theorem modifyAt_length (l : List BOARD_ITEM) (i : Nat) (f : BOARD_ITEM → BOARD_ITEM) :
    (modifyAt l i f).length = l.length := by
  unfold modifyAt
  split <;> simp

theorem modifyAt_getElem? (l : List BOARD_ITEM) (i j : Nat) (f : BOARD_ITEM → BOARD_ITEM) :
    (modifyAt l i f)[j]? = if j = i then (l[j]?).map f else l[j]? := by
  unfold modifyAt
  by_cases hji : j = i
  · subst hji
    cases h : l[j]? with
    | none => simp [h]
    | some it =>
      have hlt : j < l.length := by
        by_contra hge
        rw [List.getElem?_eq_none (Nat.le_of_not_lt hge)] at h
        cases h
      simp [List.getElem?_set, hlt]
  · cases h : l[i]? with
    | none => simp [hji]
    | some it =>
      have hij : ¬ i = j := fun e => hji e.symm
      simp [List.getElem?_set, hji, hij]

theorem modifyAll_length (f : BOARD_ITEM → BOARD_ITEM) (ids : List Nat) (l : List BOARD_ITEM) :
    (modifyAll f ids l).length = l.length := by
  induction ids generalizing l with
  | nil => rfl
  | cons i t ih =>
    show (modifyAll f t (modifyAt l i f)).length = l.length
    rw [ih, modifyAt_length]

theorem modifyAll_getElem?_of_not_mem (f : BOARD_ITEM → BOARD_ITEM) (ids : List Nat)
    (l : List BOARD_ITEM) (j : Nat) (hj : j ∉ ids) : (modifyAll f ids l)[j]? = l[j]? := by
  induction ids generalizing l with
  | nil => rfl
  | cons i t ih =>
    have hji : j ≠ i := fun e => hj (by simp [e])
    have hjt : j ∉ t := fun e => hj (by simp [e])
    show (modifyAll f t (modifyAt l i f))[j]? = l[j]?
    rw [ih _ hjt, modifyAt_getElem?, if_neg hji]

theorem touchOnly_refl (S : List Nat) (a : List BOARD_ITEM) : touchOnly S a a :=
  ⟨rfl, fun _ _ => rfl⟩

theorem touchOnly_trans {S : List Nat} {a b c : List BOARD_ITEM} (h1 : touchOnly S a b)
    (h2 : touchOnly S b c) : touchOnly S a c :=
  ⟨h2.1.trans h1.1, fun j hj => (h2.2 j hj).trans (h1.2 j hj)⟩

theorem touchOnly_modifyAll (f : BOARD_ITEM → BOARD_ITEM) (S : List Nat) (l : List BOARD_ITEM) :
    touchOnly S l (modifyAll f S l) :=
  ⟨modifyAll_length f S l, fun j hj => modifyAll_getElem?_of_not_mem f S l j hj⟩

theorem DragInv_trans {a b c : World} (h1 : DragInv a b) (h2 : DragInv b c) : DragInv a c := by
  obtain ⟨s1, u1, _, t1⟩ := h1
  obtain ⟨s2, u2, d2, t2⟩ := h2
  refine ⟨s2.trans s1, u2.trans u1, d2, ?_⟩
  rw [s1] at t2
  exact touchOnly_trans t1 t2

/-! ## The loop of `Main` -/

theorem mainLoop_cons (env : ENV) (w : World) (u : Bool) (evt : TOOL_EVENT)
    (rest : List TOOL_EVENT) :
    mainLoop env w u (evt :: rest) =
      match mainBranch evt with
      | MAIN_BRANCH.cancel => (Wait w evt, true, u)
      | MAIN_BRANCH.undoRedo => (Wait w evt, false, true)
      | MAIN_BRANCH.rotate => mainLoop env (Rotate env (Wait w evt)) u rest
      | MAIN_BRANCH.flip =>
        mainLoop env (enableUpdateFlag (Flip (Wait w evt)) VIEW_UPDATE_FLAGS.LAYERS) u rest
      | MAIN_BRANCH.remove => (Remove (Wait w evt), false, u)
      | MAIN_BRANCH.command => mainLoop env (Wait w evt) u rest
      | MAIN_BRANCH.motion => mainLoop env (mainMotion (Wait w evt) evt.ctrl) u rest
      | MAIN_BRANCH.finish => (Wait w evt, false, u)
      | MAIN_BRANCH.ignored => mainLoop env (Wait w evt) u rest := by
  rw [mainLoop]
  unfold mainBranch
  split_ifs <;> rfl

/-- One drag event, handled while dragging, keeps the drag invariant. -/
theorem DragInv_step (env : ENV) (w : World) (u : Bool) (evt : TOOL_EVENT)
    (rest : List TOOL_EVENT) (hsel : w.selection ≠ []) (hd : w.m_dragging = true)
    (hevt : isDragEvent evt = true) :
    ∃ v, mainLoop env w u (evt :: rest) = mainLoop env v u rest ∧ DragInv w v := by
  have hW : (Wait w evt).selection ≠ [] := hsel
  have hWd : (Wait w evt).m_dragging = true := hd
  rw [mainLoop_cons]
  unfold isDragEvent at hevt
  cases hb : mainBranch evt <;> simp [hb] at hevt ⊢
  · refine ⟨_, rfl, ?_⟩
    rw [Rotate_dragging env _ hW hWd]
    exact ⟨rfl, rfl, hd, touchOnly_modifyAll _ _ _⟩
  · refine ⟨_, rfl, ?_⟩
    rw [Flip_dragging _ hW hWd]
    exact ⟨rfl, rfl, hd, touchOnly_modifyAll _ _ _⟩
  · refine ⟨_, rfl, ?_⟩
    rw [mainMotion_dragging _ _ hWd]
    exact ⟨rfl, rfl, hd, touchOnly_modifyAll _ _ _⟩

/-- Any number of drag events, handled while dragging, keep the drag
invariant. -/
theorem DragInv_phase (env : ENV) (u : Bool) (mid rest : List TOOL_EVENT)
    (hmid : ∀ e ∈ mid, isDragEvent e = true) (w : World) (hsel : w.selection ≠ [])
    (hd : w.m_dragging = true) :
    ∃ v, mainLoop env w u (mid ++ rest) = mainLoop env v u rest ∧ DragInv w v := by
  induction mid generalizing w with
  | nil => exact ⟨w, rfl, rfl, rfl, hd, touchOnly_refl _ _⟩
  | cons e t ih =>
    obtain ⟨v, hv, hinv⟩ := DragInv_step env w u e (t ++ rest) hsel hd
      (hmid e (List.mem_cons_self _ _))
    have hvs : v.selection ≠ [] := by rw [hinv.1]; exact hsel
    obtain ⟨v2, hv2, hinv2⟩ := ih (fun e he => hmid e (List.mem_cons_of_mem _ he)) v hvs
      hinv.2.2.1
    exact ⟨v2, by rw [List.cons_append, hv, hv2], DragInv_trans hinv hinv2⟩

/-! ## Arming, committing and cancelling a drag -/

theorem mainMotion_arming (w : World) (ctrl : Bool) (hd : w.m_dragging = false) :
    mainMotion w ctrl =
      { w with
        undoList := w.undoList ++ [armEntry w],
        nextUid := w.nextUid + 1,
        m_dragging := true,
        m_cursor := if ctrl then posAt w.items (w.selection.headD 0) else w.viewCursor,
        m_offset := if ctrl then ⟨0, 0⟩
                    else posAt w.items (w.selection.headD 0) - w.viewCursor,
        log := w.log ++ [Effect.onModify, Effect.saveUndo UNDO_REDO_T.UR_CHANGED w.selection,
                         Effect.groupViewUpdate VIEW_UPDATE_FLAGS.GEOMETRY,
                         Effect.runAction COMMON_ACTIONS.pointEditorUpdate] } := by
  unfold mainMotion
  cases ctrl <;>
    simp [hd, SaveCopyInUndoList, selectionItems, emit, GetPosition, armEntry, List.map_map,
      Function.comp_def]

theorem restorePickers_length (ps : List ITEM_PICKER) (l : List BOARD_ITEM) :
    (restorePickers l ps).length = l.length := by
  induction ps generalizing l with
  | nil => rfl
  | cons p t ih =>
    rw [restorePickers]
    split
    · rw [ih, List.length_set]
    · exact ih l

/-- Writing back the snapshots of the items of `S`, taken in the store `a`, turns
a store that differs from `a` only on `S` into `a`. -/
theorem restorePickers_snapshot (st : UNDO_REDO_T) (a : List BOARD_ITEM) (S T : List Nat)
    (l : List BOARD_ITEM) (hlen : l.length = a.length)
    (h : ∀ j, j ∉ S → j ∉ T → l[j]? = a[j]?) :
    ∀ j, j ∉ S →
      (restorePickers l (T.map (fun i => { item := i, status := st, link := a[i]? })))[j]?
        = a[j]? := by
  induction T generalizing l with
  | nil => intro j hj; exact h j hj (List.not_mem_nil j)
  | cons i t ih =>
    intro j hj
    rw [List.map_cons, restorePickers]
    cases hi : a[i]? with
    | none =>
      simp only []
      apply ih l hlen _ j hj
      intro k hkS hkt
      by_cases hki : k = i
      · subst hki
        rw [hi]
        have hge : a.length ≤ k := by
          by_contra hlt
          rw [List.getElem?_eq_getElem (Nat.lt_of_not_le hlt)] at hi
          cases hi
        exact List.getElem?_eq_none (hlen ▸ hge)
      · exact h k hkS (by simp [hki, hkt])
    | some s =>
      simp only []
      apply ih (l.set i s) (by rw [List.length_set, hlen]) _ j hj
      intro k hkS hkt
      by_cases hki : k = i
      · subst hki
        have hlt : k < l.length := by
          rw [hlen]
          by_contra hge
          rw [List.getElem?_eq_none (Nat.le_of_not_lt hge)] at hi
          cases hi
        rw [hi]
        simp [List.getElem?_set, hlt]
      · have hik : ¬ i = k := fun e => hki e.symm
        rw [List.getElem?_set]
        simp only [hik, if_false]
        exact h k hkS (by simp [hki, hkt])

theorem restorePickers_armEntry (a : World) (l : List BOARD_ITEM)
    (h : touchOnly a.selection a.items l) :
    restorePickers l (armEntry a).pickers = a.items := by
  apply List.ext_getElem?
  intro j
  exact restorePickers_snapshot UNDO_REDO_T.UR_CHANGED a.items [] a.selection l h.1
    (fun k _ hk => h.2 k hk) j (List.not_mem_nil j)

theorem Main_of_ok (env : ENV) (w : World) (events : List TOOL_EVENT)
    (hok : (makeSelection w).2 = true) :
    Main env w events =
      mainFinish (mainLoop env (mainEntry (makeSelection w).1) w.selection.isEmpty events).1
        (mainLoop env (mainEntry (makeSelection w).1) w.selection.isEmpty events).2.1
        (mainLoop env (mainEntry (makeSelection w).1) w.selection.isEmpty events).2.2 := by
  unfold Main
  simp [hok, mainEntry]

theorem Main_of_not_ok (env : ENV) (w : World) (events : List TOOL_EVENT)
    (hok : (makeSelection w).2 = false) :
    Main env w events = setTransitions (makeSelection w).1 := by
  unfold Main
  simp [hok]

theorem makeSelection_items (w : World) : (makeSelection w).1.items = w.items := by
  unfold makeSelection
  by_cases h : w.selection.isEmpty <;> simp [h, selectionSingle, emit]

theorem makeSelection_undoList (w : World) : (makeSelection w).1.undoList = w.undoList := by
  unfold makeSelection
  by_cases h : w.selection.isEmpty <;> simp [h, selectionSingle, emit]

theorem makeSelection_view (w : World) : (makeSelection w).1.view = w.view := by
  unfold makeSelection
  by_cases h : w.selection.isEmpty <;> simp [h, selectionSingle, emit]

theorem makeSelection_ok (w : World) (hok : (makeSelection w).2 = true) :
    (makeSelection w).1.selection ≠ [] := by
  intro h
  unfold makeSelection at hok
  simp only [] at hok
  unfold makeSelection at h
  simp only [] at h
  rw [h] at hok
  simp at hok

/-- A drag that is armed by the first event and kept going by drag events
reaches its last event with the armed entry on top of the undo list. -/
theorem mainLoop_armed (env : ENV) (w : World) (u : Bool) (first : TOOL_EVENT)
    (mid rest : List TOOL_EVENT) (hsel : w.selection ≠ []) (hd : w.m_dragging = false)
    (hfirst : mainBranch first = MAIN_BRANCH.motion)
    (hmid : ∀ e ∈ mid, isDragEvent e = true) :
    ∃ v, mainLoop env w u (first :: (mid ++ rest)) = mainLoop env v u rest
      ∧ v.selection = w.selection
      ∧ v.undoList = w.undoList ++ [armEntry w]
      ∧ touchOnly w.selection w.items v.items := by
  have hWd : (Wait w first).m_dragging = false := hd
  rw [mainLoop_cons, hfirst]
  simp only []
  have harm := mainMotion_arming (Wait w first) first.ctrl hWd
  obtain ⟨v, hv, hinv⟩ := DragInv_phase env u mid rest hmid
    (mainMotion (Wait w first) first.ctrl) (by rw [harm]; exact hsel) (by rw [harm])
  refine ⟨v, hv, ?_, ?_, ?_⟩
  · rw [hinv.1, harm]; rfl
  · rw [hinv.2.1, harm]; rfl
  · have := hinv.2.2.2
    rw [harm] at this
    exact this

theorem RestoreCopyFromUndoList_tip (w : World) (U : List PICKED_ITEMS_LIST)
    (e : PICKED_ITEMS_LIST) (hu : w.undoList = U ++ [e]) :
    (RestoreCopyFromUndoList w).items = restorePickers w.items e.pickers
      ∧ (RestoreCopyFromUndoList w).undoList = U := by
  unfold RestoreCopyFromUndoList
  simp [hu, emit]

theorem mainFinish_restore (a v : World) (u : Bool)
    (hu : v.undoList = a.undoList ++ [armEntry a])
    (ht : touchOnly a.selection a.items v.items) :
    (mainFinish v true u).items = a.items ∧ (mainFinish v true u).undoList = a.undoList := by
  have h1 := RestoreCopyFromUndoList_tip { v with m_dragging := false } a.undoList (armEntry a) hu
  rw [restorePickers_armEntry a v.items ht] at h1
  unfold mainFinish
  cases u <;> simp [emit, setTransitions, selectionClear, h1.1, h1.2]

theorem mainFinish_commit (v : World) (u : Bool) :
    (mainFinish v false u).items = v.items ∧ (mainFinish v false u).undoList = v.undoList := by
  unfold mainFinish
  cases u <;> simp [emit, setTransitions, selectionClear]

/-! ## Drag gestures : one undo entry, and cancellation -/

/-- C1 : a `Main` session on a non-empty selection whose first handled event is
a motion or left-drag event, followed by any number of motion, rotate and flip
events and ended by a left mouse-up or click, grows the undo list by exactly one
entry; the entry has kind `UR_CHANGED` and lists every selected item, in order,
with status `UR_CHANGED` and the state the item had when `Main` was entered. -/
theorem Main_drag_one_entry (env : ENV) (w : World) (first : TOOL_EVENT)
    (mid : List TOOL_EVENT) (last : TOOL_EVENT) (rest : List TOOL_EVENT)
    (hsel : w.selection ≠ [])
    (hfirst : mainBranch first = MAIN_BRANCH.motion)
    (hmid : ∀ e ∈ mid, isDragEvent e = true)
    (hlast : mainBranch last = MAIN_BRANCH.finish) :
    (Main env w (first :: (mid ++ last :: rest))).undoList = w.undoList ++ [armEntry w]
      ∧ (armEntry w).m_Status = UNDO_REDO_T.UR_CHANGED
      ∧ (armEntry w).pickers.map (fun p => p.item) = w.selection
      ∧ (∀ p ∈ (armEntry w).pickers,
          p.status = UNDO_REDO_T.UR_CHANGED ∧ p.link = w.items[p.item]?) := by
  have hok : (makeSelection w).2 = true := by rw [makeSelection_of_ne w hsel]
  refine ⟨?_, rfl, ?_, ?_⟩
  · rw [Main_of_ok env w _ hok, makeSelection_of_ne w hsel]
    obtain ⟨v, hv, _, hu, _⟩ := mainLoop_armed env (mainEntry w) w.selection.isEmpty first mid
      (last :: rest) hsel rfl hfirst hmid
    rw [hv, mainLoop_cons, hlast]
    simp only []
    rw [(mainFinish_commit _ _).2]
    exact hu
  · simp [armEntry, List.map_map, Function.comp_def]
  · intro p hp
    simp only [armEntry, List.mem_map] at hp
    obtain ⟨i, _, rfl⟩ := hp
    exact ⟨rfl, rfl⟩

theorem Main_drag_one_entry_witness :
    (Main exEnv exWorld
        [evMotion ⟨12, 10⟩, evMotion ⟨17, 15⟩, evCommand COMMON_ACTIONS.rotate ⟨17, 15⟩,
         evMotion ⟨18, 15⟩, evMouseUp ⟨18, 15⟩]).undoList
        = exWorld.undoList ++ [armEntry exWorld]
      ∧ (armEntry exWorld).m_Status = UNDO_REDO_T.UR_CHANGED
      ∧ (armEntry exWorld).pickers.map (fun p => p.item) = exWorld.selection
      ∧ (∀ p ∈ (armEntry exWorld).pickers,
          p.status = UNDO_REDO_T.UR_CHANGED ∧ p.link = exWorld.items[p.item]?) :=
  Main_drag_one_entry exEnv exWorld (evMotion ⟨12, 10⟩)
    [evMotion ⟨17, 15⟩, evCommand COMMON_ACTIONS.rotate ⟨17, 15⟩, evMotion ⟨18, 15⟩]
    (evMouseUp ⟨18, 15⟩) [] (by decide) (by decide) (by decide) (by decide)

theorem mainEntry_dragging (w0 : World) : (mainEntry w0).m_dragging = false := rfl

theorem mainEntry_selection (w0 : World) : (mainEntry w0).selection = w0.selection := rfl

theorem mainEntry_items (w0 : World) : (mainEntry w0).items = w0.items := rfl

theorem mainEntry_undoList (w0 : World) : (mainEntry w0).undoList = w0.undoList := rfl

/-- The loop result of an armed drag that is cancelled. -/
theorem Main_armed_cancel (env : ENV) (w : World) (first : TOOL_EVENT)
    (mid : List TOOL_EVENT) (c : TOOL_EVENT) (rest : List TOOL_EVENT)
    (hfirst : mainBranch first = MAIN_BRANCH.motion)
    (hmid : ∀ e ∈ mid, isDragEvent e = true)
    (hc : mainBranch c = MAIN_BRANCH.cancel) :
    (Main env w (first :: (mid ++ c :: rest))).items = w.items
      ∧ (Main env w (first :: (mid ++ c :: rest))).undoList = w.undoList := by
  cases hok : (makeSelection w).2 with
  | false =>
    rw [Main_of_not_ok env w _ hok]
    exact ⟨makeSelection_items w, makeSelection_undoList w⟩
  | true =>
    rw [Main_of_ok env w _ hok]
    generalize hw0 : (makeSelection w).1 = w0
    have hsel : w0.selection ≠ [] := hw0 ▸ makeSelection_ok w hok
    have hi : w0.items = w.items := hw0 ▸ makeSelection_items w
    have hul : w0.undoList = w.undoList := hw0 ▸ makeSelection_undoList w
    obtain ⟨v, hv, _, hu, ht⟩ := mainLoop_armed env (mainEntry w0)
      w.selection.isEmpty first mid (c :: rest) hsel (mainEntry_dragging w0) hfirst hmid
    rw [hv, mainLoop_cons, hc]
    simp only []
    have h := mainFinish_restore (mainEntry w0) (Wait v c) w.selection.isEmpty hu ht
    exact ⟨h.1.trans ((mainEntry_items w0).trans hi),
      h.2.trans ((mainEntry_undoList w0).trans hul)⟩

/-- C2, as amended : when the first event a `Main` session handles is a motion or
left-drag event (the drag is armed before anything else happens), and the
session is ended by a cancel event after any number of motion, rotate and flip
events, then every item of the store, so every item of the working set, has
after `Main` returns the state, position included, it had when `Main` was
entered. -/
theorem Main_cancel_restores_items (env : ENV) (w : World) (first : TOOL_EVENT)
    (mid : List TOOL_EVENT) (c : TOOL_EVENT) (rest : List TOOL_EVENT)
    (hfirst : mainBranch first = MAIN_BRANCH.motion)
    (hmid : ∀ e ∈ mid, isDragEvent e = true)
    (hc : mainBranch c = MAIN_BRANCH.cancel) :
    (Main env w (first :: (mid ++ c :: rest))).items = w.items
      ∧ ∀ i ∈ w.selection,
          GetPosition (Main env w (first :: (mid ++ c :: rest))) i = GetPosition w i := by
  have h := (Main_armed_cancel env w first mid c rest hfirst hmid hc).1
  refine ⟨h, fun i _ => ?_⟩
  unfold GetPosition
  rw [h]

theorem Main_cancel_restores_items_witness :
    (Main exEnv exWorld
        [evMotion ⟨12, 10⟩, evMotion ⟨17, 15⟩, evCommand COMMON_ACTIONS.flip ⟨17, 15⟩,
         evCancel ⟨17, 15⟩]).items = exWorld.items
      ∧ ∀ i ∈ exWorld.selection,
          GetPosition (Main exEnv exWorld
            [evMotion ⟨12, 10⟩, evMotion ⟨17, 15⟩, evCommand COMMON_ACTIONS.flip ⟨17, 15⟩,
             evCancel ⟨17, 15⟩]) i = GetPosition exWorld i :=
  Main_cancel_restores_items exEnv exWorld (evMotion ⟨12, 10⟩)
    [evMotion ⟨17, 15⟩, evCommand COMMON_ACTIONS.flip ⟨17, 15⟩] (evCancel ⟨17, 15⟩) []
    (by decide) (by decide) (by decide)

/-- C2, as stated, fails : in a session that handles a rotate command, then a
motion event, then the cancel event, the rotation was journalled on its own
before the drag was armed, and cancelling restores the items to the state at
arming : item `A`, at (10,10) when `Main` was entered, is at (10,-10) when it
returns. -/
theorem Main_cancel_after_rotate_moves_item :
    mainBranch (evCommand COMMON_ACTIONS.rotate ⟨12, 10⟩) = MAIN_BRANCH.rotate
      ∧ mainBranch (evMotion ⟨12, 10⟩) = MAIN_BRANCH.motion
      ∧ mainBranch (evCancel ⟨12, 10⟩) = MAIN_BRANCH.cancel
      ∧ 0 ∈ exWorld.selection
      ∧ GetPosition exWorld 0 = ⟨10, 10⟩
      ∧ GetPosition (Main exEnv exWorld
          [evCommand COMMON_ACTIONS.rotate ⟨12, 10⟩, evMotion ⟨12, 10⟩, evCancel ⟨12, 10⟩]) 0
          = ⟨10, -10⟩ := by
  decide

/-- C3, as amended : when the first event a `Main` session handles is a motion or
left-drag event, and the session is ended by a cancel event after any number of
motion, rotate and flip events, the undo list after `Main` returns is the undo
list of the world `Main` was entered in : the entry taken at arming is gone and
no other entry was added or consumed. -/
theorem Main_cancel_keeps_undoList (env : ENV) (w : World) (first : TOOL_EVENT)
    (mid : List TOOL_EVENT) (c : TOOL_EVENT) (rest : List TOOL_EVENT)
    (hfirst : mainBranch first = MAIN_BRANCH.motion)
    (hmid : ∀ e ∈ mid, isDragEvent e = true)
    (hc : mainBranch c = MAIN_BRANCH.cancel) :
    (Main env w (first :: (mid ++ c :: rest))).undoList = w.undoList :=
  (Main_armed_cancel env w first mid c rest hfirst hmid hc).2

theorem Main_cancel_keeps_undoList_witness :
    (Main exEnv exWorld [evMotion ⟨12, 10⟩, evMotion ⟨17, 15⟩, evCancel ⟨17, 15⟩]).undoList
      = exWorld.undoList :=
  Main_cancel_keeps_undoList exEnv exWorld (evMotion ⟨12, 10⟩) [evMotion ⟨17, 15⟩]
    (evCancel ⟨17, 15⟩) [] (by decide) (by decide) (by decide)

/-- C3, as stated, fails : in a session that handles a rotate command, then a
motion event, then the cancel event, the undo list, empty when `Main` was
entered, holds one entry of kind `UR_ROTATED` when `Main` returns. -/
theorem Main_cancel_after_rotate_leaves_entry :
    mainBranch (evCancel ⟨12, 10⟩) = MAIN_BRANCH.cancel
      ∧ exWorld.undoList = []
      ∧ (Main exEnv exWorld
          [evCommand COMMON_ACTIONS.rotate ⟨12, 10⟩, evMotion ⟨12, 10⟩,
           evCancel ⟨12, 10⟩]).undoList.map (fun l => l.m_Status)
          = [UNDO_REDO_T.UR_ROTATED] := by
  decide

/-! ## Rotate and Flip outside a drag -/

theorem makeSelection_dragging (w : World) : (makeSelection w).1.m_dragging = w.m_dragging := by
  unfold makeSelection
  by_cases h : w.selection.isEmpty <;> simp [h, selectionSingle, emit]

theorem makeSelection_log (w : World) :
    (makeSelection w).1.log =
      w.log ++ (if w.selection.isEmpty then [Effect.runAction COMMON_ACTIONS.selectionSingle]
                else []) := by
  unfold makeSelection
  by_cases h : w.selection.isEmpty <;> simp [h, selectionSingle, emit]

theorem makeSelection_pair (w : World) (hok : (makeSelection w).2 = true) :
    makeSelection w = ((makeSelection w).1, true) := by
  rw [← hok]

theorem Rotate_idle (env : ENV) (w w0 : World) (hw0 : (makeSelection w).1 = w0)
    (hok : (makeSelection w).2 = true) (hd : w.m_dragging = false) :
    Rotate env w =
      { w0 with
        items := rotatedItems env w0,
        selection := if w.selection.isEmpty then [] else w0.selection,
        undoList := w0.undoList ++ [journalEntry w0 UNDO_REDO_T.UR_ROTATED (pivot w0)],
        nextUid := w0.nextUid + 1,
        m_cursor := if w0.selection.length = 1 ∨ w0.toolActive = true then w0.m_cursor
                    else w0.viewCursor,
        m_offset := posAt (rotatedItems env w0) (w0.selection.headD 0) - pivot w0,
        log := w0.log
                 ++ [Effect.onModify, Effect.saveUndo UNDO_REDO_T.UR_ROTATED w0.selection]
                 ++ rotateTrace false w0.selection
                 ++ Effect.rnClearSimple :: ratsnestTrace false w0.selection
                 ++ [Effect.rnRecalculate]
                 ++ (if w.selection.isEmpty
                     then [Effect.runAction COMMON_ACTIONS.selectionClear] else [])
                 ++ [Effect.runAction COMMON_ACTIONS.pointEditorUpdate,
                     Effect.setTransitions] } := by
  have hd0 : w0.m_dragging = false := by rw [← hw0, makeSelection_dragging, hd]
  unfold Rotate
  rw [makeSelection_pair w hok, hw0]
  simp only [getModificationPoint_eq]
  cases hu : w.selection.isEmpty <;>
    simp [hd0, rotateLoop_eq, updateRatsnest_eq, setTransitions, emit, GetPosition,
      rotatedItems, SaveCopyInUndoList, selectionItems, journalEntry, selectionClear,
      List.map_map, Function.comp_def]

theorem Flip_idle (w w0 : World) (hw0 : (makeSelection w).1 = w0)
    (hok : (makeSelection w).2 = true) (hd : w.m_dragging = false) :
    Flip w =
      { w0 with
        items := flippedItems w0,
        selection := if w.selection.isEmpty then [] else w0.selection,
        undoList := w0.undoList ++ [journalEntry w0 UNDO_REDO_T.UR_FLIPPED (pivot w0)],
        nextUid := w0.nextUid + 1,
        m_cursor := if w0.selection.length = 1 ∨ w0.toolActive = true then w0.m_cursor
                    else w0.viewCursor,
        m_offset := posAt (flippedItems w0) (w0.selection.headD 0) - pivot w0,
        log := w0.log
                 ++ [Effect.onModify, Effect.saveUndo UNDO_REDO_T.UR_FLIPPED w0.selection]
                 ++ flipTrace false w0.selection
                 ++ Effect.rnClearSimple :: ratsnestTrace false w0.selection
                 ++ [Effect.rnRecalculate]
                 ++ (if w.selection.isEmpty
                     then [Effect.runAction COMMON_ACTIONS.selectionClear] else [])
                 ++ [Effect.runAction COMMON_ACTIONS.pointEditorUpdate,
                     Effect.setTransitions] } := by
  have hd0 : w0.m_dragging = false := by rw [← hw0, makeSelection_dragging, hd]
  unfold Flip
  rw [makeSelection_pair w hok, hw0]
  simp only [getModificationPoint_eq]
  cases hu : w.selection.isEmpty <;>
    simp [hd0, flipLoop_eq, updateRatsnest_eq, setTransitions, emit, GetPosition,
      flippedItems, SaveCopyInUndoList, selectionItems, journalEntry, selectionClear,
      List.map_map, Function.comp_def]

/-! ## Four quarter turns -/

theorem wxPoint.eq_of (a b : wxPoint) (hx : a.x = b.x) (hy : a.y = b.y) : a = b := by
  cases a; cases b
  simp only [] at hx hy
  rw [hx, hy]

@[simp] theorem wxPoint.add_x (a b : wxPoint) : (a + b).x = a.x + b.x := rfl

@[simp] theorem wxPoint.add_y (a b : wxPoint) : (a + b).y = a.y + b.y := rfl

@[simp] theorem wxPoint.sub_x (a b : wxPoint) : (a - b).x = a.x - b.x := rfl

@[simp] theorem wxPoint.sub_y (a b : wxPoint) : (a - b).y = a.y - b.y := rfl

theorem wxPoint.sub_sub_self (a b : wxPoint) : a - (a - b) = b :=
  wxPoint.eq_of _ _ (by simp) (by simp)

theorem RotatePoint_quarter (g : Int → wxPoint → wxPoint) (p : wxPoint) :
    RotatePoint g p 900 = ⟨p.y, -p.x⟩ := by
  simp [RotatePoint, NORMALIZE_ANGLE_POS]

/-- Four quarter turns about the same centre bring an item back, when its
orientation is a normalised angle. -/
theorem quarterTurn_four (env : ENV) (r : wxPoint) (it : BOARD_ITEM)
    (h : NORMALIZE_ANGLE_POS it.orient = it.orient) :
    (quarterTurn env r)^[4] it = it := by
  show quarterTurn env r (quarterTurn env r (quarterTurn env r (quarterTurn env r it))) = it
  obtain ⟨ty, pos, pos0, orient, fl, ow, tt, fg, att⟩ := it
  simp only [quarterTurn, BOARD_ITEM.Rotate, RotatePoint_quarter, NORMALIZE_ANGLE_POS] at h ⊢
  congr 1
  · exact wxPoint.eq_of _ _ (by simp) (by simp)
  · omega

theorem modifyAll_cons (f : BOARD_ITEM → BOARD_ITEM) (i : Nat) (t : List Nat)
    (l : List BOARD_ITEM) : modifyAll f (i :: t) l = modifyAll f t (modifyAt l i f) := rfl

/-- The loop applies `f` to an item once for every occurrence of its pointer. -/
theorem modifyAll_getElem? (f : BOARD_ITEM → BOARD_ITEM) (ids : List Nat)
    (l : List BOARD_ITEM) (j : Nat) :
    (modifyAll f ids l)[j]? = (l[j]?).map (f^[ids.count j]) := by
  induction ids generalizing l with
  | nil => simp [modifyAll]
  | cons i t ih =>
    rw [modifyAll_cons, ih, modifyAt_getElem?]
    by_cases hji : j = i
    · subst hji
      cases l[j]? <;> simp [List.count_cons_self, Function.iterate_succ_apply]
    · have hij : ¬ i = j := fun e => hji e.symm
      simp [hji, List.count_cons, hij]

/-- Applying the loop four times with a map whose fourth power fixes the
selected items leaves the store as it was. -/
theorem modifyAll_four (f : BOARD_ITEM → BOARD_ITEM) (ids : List Nat) (l : List BOARD_ITEM)
    (h : ∀ i ∈ ids, ∀ it, l[i]? = some it → f^[4] it = it) :
    modifyAll f ids (modifyAll f ids (modifyAll f ids (modifyAll f ids l))) = l := by
  apply List.ext_getElem?
  intro j
  simp only [modifyAll_getElem?, Option.map_map]
  cases hj : l[j]? with
  | none => rfl
  | some it =>
    simp only [Option.map_some', Function.comp_apply, Option.some.injEq]
    by_cases hmem : j ∈ ids
    · have h4 := h j hmem it hj
      have : (f^[List.count j ids])^[4] it = it := by
        rw [← Function.iterate_mul, Nat.mul_comm, Function.iterate_mul]
        exact Function.iterate_fixed h4 _
      exact this
    · rw [List.count_eq_zero_of_not_mem hmem]
      rfl

theorem pivot_Rotate (env : ENV) (w : World) (hsel : w.selection ≠ [])
    (hd : w.m_dragging = false) : pivot (Rotate env w) = pivot w := by
  rw [Rotate_idle env w w (by rw [makeSelection_of_ne w hsel])
    (by rw [makeSelection_of_ne w hsel]) hd]
  simp only [isEmpty_of_ne hsel]
  unfold pivot
  by_cases h1 : w.selection.length = 1
  · simp [h1, GetPosition, wxPoint.sub_sub_self]
  · cases ht : w.toolActive <;> simp [h1, ht]

/-- One `Rotate` call outside a drag, by a quarter turn. -/
theorem Rotate_quarter_step (env : ENV) (w : World) (hsel : w.selection ≠ [])
    (hd : w.m_dragging = false) (hangle : w.rotationAngle = 900) :
    (Rotate env w).selection = w.selection
      ∧ (Rotate env w).m_dragging = false
      ∧ (Rotate env w).rotationAngle = 900
      ∧ pivot (Rotate env w) = pivot w
      ∧ (Rotate env w).items = modifyAll (quarterTurn env (pivot w)) w.selection w.items := by
  refine ⟨?_, ?_, ?_, pivot_Rotate env w hsel hd, ?_⟩ <;>
    rw [Rotate_idle env w w (by rw [makeSelection_of_ne w hsel])
      (by rw [makeSelection_of_ne w hsel]) hd]
  · simp [isEmpty_of_ne hsel]
  · exact hd
  · exact hangle
  · simp only [rotatedItems, hangle]
    rfl

/-- C7 : for a non-empty selection, outside a drag, with a rotation step of 90
degrees and no cursor movement between the calls, four consecutive `Rotate`
calls compute the same pivot each time (also for a one-item selection, where
every call rewrites `m_offset`) and bring every item back to the position and
orientation it had before the first call.  Orientations are angles kept in
`[0, 3600)` tenths of a degree, as `Rotate` itself leaves them. -/
theorem Rotate_four_times (env : ENV) (w : World) (hsel : w.selection ≠ [])
    (hd : w.m_dragging = false) (hangle : w.rotationAngle = 900)
    (horient : ∀ i ∈ w.selection, ∀ it, w.items[i]? = some it →
      NORMALIZE_ANGLE_POS it.orient = it.orient) :
    pivot (Rotate env w) = pivot w
      ∧ pivot (Rotate env (Rotate env w)) = pivot w
      ∧ pivot (Rotate env (Rotate env (Rotate env w))) = pivot w
      ∧ (Rotate env (Rotate env (Rotate env (Rotate env w)))).items = w.items
      ∧ ∀ i ∈ w.selection, ∀ it, w.items[i]? = some it →
          ∃ it4, (Rotate env (Rotate env (Rotate env (Rotate env w)))).items[i]? = some it4
            ∧ it4.pos = it.pos ∧ it4.orient = it.orient := by
  obtain ⟨s1, d1, a1, p1, i1⟩ := Rotate_quarter_step env w hsel hd hangle
  have hsel1 : (Rotate env w).selection ≠ [] := by rw [s1]; exact hsel
  obtain ⟨s2, d2, a2, p2, i2⟩ := Rotate_quarter_step env _ hsel1 d1 a1
  have hsel2 : (Rotate env (Rotate env w)).selection ≠ [] := by rw [s2]; exact hsel1
  obtain ⟨s3, d3, a3, p3, i3⟩ := Rotate_quarter_step env _ hsel2 d2 a2
  have hsel3 : (Rotate env (Rotate env (Rotate env w))).selection ≠ [] := by
    rw [s3]; exact hsel2
  obtain ⟨_, _, _, _, i4⟩ := Rotate_quarter_step env _ hsel3 d3 a3
  have hitems : (Rotate env (Rotate env (Rotate env (Rotate env w)))).items = w.items := by
    rw [i4, i3, i2, i1, p3, p2, p1, s3, s2, s1]
    exact modifyAll_four _ _ _
      (fun i hi it hit => quarterTurn_four env (pivot w) it (horient i hi it hit))
  refine ⟨p1, p2.trans p1, p3.trans (p2.trans p1), hitems, ?_⟩
  intro i _ it hit
  exact ⟨it, by rw [hitems]; exact hit, rfl, rfl⟩


theorem Rotate_four_times_witness :
    exOneWorld.selection ≠ [] ∧ exOneWorld.m_dragging = false
      ∧ exOneWorld.rotationAngle = 900
      ∧ pivot (Rotate exEnv exOneWorld) = pivot exOneWorld
      ∧ (Rotate exEnv (Rotate exEnv (Rotate exEnv (Rotate exEnv exOneWorld)))).items
          = exOneWorld.items :=
  have h := Rotate_four_times exEnv exOneWorld (by decide) rfl rfl
    (by
      intro i hi it hit
      simp only [exOneWorld, List.mem_singleton] at hi
      subst hi
      simp only [exOneWorld, exWorld, exItem, List.getElem?_cons_zero, Option.some.injEq] at hit
      subst hit
      rfl)
  ⟨by decide, rfl, rfl, h.1, h.2.2.2.1⟩

/-! ## Flip of a single item about its own position -/

theorem posAt_of_getElem? (l : List BOARD_ITEM) (i : Nat) (it : BOARD_ITEM)
    (h : l[i]? = some it) : posAt l i = it.pos := by
  unfold posAt
  rw [h]

/-- C8 : when the selection is one item, the tool is not dragging and the
accumulated offset is zero, the pivot of `Flip` is the item's position, the
position of the item after the call is its position before the call, the item
has changed board side, and the call issues a `LAYERS` view update for that
item (after the undo entry and the flip, before the ratsnest update). -/
theorem Flip_single_keeps_position (w : World) (i : Nat) (it : BOARD_ITEM)
    (hsel : w.selection = [i]) (hit : w.items[i]? = some it)
    (hd : w.m_dragging = false) (hoff : w.m_offset = ⟨0, 0⟩) :
    pivot w = it.pos
      ∧ GetPosition (Flip w) i = GetPosition w i
      ∧ (Flip w).items[i]? =
          some { it with orient := NORMALIZE_ANGLE_POS (- it.orient), flipped := !it.flipped }
      ∧ (Flip w).log = w.log ++
          [Effect.onModify, Effect.saveUndo UNDO_REDO_T.UR_FLIPPED [i], Effect.itemFlip i,
           Effect.viewUpdate i VIEW_UPDATE_FLAGS.LAYERS, Effect.rnClearSimple,
           Effect.rnUpdate i, Effect.rnRecalculate,
           Effect.runAction COMMON_ACTIONS.pointEditorUpdate, Effect.setTransitions] := by
  have hne : w.selection ≠ [] := by rw [hsel]; exact List.cons_ne_nil _ _
  have hpos : posAt w.items i = it.pos := posAt_of_getElem? _ _ _ hit
  have hpiv : pivot w = it.pos := by
    unfold pivot
    rw [hsel]
    simp only [List.length_singleton, if_true, List.headD_cons, GetPosition, hpos, hoff]
    exact wxPoint.eq_of _ _ (by simp) (by simp)
  have hflip : it.Flip it.pos =
      { it with orient := NORMALIZE_ANGLE_POS (- it.orient), flipped := !it.flipped } := by
    unfold BOARD_ITEM.Flip
    congr 1
    exact wxPoint.eq_of _ _ rfl (by simp)
  have hitems : (flippedItems w)[i]? = some (it.Flip it.pos) := by
    unfold flippedItems
    rw [modifyAll_getElem?, hsel, hit, hpiv]
    simp
  have hF := Flip_idle w w (by rw [makeSelection_of_ne w hne])
    (by rw [makeSelection_of_ne w hne]) hd
  refine ⟨hpiv, ?_, ?_, ?_⟩
  · rw [hF]
    simp only [GetPosition]
    rw [posAt_of_getElem? _ _ _ hitems, hpos, hflip]
  · rw [hF]
    simp only []
    rw [hitems, hflip]
  · rw [hF]
    simp [hsel, flipTrace, ratsnestTrace]

theorem Flip_single_keeps_position_witness :
    exFlipWorld.selection = [0] ∧ exFlipWorld.m_offset = ⟨0, 0⟩
      ∧ GetPosition (Flip exFlipWorld) 0 = GetPosition exFlipWorld 0
      ∧ (Flip exFlipWorld).log = exFlipWorld.log ++
          [Effect.onModify, Effect.saveUndo UNDO_REDO_T.UR_FLIPPED [0], Effect.itemFlip 0,
           Effect.viewUpdate 0 VIEW_UPDATE_FLAGS.LAYERS, Effect.rnClearSimple,
           Effect.rnUpdate 0, Effect.rnRecalculate,
           Effect.runAction COMMON_ACTIONS.pointEditorUpdate, Effect.setTransitions] :=
  have h := Flip_single_keeps_position exFlipWorld 0 (exItem KICAD_T.PCB_LINE_T ⟨10, 10⟩)
    rfl rfl rfl rfl
  ⟨rfl, rfl, h.2.1, h.2.2.2⟩

/-! ## Nothing to work on -/

theorem makeSelection_none (w : World) (hsel : w.selection = []) (hpick : w.pick = none) :
    makeSelection w =
      ({ w with log := w.log ++ [Effect.runAction COMMON_ACTIONS.selectionSingle] }, false) := by
  unfold makeSelection
  simp [hsel, hpick, selectionSingle, emit]

/-- C9 : when the selection is empty on activation and the pick under the pointer
finds nothing, each of `Main` (whatever events wait), `Rotate`, `Flip`,
`Remove`, `Properties` and `CopyItems` returns a world that differs from the
one it started in only by log entries for the pick request and for
`setTransitions` : no item is changed, the undo list, the view and the
selection are the same, and the log has no view and no ratsnest call. -/
theorem no_target_exits_quietly (env : ENV) (w : World) (events : List TOOL_EVENT)
    (hsel : w.selection = []) (hpick : w.pick = none) :
    quietExit w (Main env w events) ∧ quietExit w (Rotate env w) ∧ quietExit w (Flip w)
      ∧ quietExit w (Remove w) ∧ quietExit w (Properties env w)
      ∧ quietExit w (CopyItems env w) := by
  have hm := makeSelection_none w hsel hpick
  have hq : quietExit w (setTransitions
      { w with log := w.log ++ [Effect.runAction COMMON_ACTIONS.selectionSingle] }) :=
    ⟨[Effect.runAction COMMON_ACTIONS.selectionSingle, Effect.setTransitions],
      by simp [setTransitions, emit], by simp⟩
  refine ⟨?_, ?_, ?_, ?_, ?_, ?_⟩
  · unfold Main; rw [hm]; exact hq
  · unfold Rotate; rw [hm]; exact hq
  · unfold Flip; rw [hm]; exact hq
  · unfold Remove; rw [hm]; exact hq
  · unfold Properties; rw [hm]; exact hq
  · unfold CopyItems
    cases he : w.m_editModules
    · exact ⟨[Effect.setTransitions], by simp [setTransitions, emit], by simp⟩
    · rw [hm]; exact hq


theorem no_target_exits_quietly_witness :
    quietExit exIdleWorld (Main exEnv exIdleWorld [evMotion ⟨17, 15⟩, evMouseUp ⟨17, 15⟩])
      ∧ quietExit exIdleWorld (Rotate exEnv exIdleWorld)
      ∧ quietExit exIdleWorld (Flip exIdleWorld)
      ∧ quietExit exIdleWorld (Remove exIdleWorld)
      ∧ quietExit exIdleWorld (Properties exEnv exIdleWorld)
      ∧ quietExit exIdleWorld (CopyItems exEnv exIdleWorld) :=
  no_target_exits_quietly exEnv exIdleWorld [evMotion ⟨17, 15⟩, evMouseUp ⟨17, 15⟩] rfl rfl

/-! ## The log only grows -/

theorem logExt_refl (w : World) : LogExt w w := ⟨[], by simp⟩

theorem LogExt.trans {a b c : World} (h1 : LogExt a b) (h2 : LogExt b c) : LogExt a c := by
  obtain ⟨t1, e1⟩ := h1
  obtain ⟨t2, e2⟩ := h2
  exact ⟨t1 ++ t2, by rw [e2, e1, List.append_assoc]⟩

theorem logExt_of_log_eq {w v : World} (h : v.log = w.log) : LogExt w v := ⟨[], by simp [h]⟩

theorem logExt_emit (w : World) (e : Effect) : LogExt w (emit w e) := ⟨[e], rfl⟩

theorem logExt_foldl {α : Type} (f : World → α → World) (hf : ∀ v a, LogExt v (f v a))
    (l : List α) (w : World) : LogExt w (l.foldl f w) := by
  induction l generalizing w with
  | nil => exact logExt_refl w
  | cons a t ih => exact (hf w a).trans (ih (f w a))

theorem logExt_viewRemove (w : World) (i : Nat) : LogExt w (viewRemove w i) :=
  ⟨[Effect.viewRemove i], rfl⟩

theorem logExt_boardRemove (w : World) (i : Nat) : LogExt w (boardRemove w i) :=
  ⟨[Effect.boardRemove i], rfl⟩

theorem logExt_DeleteStructure (w : World) (i : Nat) : LogExt w (DeleteStructure w i) :=
  ⟨[Effect.deleteStructure i], rfl⟩

theorem logExt_clearFlags (w : World) (i : Nat) : LogExt w (clearFlags w i) :=
  ⟨[Effect.clearFlags i], rfl⟩

theorem logExt_setTransitions (w : World) : LogExt w (setTransitions w) :=
  ⟨[Effect.setTransitions], rfl⟩

theorem logExt_selectionClear (w : World) : LogExt w (selectionClear w) :=
  ⟨[Effect.runAction COMMON_ACTIONS.selectionClear], rfl⟩

theorem logExt_SaveCopyInUndoList (w : World) (picked : List (Nat × UNDO_REDO_T))
    (kind : UNDO_REDO_T) (p : wxPoint) : LogExt w (SaveCopyInUndoList w picked kind p) :=
  ⟨[Effect.saveUndo kind (picked.map (fun q => q.1))], by simp [SaveCopyInUndoList, emit]⟩

theorem logExt_makeSelection (w : World) : LogExt w (makeSelection w).1 :=
  ⟨_, makeSelection_log w⟩

theorem logExt_RunOnChildren (w : World) (m : Nat) (f : World → Nat → World)
    (hf : ∀ v a, LogExt v (f v a)) : LogExt w (RunOnChildren w m f) :=
  logExt_foldl f hf _ w

theorem logExt_removeTopLevel (w : World) (i : Nat) : LogExt w (removeTopLevel w i) :=
  (logExt_viewRemove w i).trans (logExt_boardRemove _ i)

theorem logExt_removeChild (w : World) (i : Nat) : LogExt w (removeChild w i) := by
  unfold removeChild
  split
  · refine LogExt.trans ?_ (logExt_DeleteStructure _ i)
    apply LogExt.trans (b := match w.items[i]? with
      | some it =>
        match it.owner with
        | OWNER.container m => emit w (Effect.setLastEditTime m)
        | _ => w
      | none => w)
    · split
      · split
        · exact logExt_emit _ _
        · exact logExt_refl _
      · exact logExt_refl _
    · exact logExt_of_log_eq rfl
  · exact logExt_refl _

theorem logExt_remove (w : World) (i : Nat) : LogExt w (remove w i) := by
  unfold remove
  split
  · exact ((logExt_clearFlags w i).trans
      (logExt_RunOnChildren _ i _ logExt_viewRemove)).trans
      ((logExt_of_log_eq rfl).trans (logExt_removeTopLevel _ i))
  · split
    · split
      · exact logExt_emit _ _
      · exact logExt_emit _ _
      · exact logExt_removeChild _ _
    · exact logExt_removeChild _ _
  all_goals first
    | exact logExt_removeChild _ _
    | exact logExt_removeTopLevel _ _
    | exact logExt_refl _

theorem logExt_Remove (w : World) : LogExt w (Remove w) := by
  unfold Remove
  cases hok : (makeSelection w).2
  · rw [show makeSelection w = ((makeSelection w).1, false) from by rw [← hok]]
    exact (logExt_makeSelection w).trans (logExt_setTransitions _)
  · rw [makeSelection_pair w hok]
    simp only [Bool.not_true, Bool.false_eq_true, if_false]
    refine (logExt_makeSelection w).trans ?_
    refine LogExt.trans ?_ (logExt_setTransitions _)
    refine LogExt.trans ?_ (logExt_emit _ _)
    refine LogExt.trans ?_
      (logExt_foldl (fun v (p : Nat × UNDO_REDO_T) => remove v p.1)
        (fun v p => logExt_remove v p.1) _ _)
    exact (logExt_selectionClear _).trans
      ((logExt_emit _ _).trans (logExt_SaveCopyInUndoList _ _ _ _))

theorem Rotate_log (env : ENV) (w w0 : World) (hw0 : (makeSelection w).1 = w0)
    (hok : (makeSelection w).2 = true) :
    (Rotate env w).log =
      w0.log
        ++ (if w.m_dragging then []
            else [Effect.onModify, Effect.saveUndo UNDO_REDO_T.UR_ROTATED w0.selection])
        ++ rotateTrace w.m_dragging w0.selection
        ++ Effect.rnClearSimple :: ratsnestTrace w.m_dragging w0.selection
        ++ [if w.m_dragging then Effect.groupViewUpdate VIEW_UPDATE_FLAGS.GEOMETRY
            else Effect.rnRecalculate]
        ++ (if w.selection.isEmpty then [Effect.runAction COMMON_ACTIONS.selectionClear]
            else [])
        ++ [Effect.runAction COMMON_ACTIONS.pointEditorUpdate, Effect.setTransitions] := by
  have hd0 : w0.m_dragging = w.m_dragging := by rw [← hw0, makeSelection_dragging]
  unfold Rotate
  rw [makeSelection_pair w hok, hw0]
  simp only [getModificationPoint_eq]
  cases hd : w.m_dragging <;> rw [hd] at hd0 <;> cases hu : w.selection.isEmpty <;>
    simp [hd0, rotateLoop_eq, updateRatsnest_eq, setTransitions, emit,
      SaveCopyInUndoList, selectionItems, selectionClear, List.map_map, Function.comp_def]

theorem Flip_log (w w0 : World) (hw0 : (makeSelection w).1 = w0)
    (hok : (makeSelection w).2 = true) :
    (Flip w).log =
      w0.log
        ++ (if w.m_dragging then []
            else [Effect.onModify, Effect.saveUndo UNDO_REDO_T.UR_FLIPPED w0.selection])
        ++ flipTrace w.m_dragging w0.selection
        ++ Effect.rnClearSimple :: ratsnestTrace w.m_dragging w0.selection
        ++ [if w.m_dragging then Effect.groupViewUpdate VIEW_UPDATE_FLAGS.GEOMETRY
            else Effect.rnRecalculate]
        ++ (if w.selection.isEmpty then [Effect.runAction COMMON_ACTIONS.selectionClear]
            else [])
        ++ [Effect.runAction COMMON_ACTIONS.pointEditorUpdate, Effect.setTransitions] := by
  have hd0 : w0.m_dragging = w.m_dragging := by rw [← hw0, makeSelection_dragging]
  unfold Flip
  rw [makeSelection_pair w hok, hw0]
  simp only [getModificationPoint_eq]
  cases hd : w.m_dragging <;> rw [hd] at hd0 <;> cases hu : w.selection.isEmpty <;>
    simp [hd0, flipLoop_eq, updateRatsnest_eq, setTransitions, emit,
      SaveCopyInUndoList, selectionItems, selectionClear, List.map_map, Function.comp_def]

theorem makeSelection_pair_false (w : World) (hok : (makeSelection w).2 = false) :
    makeSelection w = ((makeSelection w).1, false) := by
  rw [← hok]

theorem logExt_Rotate (env : ENV) (w : World) : LogExt w (Rotate env w) := by
  cases hok : (makeSelection w).2
  · unfold Rotate
    rw [makeSelection_pair_false w hok]
    exact (logExt_makeSelection w).trans (logExt_setTransitions _)
  · refine (logExt_makeSelection w).trans ?_
    unfold LogExt
    rw [Rotate_log env w _ rfl hok]
    simp only [List.append_assoc]
    exact ⟨_, rfl⟩

theorem logExt_Flip (w : World) : LogExt w (Flip w) := by
  cases hok : (makeSelection w).2
  · unfold Flip
    rw [makeSelection_pair_false w hok]
    exact (logExt_makeSelection w).trans (logExt_setTransitions _)
  · refine (logExt_makeSelection w).trans ?_
    unfold LogExt
    rw [Flip_log w _ rfl hok]
    simp only [List.append_assoc]
    exact ⟨_, rfl⟩

theorem logExt_mainMotion (w : World) (ctrl : Bool) : LogExt w (mainMotion w ctrl) := by
  cases hd : w.m_dragging
  · rw [mainMotion_arming w ctrl hd]
    exact ⟨_, rfl⟩
  · rw [mainMotion_dragging w ctrl hd]
    unfold LogExt
    simp only [List.append_assoc]
    exact ⟨_, rfl⟩

theorem logExt_RestoreCopyFromUndoList (w : World) : LogExt w (RestoreCopyFromUndoList w) := by
  unfold RestoreCopyFromUndoList
  split
  · exact logExt_refl w
  · exact ⟨[Effect.restoreUndo], rfl⟩

theorem logExt_mainFinish (w : World) (restore unselect : Bool) :
    LogExt w (mainFinish w restore unselect) := by
  unfold mainFinish
  have h1 : LogExt w { w with m_dragging := false } := logExt_of_log_eq rfl
  have h2 : LogExt w (if restore = true then RestoreCopyFromUndoList { w with m_dragging := false }
      else emit { w with m_dragging := false }
        (Effect.itemsViewUpdate w.selection w.m_updateFlag)) := by
    split
    · exact h1.trans (logExt_RestoreCopyFromUndoList _)
    · exact ⟨[Effect.itemsViewUpdate w.selection w.m_updateFlag], rfl⟩
  simp only []
  refine LogExt.trans ?_ (logExt_setTransitions _)
  refine LogExt.trans ?_ (logExt_emit _ _)
  refine LogExt.trans ?_ (logExt_emit _ _)
  refine LogExt.trans ?_ (logExt_emit _ _)
  refine LogExt.trans ?_ (logExt_emit _ _)
  refine LogExt.trans ?_ (logExt_emit _ _)
  split
  · exact h2.trans (logExt_selectionClear _)
  · exact h2

theorem logExt_mainLoop (env : ENV) (u : Bool) (events : List TOOL_EVENT) (w : World) :
    LogExt w (mainLoop env w u events).1 := by
  induction events generalizing w with
  | nil => exact logExt_refl w
  | cons e t ih =>
    have hW : LogExt w (Wait w e) := logExt_of_log_eq rfl
    rw [mainLoop_cons]
    cases mainBranch e <;> simp only []
    · exact hW
    · exact hW
    · exact (hW.trans (logExt_Rotate env _)).trans (ih _)
    · exact ((hW.trans (logExt_Flip _)).trans (logExt_of_log_eq rfl)).trans (ih _)
    · exact hW.trans (logExt_Remove _)
    · exact hW.trans (ih _)
    · exact (hW.trans (logExt_mainMotion _ _)).trans (ih _)
    · exact hW
    · exact hW.trans (ih _)

/-! ## The undo entry comes first -/

theorem logExt_viewAdd (w : World) (i : Nat) : LogExt w (viewAdd w i) :=
  ⟨[Effect.viewAdd i], rfl⟩

theorem logExt_moduleAdd (w : World) (m i : Nat) : LogExt w (moduleAdd w m i) :=
  ⟨[Effect.moduleAdd m i], rfl⟩

theorem logExt_SetLocalCoord (env : ENV) (w : World) (i : Nat) :
    LogExt w (SetLocalCoord env w i) := logExt_of_log_eq rfl

theorem logExt_pastePad (env : ENV) (cm : Nat) (w : World) (pad : BOARD_ITEM) :
    LogExt w (pastePad env cm w pad) := by
  unfold pastePad
  simp only []
  refine LogExt.trans ?_ (logExt_viewAdd _ _)
  refine LogExt.trans ?_ (logExt_SetLocalCoord _ _ _)
  refine LogExt.trans ?_ (logExt_moduleAdd _ _ _)
  exact logExt_of_log_eq rfl

theorem logExt_pasteDrawing (env : ENV) (cm : Nat) (w : World) (d : BOARD_ITEM) :
    LogExt w (pasteDrawing env cm w d) := by
  unfold pasteDrawing
  simp only []
  refine LogExt.trans ?_ (logExt_viewAdd _ _)
  split
  · refine LogExt.trans ?_ (logExt_SetLocalCoord _ _ _)
    refine LogExt.trans ?_ (logExt_moduleAdd _ _ _)
    exact logExt_of_log_eq rfl
  · split
    · refine LogExt.trans ?_ (logExt_SetLocalCoord _ _ _)
      refine LogExt.trans ?_ (logExt_moduleAdd _ _ _)
      exact logExt_of_log_eq rfl
    · exact logExt_of_log_eq rfl

theorem pasteCommit_journalFirst (env : ENV) (w : World) (cm : Nat) (pasted : MODULE_DATA) :
    ∃ t, (pasteCommit env w cm pasted).log = w.log ++ t
      ∧ journalFirst UNDO_REDO_T.UR_MODEDIT t := by
  have key : ∀ v : World,
      v.log = w.log ++ [Effect.onModify, Effect.saveUndo UNDO_REDO_T.UR_MODEDIT [cm],
        Effect.setLastEditTime cm] →
      ∃ t, (emit (pasted.m_Drawings.foldl (pasteDrawing env cm)
              (pasted.m_Pads.foldl (pastePad env cm) v)) Effect.previewClear).log = w.log ++ t
        ∧ journalFirst UNDO_REDO_T.UR_MODEDIT t := by
    intro v hv
    obtain ⟨t, ht⟩ := ((logExt_foldl _ (logExt_pastePad env cm) pasted.m_Pads v).trans
      (logExt_foldl _ (logExt_pasteDrawing env cm) pasted.m_Drawings _)).trans
      (logExt_emit _ Effect.previewClear)
    refine ⟨[Effect.onModify, Effect.saveUndo UNDO_REDO_T.UR_MODEDIT [cm],
        Effect.setLastEditTime cm] ++ t, by rw [ht, hv, List.append_assoc],
      [Effect.onModify], [cm], Effect.setLastEditTime cm :: t, rfl, ?_⟩
    intro e he
    simp only [List.mem_singleton] at he
    subst he
    rfl
  unfold pasteCommit
  simp only []
  apply key
  simp [SaveCopyInUndoList, emit]

theorem Remove_journalFirst (w : World) (hok : (makeSelection w).2 = true) :
    ∃ t, (Remove w).log = w.log ++ t ∧ journalFirst UNDO_REDO_T.UR_DELETED t := by
  have key : ∀ (v : World) (l : List (Nat × UNDO_REDO_T)) (ids : List Nat),
      v.log = w.log ++ ((if w.selection.isEmpty
                 then [Effect.runAction COMMON_ACTIONS.selectionSingle] else [])
        ++ [Effect.runAction COMMON_ACTIONS.selectionClear, Effect.onModify])
        ++ [Effect.saveUndo UNDO_REDO_T.UR_DELETED ids] →
      ∃ t, (setTransitions (emit (l.foldl (fun v p => remove v p.1) v)
              Effect.rnRecalculate)).log = w.log ++ t
        ∧ journalFirst UNDO_REDO_T.UR_DELETED t := by
    intro v l ids hv
    obtain ⟨t, ht⟩ := ((logExt_foldl (fun v (p : Nat × UNDO_REDO_T) => remove v p.1)
      (fun v p => logExt_remove v p.1) l v).trans
      (logExt_emit _ Effect.rnRecalculate)).trans (logExt_setTransitions _)
    refine ⟨((if w.selection.isEmpty
                 then [Effect.runAction COMMON_ACTIONS.selectionSingle] else [])
        ++ [Effect.runAction COMMON_ACTIONS.selectionClear, Effect.onModify])
        ++ Effect.saveUndo UNDO_REDO_T.UR_DELETED ids :: t,
      by rw [ht, hv]; simp only [List.append_assoc, List.singleton_append], _, _, _, rfl, ?_⟩
    intro e he
    cases hs : w.selection.isEmpty <;> simp [hs] at he <;>
      rcases he with rfl | rfl | rfl <;> rfl
  unfold Remove
  rw [makeSelection_pair w hok]
  simp only [Bool.not_true, Bool.false_eq_true, if_false]
  apply key _ _ (makeSelection w).1.selection
  simp [SaveCopyInUndoList, emit, selectionClear, selectionItems, makeSelection_log,
    List.map_map, Function.comp_def]

theorem pickPrefix_quiet (w : World) (e : Effect)
    (he : e ∈ (if w.selection.isEmpty then [Effect.runAction COMMON_ACTIONS.selectionSingle]
               else []) ++ [Effect.onModify]) : e.isVisible = false := by
  cases hs : w.selection.isEmpty <;> simp [hs] at he
  · subst he; rfl
  · rcases he with rfl | rfl <;> rfl

theorem journalFirst_intro (kind : UNDO_REDO_T) (ids : List Nat) (w v : World)
    (pre post : List Effect)
    (hlog : v.log = w.log ++ (pre ++ Effect.saveUndo kind ids :: post))
    (hq : ∀ e ∈ pre, e.isVisible = false) :
    ∃ t, v.log = w.log ++ t ∧ journalFirst kind t :=
  ⟨_, hlog, pre, ids, post, rfl, hq⟩

theorem Rotate_journalFirst (env : ENV) (w : World) (hok : (makeSelection w).2 = true)
    (hd : w.m_dragging = false) :
    ∃ t, (Rotate env w).log = w.log ++ t ∧ journalFirst UNDO_REDO_T.UR_ROTATED t := by
  have h : ∃ post, (Rotate env w).log = w.log ++
      ((if w.selection.isEmpty then [Effect.runAction COMMON_ACTIONS.selectionSingle] else [])
        ++ (Effect.onModify ::
          Effect.saveUndo UNDO_REDO_T.UR_ROTATED (makeSelection w).1.selection :: post)) := by
    rw [Rotate_log env w _ rfl hok, makeSelection_log, hd]
    simp only [Bool.false_eq_true, if_false, List.append_assoc, List.cons_append,
      List.nil_append]
    exact ⟨_, rfl⟩
  obtain ⟨post, hp⟩ := h
  refine journalFirst_intro _ (makeSelection w).1.selection w _ _ post ?_ (pickPrefix_quiet w)
  rw [hp]
  simp only [List.append_assoc, List.cons_append, List.nil_append]

theorem Flip_journalFirst (w : World) (hok : (makeSelection w).2 = true)
    (hd : w.m_dragging = false) :
    ∃ t, (Flip w).log = w.log ++ t ∧ journalFirst UNDO_REDO_T.UR_FLIPPED t := by
  have h : ∃ post, (Flip w).log = w.log ++
      ((if w.selection.isEmpty then [Effect.runAction COMMON_ACTIONS.selectionSingle] else [])
        ++ (Effect.onModify ::
          Effect.saveUndo UNDO_REDO_T.UR_FLIPPED (makeSelection w).1.selection :: post)) := by
    rw [Flip_log w _ rfl hok, makeSelection_log, hd]
    simp only [Bool.false_eq_true, if_false, List.append_assoc, List.cons_append,
      List.nil_append]
    exact ⟨_, rfl⟩
  obtain ⟨post, hp⟩ := h
  refine journalFirst_intro _ (makeSelection w).1.selection w _ _ post ?_ (pickPrefix_quiet w)
  rw [hp]
  simp only [List.append_assoc, List.cons_append, List.nil_append]

theorem mainEntry_log (w0 : World) :
    (mainEntry w0).log = w0.log ++ [Effect.activate, Effect.showCursor true,
      Effect.setSnapping true, Effect.setAutoPan true, Effect.forceCursorPosition false] := by
  simp [mainEntry, emit]

theorem Main_journalFirst (env : ENV) (w : World) (first : TOOL_EVENT)
    (rest : List TOOL_EVENT) (hok : (makeSelection w).2 = true)
    (hfirst : mainBranch first = MAIN_BRANCH.motion) :
    ∃ t, (Main env w (first :: rest)).log = w.log ++ t
      ∧ journalFirst UNDO_REDO_T.UR_CHANGED t := by
  rw [Main_of_ok env w _ hok, mainLoop_cons, hfirst]
  simp only []
  generalize hw0 : (makeSelection w).1 = w0
  have hl0 : w0.log = w.log ++ (if w.selection.isEmpty
      then [Effect.runAction COMMON_ACTIONS.selectionSingle] else []) := by
    rw [← hw0, makeSelection_log]
  have harm := mainMotion_arming (Wait (mainEntry w0) first) first.ctrl (mainEntry_dragging w0)
  obtain ⟨t, ht⟩ := (logExt_mainLoop env w.selection.isEmpty rest
    (mainMotion (Wait (mainEntry w0) first) first.ctrl)).trans (logExt_mainFinish _ _ _)
  have hlog : (mainMotion (Wait (mainEntry w0) first) first.ctrl).log =
      w.log ++ (((if w.selection.isEmpty
          then [Effect.runAction COMMON_ACTIONS.selectionSingle] else [])
        ++ [Effect.activate, Effect.showCursor true, Effect.setSnapping true,
            Effect.setAutoPan true, Effect.forceCursorPosition false, Effect.onModify])
        ++ Effect.saveUndo UNDO_REDO_T.UR_CHANGED w0.selection ::
          [Effect.groupViewUpdate VIEW_UPDATE_FLAGS.GEOMETRY,
           Effect.runAction COMMON_ACTIONS.pointEditorUpdate]) := by
    rw [harm]
    show (mainEntry w0).log ++ _ = _
    rw [mainEntry_log, hl0]
    simp only [List.append_assoc, List.cons_append, List.nil_append]
    rfl
  refine journalFirst_intro _ w0.selection w _
    ((if w.selection.isEmpty
          then [Effect.runAction COMMON_ACTIONS.selectionSingle] else [])
        ++ [Effect.activate, Effect.showCursor true, Effect.setSnapping true,
            Effect.setAutoPan true, Effect.forceCursorPosition false, Effect.onModify])
    ([Effect.groupViewUpdate VIEW_UPDATE_FLAGS.GEOMETRY,
           Effect.runAction COMMON_ACTIONS.pointEditorUpdate] ++ t) ?_ ?_
  · rw [ht, hlog]
    simp only [List.append_assoc, List.cons_append, List.nil_append]
  · intro e he
    cases hs : w.selection.isEmpty <;> simp [hs] at he <;>
      rcases he with rfl | rfl | rfl | rfl | rfl | rfl | rfl <;> rfl

/-- C10 : in every mutating behaviour of the edit tool the undo entry of the
operation is appended before the first visible effect of the behaviour, that
is before any item is moved, rotated, flipped, removed, deleted or added and
before any view add, remove or invalidate.  For a `Main` session whose first
handled event arms the drag the entry has kind `UR_CHANGED`; for `Rotate` and
`Flip` outside a drag it has kind `UR_ROTATED` and `UR_FLIPPED`; for `Remove` it
has kind `UR_DELETED`; for the commit branch of `PasteItems` it has kind
`UR_MODEDIT`.  The log entries before it are the pick request, the clearing of
the selection, the activation and cursor settings of the tool, and
`OnModify`. -/
theorem journal_entry_precedes_mutation (env : ENV) (w : World) (first : TOOL_EVENT)
    (rest : List TOOL_EVENT) (currentModule : Nat) (pastedModule : MODULE_DATA)
    (hok : (makeSelection w).2 = true) (hd : w.m_dragging = false)
    (hfirst : mainBranch first = MAIN_BRANCH.motion) :
    (∃ t, (Main env w (first :: rest)).log = w.log ++ t
        ∧ journalFirst UNDO_REDO_T.UR_CHANGED t)
      ∧ (∃ t, (Rotate env w).log = w.log ++ t ∧ journalFirst UNDO_REDO_T.UR_ROTATED t)
      ∧ (∃ t, (Flip w).log = w.log ++ t ∧ journalFirst UNDO_REDO_T.UR_FLIPPED t)
      ∧ (∃ t, (Remove w).log = w.log ++ t ∧ journalFirst UNDO_REDO_T.UR_DELETED t)
      ∧ (∃ t, (pasteCommit env w currentModule pastedModule).log = w.log ++ t
          ∧ journalFirst UNDO_REDO_T.UR_MODEDIT t) :=
  ⟨Main_journalFirst env w first rest hok hfirst, Rotate_journalFirst env w hok hd,
    Flip_journalFirst w hok hd, Remove_journalFirst w hok,
    pasteCommit_journalFirst env w currentModule pastedModule⟩

theorem journal_entry_precedes_mutation_witness :
    (∃ t, (Main exEnv exWorld [evMotion ⟨12, 10⟩, evMotion ⟨17, 15⟩, evMouseUp ⟨17, 15⟩]).log
          = exWorld.log ++ t ∧ journalFirst UNDO_REDO_T.UR_CHANGED t)
      ∧ (∃ t, (Rotate exEnv exWorld).log = exWorld.log ++ t
          ∧ journalFirst UNDO_REDO_T.UR_ROTATED t)
      ∧ (∃ t, (Flip exWorld).log = exWorld.log ++ t ∧ journalFirst UNDO_REDO_T.UR_FLIPPED t)
      ∧ (∃ t, (Remove exWorld).log = exWorld.log ++ t
          ∧ journalFirst UNDO_REDO_T.UR_DELETED t)
      ∧ (∃ t, (pasteCommit exEnv exWorld 0 MODULE_DATA.empty).log = exWorld.log ++ t
          ∧ journalFirst UNDO_REDO_T.UR_MODEDIT t) :=
  journal_entry_precedes_mutation exEnv exWorld (evMotion ⟨12, 10⟩)
    [evMotion ⟨17, 15⟩, evMouseUp ⟨17, 15⟩] 0 MODULE_DATA.empty (by decide) rfl (by decide)

/-! ## Removal -/

theorem mem_itemsWhere (w : World) (p : BOARD_ITEM → Bool) (j : Nat) :
    j ∈ itemsWhere w p ↔ ∃ it, w.items[j]? = some it ∧ p it = true := by
  unfold itemsWhere
  rw [List.mem_filter, List.mem_range]
  constructor
  · rintro ⟨_, h⟩
    cases hj : w.items[j]? with
    | none => rw [hj] at h; cases h
    | some it => rw [hj] at h; exact ⟨it, rfl, h⟩
  · rintro ⟨it, hj, hp⟩
    refine ⟨?_, by rw [hj]; exact hp⟩
    by_contra hge
    rw [List.getElem?_eq_none (Nat.le_of_not_lt hge)] at hj
    cases hj

theorem mem_childrenOf (w : World) (m j : Nat) :
    j ∈ childrenOf w m ↔ ownerAt w j = some (OWNER.container m) := by
  unfold childrenOf Pads GraphicalItems ownerAt
  rw [List.mem_append, mem_itemsWhere, mem_itemsWhere]
  constructor
  · rintro (⟨it, hj, hp⟩ | ⟨it, hj, hp⟩) <;>
      · rw [hj]
        simp only [Bool.and_eq_true, decide_eq_true_eq] at hp
        simp [hp.1]
  · intro h
    cases hj : w.items[j]? with
    | none => rw [hj] at h; cases h
    | some it =>
      rw [hj] at h
      simp only [Option.map_some', Option.some.injEq] at h
      by_cases ht : it.type = KICAD_T.PCB_PAD_T
      · exact Or.inl ⟨it, rfl, by simp [h, ht]⟩
      · exact Or.inr ⟨it, rfl, by simp [h, ht]⟩

theorem viewRemove_fold (ids : List Nat) (w : World) :
    ids.foldl viewRemove w =
      { w with view := w.view.filter (fun j => !ids.contains j),
               log := w.log ++ ids.map Effect.viewRemove } := by
  induction ids generalizing w with
  | nil => simp
  | cons i t ih =>
    rw [List.foldl_cons, ih]
    simp only [viewRemove, emit, List.filter_filter, List.map_cons, List.append_assoc,
      List.singleton_append]
    congr 1
    apply List.filter_congr
    intro j _
    simp only [List.contains_cons, Bool.not_or, bne, Bool.and_comm]

theorem RunOnChildren_viewRemove (w : World) (m : Nat) :
    RunOnChildren w m viewRemove =
      { w with view := w.view.filter (fun j => !(childrenOf w m).contains j),
               log := w.log ++ (childrenOf w m).map Effect.viewRemove } :=
  viewRemove_fold _ w

theorem TypeOf_of_getElem? (w : World) (i : Nat) (it : BOARD_ITEM) (h : w.items[i]? = some it) :
    TypeOf w i = it.type := by
  unfold TypeOf
  rw [h]

theorem TypeOf_of_none (w : World) (i : Nat) (h : w.items[i]? = none) :
    TypeOf w i = KICAD_T.NOT_USED := by
  unfold TypeOf
  rw [h]

/-- What one call of `remove` on a top-level item does. -/
theorem removeTopLevel_step (w : World) (i : Nat) (it : BOARD_ITEM)
    (hi : w.items[i]? = some it) :
    (removeTopLevel w i).m_editModules = w.m_editModules
      ∧ (removeTopLevel w i).items.length = w.items.length
      ∧ (∀ j, j ≠ i → (removeTopLevel w i).items[j]? = w.items[j]?)
      ∧ (∀ j, j ∈ (removeTopLevel w i).view → j ∈ w.view)
      ∧ (removeTopLevel w i).items[i]? = some { it with owner := OWNER.unlinked }
      ∧ i ∉ (removeTopLevel w i).view := by
  refine ⟨rfl, ?_, ?_, ?_, ?_, ?_⟩
  · simp [removeTopLevel, boardRemove, viewRemove, emit, modifyItem, modifyAt_length]
  · intro j hj
    simp [removeTopLevel, boardRemove, viewRemove, emit, modifyItem, modifyAt_getElem?, hj]
  · intro j hj
    simp only [removeTopLevel, boardRemove, viewRemove, emit, modifyItem, List.mem_filter] at hj
    exact hj.1
  · simp [removeTopLevel, boardRemove, viewRemove, emit, modifyItem, modifyAt_getElem?, hi]
  · simp [removeTopLevel, boardRemove, viewRemove, emit, modifyItem]

theorem DeleteStructure_step (w : World) (i : Nat) (it : BOARD_ITEM)
    (hi : w.items[i]? = some it) :
    (DeleteStructure w i).m_editModules = w.m_editModules
      ∧ (DeleteStructure w i).items.length = w.items.length
      ∧ (∀ j, j ≠ i → (DeleteStructure w i).items[j]? = w.items[j]?)
      ∧ (∀ j, j ∈ (DeleteStructure w i).view → j ∈ w.view)
      ∧ (DeleteStructure w i).items[i]? = some { it with owner := OWNER.destroyed }
      ∧ i ∉ (DeleteStructure w i).view := by
  refine ⟨rfl, ?_, ?_, ?_, ?_, ?_⟩
  · simp [DeleteStructure, emit, modifyItem, modifyAt_length]
  · intro j hj
    simp [DeleteStructure, emit, modifyItem, modifyAt_getElem?, hj]
  · intro j hj
    simp only [DeleteStructure, emit, modifyItem, List.mem_filter] at hj
    exact hj.1
  · simp [DeleteStructure, emit, modifyItem, modifyAt_getElem?, hi]
  · simp [DeleteStructure, emit, modifyItem]

/-- What one call of `remove` on a child of a footprint does in child-edit
mode. -/
theorem removeChild_step (w : World) (i : Nat) (it : BOARD_ITEM)
    (hi : w.items[i]? = some it) (he : w.m_editModules = true) :
    (removeChild w i).m_editModules = w.m_editModules
      ∧ (removeChild w i).items.length = w.items.length
      ∧ (∀ j, j ≠ i → (removeChild w i).items[j]? = w.items[j]?)
      ∧ (∀ j, j ∈ (removeChild w i).view → j ∈ w.view)
      ∧ (removeChild w i).items[i]? = some { it with owner := OWNER.destroyed }
      ∧ i ∉ (removeChild w i).view := by
  have key : ∃ w1 : World, removeChild w i = DeleteStructure w1 i ∧ w1.items = w.items
      ∧ w1.view = w.view ∧ w1.m_editModules = w.m_editModules := by
    unfold removeChild
    rw [hi]
    simp only [he, if_true]
    cases it.owner <;> exact ⟨_, rfl, by simp [emit], by simp [emit], by simp [emit, he]⟩
  obtain ⟨w1, h1, hit, hv, hed⟩ := key
  have := DeleteStructure_step w1 i it (by rw [hit]; exact hi)
  rw [h1]
  rw [hit, hv, hed] at this
  exact this

theorem removeChild_not_edit (w : World) (i : Nat) (he : w.m_editModules = false) :
    removeChild w i = w := by
  unfold removeChild
  simp [he]

theorem RemoveStep_refl_of_kept (w : World) (i : Nat)
    (h : ∀ it, w.items[i]? = some it → removable w.m_editModules it = false) :
    RemoveStep w w i := by
  refine ⟨rfl, rfl, fun _ _ => rfl, fun _ hj => hj, ?_⟩
  intro it hi
  rw [h it hi]
  simpa using hi

theorem RemoveStep_of_log (w v : World) (i : Nat) (hv : ∃ t, v = { w with log := t })
    (h : ∀ it, w.items[i]? = some it → removable w.m_editModules it = false) :
    RemoveStep w v i := by
  obtain ⟨t, rfl⟩ := hv
  exact RemoveStep_refl_of_kept w i h

theorem RemoveStep_topLevel (w : World) (i : Nat) (it : BOARD_ITEM)
    (hi : w.items[i]? = some it) (hr : removable w.m_editModules it = true)
    (hm : it.type ≠ KICAD_T.PCB_MODULE_T) : RemoveStep w (removeTopLevel w i) i := by
  obtain ⟨h1, h2, h3, h4, h5, h6⟩ := removeTopLevel_step w i it hi
  refine ⟨h1, h2, h3, h4, ?_⟩
  intro it' hi'
  rw [hi] at hi'
  cases hi'
  rw [hr]
  simp only [if_true]
  exact ⟨⟨_, h5, rfl, rfl, Or.inl rfl⟩, h6, fun e => absurd e hm⟩

theorem RemoveStep_child (w : World) (i : Nat) (it : BOARD_ITEM)
    (hi : w.items[i]? = some it) (he : w.m_editModules = true)
    (hr : removable w.m_editModules it = true)
    (hm : it.type ≠ KICAD_T.PCB_MODULE_T) : RemoveStep w (removeChild w i) i := by
  obtain ⟨h1, h2, h3, h4, h5, h6⟩ := removeChild_step w i it hi he
  refine ⟨h1, h2, h3, h4, ?_⟩
  intro it' hi'
  rw [hi] at hi'
  cases hi'
  rw [hr]
  simp only [if_true]
  exact ⟨⟨_, h5, rfl, rfl, Or.inr rfl⟩, h6, fun e => absurd e hm⟩

theorem RemoveStep_module (w : World) (i : Nat) (it : BOARD_ITEM)
    (hi : w.items[i]? = some it) (hm : it.type = KICAD_T.PCB_MODULE_T) :
    RemoveStep w
      (removeTopLevel { RunOnChildren (clearFlags w i) i viewRemove with m_Status_Pcb := 0 } i)
      i := by
  have hw1i : (clearFlags w i).items[i]? = some { it with flags := 0 } := by
    simp [clearFlags, emit, modifyItem, modifyAt_getElem?, hi]
  have hown : ∀ j, ownerAt (clearFlags w i) j = ownerAt w j := by
    intro j
    unfold ownerAt
    simp only [clearFlags, emit, modifyItem, modifyAt_getElem?]
    by_cases hji : j = i
    · subst hji
      simp [hi]
    · simp [hji]
  rw [RunOnChildren_viewRemove]
  obtain ⟨h1, h2, h3, h4, h5, h6⟩ := removeTopLevel_step
    { ({ clearFlags w i with
          view := (clearFlags w i).view.filter
            (fun j => !(childrenOf (clearFlags w i) i).contains j),
          log := (clearFlags w i).log ++ (childrenOf (clearFlags w i) i).map Effect.viewRemove }
        : World) with m_Status_Pcb := 0 } i { it with flags := 0 } hw1i
  refine ⟨h1, ?_, ?_, ?_, ?_⟩
  · rw [h2]
    simp [clearFlags, emit, modifyItem, modifyAt_length]
  · intro j hj
    rw [h3 j hj]
    simp [clearFlags, emit, modifyItem, modifyAt_getElem?, hj]
  · intro j hj
    have := h4 j hj
    simp only [clearFlags, emit, modifyItem, List.mem_filter] at this
    exact this.1
  · intro it' hi'
    rw [hi] at hi'
    cases hi'
    have hr : removable w.m_editModules it = true := by
      unfold removable
      rw [hm]
    rw [hr]
    simp only [if_true]
    refine ⟨⟨_, h5, rfl, rfl, Or.inl rfl⟩, h6, ?_⟩
    intro _ j hj hmem
    have hview := h4 j hmem
    simp only [List.mem_filter, Bool.not_eq_true', List.contains_eq_any_beq,
      List.any_eq_false, beq_iff_eq] at hview
    have hc : j ∈ childrenOf (clearFlags w i) i := by
      rw [mem_childrenOf, hown]
      exact hj
    exact hview.2 j hc rfl

theorem RemoveStep_childCase (w : World) (i : Nat) (it : BOARD_ITEM)
    (hi : w.items[i]? = some it) (hm : it.type ≠ KICAD_T.PCB_MODULE_T)
    (hr : removable w.m_editModules it = w.m_editModules) :
    RemoveStep w (removeChild w i) i := by
  cases he : w.m_editModules with
  | true => exact RemoveStep_child w i it hi he (by rw [hr, he]) hm
  | false =>
    rw [removeChild_not_edit w i he]
    refine RemoveStep_refl_of_kept w i ?_
    intro it' hi'
    rw [hi] at hi'
    cases hi'
    rw [hr, he]

/-- Every call of `remove` is a removal step. -/
theorem remove_step (w : World) (i : Nat) : RemoveStep w (remove w i) i := by
  cases hi : w.items[i]? with
  | none =>
    have : remove w i = w := by
      unfold remove
      rw [TypeOf_of_none w i hi]
    rw [this]
    exact RemoveStep_refl_of_kept w i (fun it h => by rw [hi] at h; cases h)
  | some it =>
    have hT := TypeOf_of_getElem? w i it hi
    have kept : removable w.m_editModules it = false →
        ∀ it', w.items[i]? = some it' → removable w.m_editModules it' = false := by
      intro h it' hi'
      rw [hi] at hi'
      cases hi'
      exact h
    unfold remove
    rw [hT]
    cases ht : it.type <;> simp only []
    · exact RemoveStep_module w i it hi ht
    · exact RemoveStep_childCase w i it hi (by rw [ht]; decide)
        (by unfold removable; rw [ht])
    · cases he : w.m_editModules with
      | false =>
        simp only [Bool.false_eq_true, if_false]
        exact RemoveStep_childCase w i it hi (by rw [ht]; decide)
          (by unfold removable; rw [ht, he]; rfl)
      | true =>
        simp only [if_true, hi, Option.map_some']
        cases htt : it.textType <;> simp only []
        · exact RemoveStep_of_log w _ i ⟨_, rfl⟩
            (kept (by unfold removable; rw [ht, htt]; simp))
        · exact RemoveStep_of_log w _ i ⟨_, rfl⟩
            (kept (by unfold removable; rw [ht, htt]; simp))
        · exact RemoveStep_child w i it hi he (by unfold removable; rw [ht, htt, he]; rfl)
            (by rw [ht]; decide)
    · exact RemoveStep_childCase w i it hi (by rw [ht]; decide)
        (by unfold removable; rw [ht])
    all_goals first
      | exact RemoveStep_topLevel w i it hi (by unfold removable; rw [ht]) (by rw [ht]; decide)
      | exact RemoveStep_refl_of_kept w i (kept (by unfold removable; rw [ht]))

theorem remove_selection (w : World) (i : Nat) : (remove w i).selection = w.selection := by
  have hc : (removeChild w i).selection = w.selection := by
    unfold removeChild
    split
    · simp only [DeleteStructure, emit, modifyItem]
      split
      · split <;> rfl
      · rfl
    · rfl
  unfold remove
  split <;> first
    | rfl
    | exact hc
    | (split
       · split <;> first | rfl | exact hc
       · exact hc)
    | (simp [RunOnChildren_viewRemove, removeTopLevel, boardRemove, viewRemove, emit,
        modifyItem, clearFlags])

theorem removeLoop_selection (l : List (Nat × UNDO_REDO_T)) (w : World) :
    (l.foldl (fun v p => remove v p.1) w).selection = w.selection := by
  induction l generalizing w with
  | nil => rfl
  | cons p t ih => rw [List.foldl_cons, ih, remove_selection]

theorem ownerAt_some (w : World) (j : Nat) (it : BOARD_ITEM) (h : w.items[j]? = some it) :
    ownerAt w j = some it.owner := by
  unfold ownerAt
  rw [h]
  rfl

theorem RemoveInv_refl (w v : World) (hi : v.items = w.items) (hv : v.view = w.view)
    (he : v.m_editModules = w.m_editModules) : RemoveInv w v := by
  refine ⟨he, by rw [hi], ?_, ?_, ?_⟩
  · intro j it hj
    exact ⟨it, by rw [hi]; exact hj, rfl, rfl, Or.inl rfl⟩
  · intro j hj
    rw [← hv]; exact hj
  · intro m _ hne
    exact absurd (by unfold ownerAt; rw [hi]) hne

theorem RemoveInv_step (w v v2 : World) (i : Nat) (hinv : RemoveInv w v)
    (hstep : RemoveStep v v2 i) : RemoveInv w v2 := by
  obtain ⟨ie, il, ii, iv, ic⟩ := hinv
  obtain ⟨se, sl, so, sv, ss⟩ := hstep
  have hitems : ∀ j it, w.items[j]? = some it →
      ∃ it2, v2.items[j]? = some it2 ∧ it2.type = it.type ∧ it2.textType = it.textType
        ∧ (it2.owner = it.owner
            ∨ ((it2.owner = OWNER.unlinked ∨ it2.owner = OWNER.destroyed) ∧ j ∉ v2.view)) := by
    intro j it hj
    obtain ⟨it2, h2, ht, htt, ho⟩ := ii j it hj
    have hkeep : it2.owner = it.owner
        ∨ ((it2.owner = OWNER.unlinked ∨ it2.owner = OWNER.destroyed) ∧ j ∉ v2.view) := by
      rcases ho with ho | ⟨ho, hview⟩
      · exact Or.inl ho
      · exact Or.inr ⟨ho, fun hm => hview (sv j hm)⟩
    by_cases hji : j = i
    · subst hji
      have hs := ss it2 h2
      by_cases hr : removable v.m_editModules it2 = true
      · rw [if_pos hr] at hs
        obtain ⟨⟨it3, h3, ht3, htt3, ho3⟩, hview3, _⟩ := hs
        exact ⟨it3, h3, ht3.trans ht, htt3.trans htt, Or.inr ⟨ho3, hview3⟩⟩
      · rw [if_neg hr] at hs
        exact ⟨it2, hs, ht, htt, hkeep⟩
    · exact ⟨it2, by rw [so j hji]; exact h2, ht, htt, hkeep⟩
  refine ⟨se.trans ie, sl.trans il, hitems, fun j hj => iv j (sv j hj), ?_⟩
  intro m hm hne j hj hmem
  by_cases hprev : ownerAt v m = ownerAt w m
  · -- the owner of `m` changed in this step, so `m = i` and `i` is a footprint
    have hmi : m = i := by
      by_contra hmi
      apply hne
      rw [← hprev]
      unfold ownerAt
      rw [so m hmi]
    subst hmi
    cases hwm : w.items[m]? with
    | none =>
      rw [TypeOf_of_none w m hwm] at hm
      cases hm
    | some itm =>
      rw [TypeOf_of_getElem? w m itm hwm] at hm
      obtain ⟨itv, hv, htv, _, _⟩ := ii m itm hwm
      have hs := ss itv hv
      by_cases hr : removable v.m_editModules itv = true
      · rw [if_pos hr] at hs
        obtain ⟨_, _, hchildren⟩ := hs
        cases hwj : w.items[j]? with
        | none =>
          unfold ownerAt at hj
          rw [hwj] at hj
          cases hj
        | some itj =>
          obtain ⟨itj2, hj2, _, _, hoj⟩ := ii j itj hwj
          rcases hoj with hoj | ⟨_, hview⟩
          · apply hchildren (htv.trans hm) j _ hmem
            rw [ownerAt_some v j itj2 hj2, hoj, ← ownerAt_some w j itj hwj]
            exact hj
          · exact hview (sv j hmem)
      · rw [if_neg hr] at hs
        apply hne
        rw [← hprev]
        unfold ownerAt
        rw [hs, hv]
  · exact ic m hm hprev j hj (sv j hmem)

theorem removable_congr (e : Bool) (a b : BOARD_ITEM) (ht : a.type = b.type)
    (htt : a.textType = b.textType) : removable e a = removable e b := by
  unfold removable
  rw [ht, htt]

theorem RemoveStep_mono (v v2 : World) (i : Nat) (hstep : RemoveStep v v2 i) :
    (∀ j, gone v j → gone v2 j) ∧ (∀ j, j ∈ v2.view → j ∈ v.view) := by
  obtain ⟨_, _, so, sv, ss⟩ := hstep
  refine ⟨?_, sv⟩
  intro j hg
  by_cases hji : j = i
  · subst hji
    cases hv : v.items[j]? with
    | none =>
      unfold gone ownerAt at hg
      rw [hv] at hg
      rcases hg with hg | hg <;> cases hg
    | some it =>
      have hs := ss it hv
      by_cases hr : removable v.m_editModules it = true
      · rw [if_pos hr] at hs
        obtain ⟨⟨it2, h2, _, _, ho⟩, _, _⟩ := hs
        unfold gone
        rw [ownerAt_some v2 j it2 h2]
        rcases ho with ho | ho
        · exact Or.inl (by rw [ho])
        · exact Or.inr (by rw [ho])
      · rw [if_neg hr] at hs
        unfold gone ownerAt at hg ⊢
        rw [hs]
        rw [hv] at hg
        exact hg
  · unfold gone ownerAt at hg ⊢
    rw [so j hji]
    exact hg

theorem removeLoop_mono (l : List (Nat × UNDO_REDO_T)) (v : World) :
    (∀ j, gone v j → gone (l.foldl (fun v p => remove v p.1) v) j)
      ∧ (∀ j, j ∈ (l.foldl (fun v p => remove v p.1) v).view → j ∈ v.view) := by
  induction l generalizing v with
  | nil => exact ⟨fun _ h => h, fun _ h => h⟩
  | cons p t ih =>
    obtain ⟨g1, v1⟩ := RemoveStep_mono v _ p.1 (remove_step v p.1)
    obtain ⟨g2, v2⟩ := ih (remove v p.1)
    exact ⟨fun j h => g2 j (g1 j h), fun j h => v1 j (v2 j h)⟩

/-- After its own removal step an item that `remove` takes out is removed. -/
theorem Removed_step (w v : World) (i : Nat) (hinv : RemoveInv w v) :
    Removed w (remove v i) i := by
  obtain ⟨ie, _, ii, _, _⟩ := hinv
  obtain ⟨_, _, _, sv, ss⟩ := remove_step v i
  intro it hi hr
  obtain ⟨it2, h2, ht, htt, _⟩ := ii i it hi
  have hr2 : removable v.m_editModules it2 = true := by
    rw [ie, removable_congr _ it2 it ht htt]
    exact hr
  have hs := ss it2 h2
  rw [if_pos hr2] at hs
  obtain ⟨⟨it3, h3, _, _, ho⟩, hview, hchildren⟩ := hs
  refine ⟨?_, hview, ?_⟩
  · unfold gone
    rw [ownerAt_some _ i it3 h3]
    rcases ho with ho | ho
    · exact Or.inl (by rw [ho])
    · exact Or.inr (by rw [ho])
  · intro hm j hj hmem
    cases hwj : w.items[j]? with
    | none =>
      unfold ownerAt at hj
      rw [hwj] at hj
      cases hj
    | some itj =>
      obtain ⟨itj2, hj2, _, _, hoj⟩ := ii j itj hwj
      rcases hoj with hoj | ⟨_, hv⟩
      · apply hchildren (ht.trans hm) j _ hmem
        rw [ownerAt_some v j itj2 hj2, hoj, ← ownerAt_some w j itj hwj]
        exact hj
      · exact hv (sv j hmem)

theorem Removed_mono (w v v2 : World) (i : Nat) (hg : ∀ j, gone v j → gone v2 j)
    (hv : ∀ j, j ∈ v2.view → j ∈ v.view) (h : Removed w v i) : Removed w v2 i := by
  intro it hi hr
  obtain ⟨h1, h2, h3⟩ := h it hi hr
  exact ⟨hg i h1, fun hm => h2 (hv i hm), fun hm j hj hmem => h3 hm j hj (hv j hmem)⟩

/-- The loop of `Remove` keeps its invariant and removes every item it
handles. -/
theorem removeLoop_inv (w : World) (l : List (Nat × UNDO_REDO_T)) (v : World)
    (hinv : RemoveInv w v) :
    RemoveInv w (l.foldl (fun v p => remove v p.1) v)
      ∧ ∀ p ∈ l, Removed w (l.foldl (fun v p => remove v p.1) v) p.1 := by
  induction l generalizing v with
  | nil => exact ⟨hinv, fun p hp => absurd hp (List.not_mem_nil p)⟩
  | cons p t ih =>
    have hinv2 := RemoveInv_step w v _ p.1 hinv (remove_step v p.1)
    obtain ⟨hfin, hrest⟩ := ih (remove v p.1) hinv2
    refine ⟨hfin, ?_⟩
    intro q hq
    rcases List.mem_cons.mp hq with rfl | hq
    · obtain ⟨g, vw⟩ := removeLoop_mono t (remove v q.1)
      exact Removed_mono w _ _ q.1 g vw (Removed_step w v q.1 hinv)
    · exact hrest q hq

theorem onBoard_of_gone (v : World) (i : Nat) (h : gone v i) : onBoard v i = false := by
  unfold onBoard
  rcases h with h | h <;> rw [h]

/-- The world `Remove` runs its removal loop in, and the loop itself. -/
theorem Remove_of_ok (w : World) (hok : (makeSelection w).2 = true) :
    ∃ (v : World) (l : List (Nat × UNDO_REDO_T)),
      Remove w = setTransitions (emit (l.foldl (fun v p => remove v p.1) v) Effect.rnRecalculate)
        ∧ l.map (fun p => p.1) = (makeSelection w).1.selection
        ∧ v.items = w.items ∧ v.view = w.view ∧ v.m_editModules = w.m_editModules
        ∧ v.selection = [] := by
  refine ⟨SaveCopyInUndoList (emit (selectionClear (makeSelection w).1) Effect.onModify)
      ((selectionItems (makeSelection w).1).map (fun p => (p.1, UNDO_REDO_T.UR_DELETED)))
      UNDO_REDO_T.UR_DELETED default,
    (selectionItems (makeSelection w).1).map (fun p => (p.1, UNDO_REDO_T.UR_DELETED)),
    ?_, ?_, ?_, ?_, ?_, ?_⟩
  · unfold Remove
    rw [makeSelection_pair w hok]
    simp only [Bool.not_true, Bool.false_eq_true, if_false]
  · simp [selectionItems, List.map_map, Function.comp_def]
  · simp [SaveCopyInUndoList, emit, selectionClear, makeSelection_items]
  · simp [SaveCopyInUndoList, emit, selectionClear, makeSelection_view]
  · simp only [SaveCopyInUndoList, emit, selectionClear]
    unfold makeSelection
    by_cases h : w.selection.isEmpty <;> simp [h, selectionSingle, emit]
  · simp [SaveCopyInUndoList, emit, selectionClear]

/-- C4 : after a `Remove` call on a non-empty working set the selection is empty,
so it refers to no removed item; every item that was part of the board before
the call and is not after it is absent from the view; and every item of the
working set that `remove` takes out of the document (a top-level item, a
footprint, or in child-edit mode a pad, a footprint edge or a footprint text
that is not the reference or the value) is no longer part of the board and is
absent from the view, and with a footprint so are all its children. -/
theorem Remove_leaves_no_reference (w : World) (hok : (makeSelection w).2 = true) :
    (Remove w).selection = []
      ∧ (∀ j, onBoard w j = true → onBoard (Remove w) j = false → j ∉ (Remove w).view)
      ∧ (∀ i ∈ (makeSelection w).1.selection, removableAt w i = true →
          onBoard (Remove w) i = false ∧ i ∉ (Remove w).view
            ∧ (TypeOf w i = KICAD_T.PCB_MODULE_T →
                ∀ c, ownerAt w c = some (OWNER.container i) →
                  onBoard (Remove w) c = false ∧ c ∉ (Remove w).view)) := by
  obtain ⟨v, l, hR, hl, hvi, hvv, hve, hvs⟩ := Remove_of_ok w hok
  obtain ⟨hinv, hrem⟩ := removeLoop_inv w l v (RemoveInv_refl w v hvi hvv hve)
  generalize hfin : l.foldl (fun v p => remove v p.1) v = fin at hinv hrem hR
  have hsel : fin.selection = [] := by rw [← hfin, removeLoop_selection, hvs]
  have hRi : (Remove w).items = fin.items := by rw [hR]; rfl
  have hRv : (Remove w).view = fin.view := by rw [hR]; rfl
  have hRo : ∀ j, ownerAt (Remove w) j = ownerAt fin j := by
    intro j; unfold ownerAt; rw [hRi]
  have hRt : ∀ j, TypeOf (Remove w) j = TypeOf fin j := by
    intro j; unfold TypeOf; rw [hRi]
  have hRb : ∀ j, onBoard (Remove w) j = onBoard fin j := by
    intro j; unfold onBoard; rw [hRo]
    cases ownerAt fin j with
    | none => rfl
    | some o => cases o <;> simp only [hRo, hRt]
  obtain ⟨_, _, ii, _, ic⟩ := hinv
  have hType : ∀ m, TypeOf fin m = TypeOf w m := by
    intro m
    cases hm : w.items[m]? with
    | none =>
      rw [TypeOf_of_none w m hm]
      apply TypeOf_of_none
      apply List.getElem?_eq_none
      have : w.items.length ≤ m := by
        by_contra hlt
        rw [List.getElem?_eq_getElem (Nat.lt_of_not_le hlt)] at hm
        cases hm
      omega
    | some it =>
      obtain ⟨it2, h2, ht, _, _⟩ := ii m it hm
      rw [TypeOf_of_getElem? w m it hm, TypeOf_of_getElem? fin m it2 h2, ht]
  -- a child of a footprint that is gone is not part of the board
  have hchild : ∀ m c, gone fin m → ownerAt w c = some (OWNER.container m) →
      onBoard fin c = false := by
    intro m c hg hc
    cases hwc : w.items[c]? with
    | none => unfold ownerAt at hc; rw [hwc] at hc; cases hc
    | some itc =>
      obtain ⟨itc2, hc2, _, _, ho⟩ := ii c itc hwc
      rw [ownerAt_some w c itc hwc] at hc
      unfold onBoard
      rw [ownerAt_some fin c itc2 hc2]
      rcases ho with ho | ⟨ho | ho, _⟩
      · rw [ho, Option.some.inj hc]
        rcases hg with hg | hg <;> simp [hg]
      · rw [ho]
      · rw [ho]
  refine ⟨by rw [hR]; exact hsel, ?_, ?_⟩
  · intro j hon hoff
    rw [hRb] at hoff
    rw [hRv]
    cases hwj : w.items[j]? with
    | none =>
      unfold onBoard ownerAt at hon
      rw [hwj] at hon
      cases hon
    | some itj =>
      obtain ⟨itj2, hj2, _, _, ho⟩ := ii j itj hwj
      rcases ho with ho | ⟨_, hview⟩
      · -- the item kept its owner, so its footprint left the board
        have hwo := ownerAt_some w j itj hwj
        have hfo : ownerAt fin j = some itj.owner := by rw [ownerAt_some fin j itj2 hj2, ho]
        unfold onBoard at hon hoff
        rw [hwo] at hon
        rw [hfo] at hoff
        cases hown : itj.owner with
        | document => rw [hown] at hoff; cases hoff
        | container m =>
          rw [hown] at hon hoff
          simp only [Bool.and_eq_true, decide_eq_true_eq] at hon
          simp only [hType m, hon.1, decide_True, Bool.true_and, decide_eq_false_iff_not] at hoff
          exact ic m hon.1 (by rw [hon.2]; exact hoff) j (by rw [hwo, hown])
        | unlinked => rw [hown] at hon; cases hon
        | destroyed => rw [hown] at hon; cases hon
      · exact hview
  · intro i hi hr
    have hmem : ∃ p ∈ l, p.1 = i := by
      rw [← hl] at hi
      obtain ⟨p, hp, rfl⟩ := List.mem_map.mp hi
      exact ⟨p, hp, rfl⟩
    obtain ⟨p, hp, rfl⟩ := hmem
    cases hwi : w.items[p.1]? with
    | none =>
      unfold removableAt at hr
      rw [hwi] at hr
      cases hr
    | some it =>
      unfold removableAt at hr
      rw [hwi] at hr
      obtain ⟨hg, hview, hchildren⟩ := hrem p hp it hwi hr
      refine ⟨by rw [hRb]; exact onBoard_of_gone fin p.1 hg, by rw [hRv]; exact hview, ?_⟩
      intro hm c hc
      rw [TypeOf_of_getElem? w p.1 it hwi] at hm
      exact ⟨by rw [hRb]; exact hchild p.1 c hg hc, by rw [hRv]; exact hchildren hm c hc⟩


theorem Remove_leaves_no_reference_witness :
    (Remove exBoardWorld).selection = []
      ∧ onBoard (Remove exBoardWorld) 0 = false ∧ 0 ∉ (Remove exBoardWorld).view
      ∧ onBoard (Remove exBoardWorld) 2 = false ∧ 2 ∉ (Remove exBoardWorld).view
      ∧ (Remove exEditWorld).selection = []
      ∧ onBoard (Remove exEditWorld) 2 = false ∧ 2 ∉ (Remove exEditWorld).view :=
  have h := Remove_leaves_no_reference exBoardWorld (by decide)
  have h0 := h.2.2 0 (by decide) (by decide)
  have h2 := h0.2.2 (by decide) 2 (by decide)
  have e := Remove_leaves_no_reference exEditWorld (by decide)
  have e2 := e.2.2 2 (by decide) (by decide)
  ⟨h.1, h0.1, h0.2.1, h2.1, h2.2, e.1, e2.1, e2.2.1⟩

/-! ## Reserved labels -/

/-- The message `remove` shows for a reserved footprint text. -/
theorem remove_reserved (w : World) (i : Nat) (it : BOARD_ITEM)
    (hi : w.items[i]? = some it) (ht : it.type = KICAD_T.PCB_MODULE_TEXT_T)
    (hr : it.textType = TEXT_TYPE.TEXT_is_REFERENCE ∨ it.textType = TEXT_TYPE.TEXT_is_VALUE) :
    remove w i =
      { w with log := w.log ++
          (if w.m_editModules then
            [Effect.displayError (if it.textType = TEXT_TYPE.TEXT_is_REFERENCE
              then ERROR_MSG.cannotDeleteReference else ERROR_MSG.cannotDeleteValue)]
           else []) } := by
  unfold remove
  rw [TypeOf_of_getElem? w i it hi, ht]
  simp only []
  by_cases he : w.m_editModules = true
  · simp only [he, if_true, hi, Option.map_some']
    rcases hr with hr | hr <;> rw [hr] <;> simp [emit] <;> exact he
  · have he2 : w.m_editModules = false := by simpa using he
    rw [if_neg he, if_neg he, removeChild_not_edit w i he2]
    simp

/-- C5, as amended : an attempt to remove a footprint text whose role is
reference or value leaves the document unchanged in either mode : `remove`
changes nothing but the log, and after `Remove` on a selection of that one item
the items and the view are as before.  The error is reported for the item
exactly when the tool is in child-edit mode (`m_editModules` true); outside
child-edit mode `remove` returns without reporting anything. -/
theorem Remove_reserved_text (w : World) (i : Nat) (it : BOARD_ITEM)
    (hsel : w.selection = [i])
    (hi : w.items[i]? = some it) (ht : it.type = KICAD_T.PCB_MODULE_TEXT_T)
    (hr : it.textType = TEXT_TYPE.TEXT_is_REFERENCE ∨ it.textType = TEXT_TYPE.TEXT_is_VALUE) :
    remove w i =
        { w with log := w.log ++
            (if w.m_editModules then
              [Effect.displayError (if it.textType = TEXT_TYPE.TEXT_is_REFERENCE
                then ERROR_MSG.cannotDeleteReference else ERROR_MSG.cannotDeleteValue)]
             else []) }
      ∧ (Remove w).items = w.items ∧ (Remove w).view = w.view
      ∧ (Remove w).log = w.log ++
          ([Effect.runAction COMMON_ACTIONS.selectionClear, Effect.onModify,
            Effect.saveUndo UNDO_REDO_T.UR_DELETED [i]]
            ++ (if w.m_editModules then
                 [Effect.displayError (if it.textType = TEXT_TYPE.TEXT_is_REFERENCE
                   then ERROR_MSG.cannotDeleteReference else ERROR_MSG.cannotDeleteValue)]
                else [])
            ++ [Effect.rnRecalculate, Effect.setTransitions]) := by
  have hne : w.selection ≠ [] := by rw [hsel]; exact List.cons_ne_nil _ _
  have hR : Remove w = setTransitions (emit (remove
      (SaveCopyInUndoList (emit (selectionClear w) Effect.onModify)
        [(i, UNDO_REDO_T.UR_DELETED)] UNDO_REDO_T.UR_DELETED default) i)
      Effect.rnRecalculate) := by
    unfold Remove
    rw [makeSelection_of_ne w hne]
    simp [selectionItems, hsel]
  refine ⟨remove_reserved w i it hi ht hr, ?_, ?_, ?_⟩ <;>
    · rw [hR, remove_reserved _ i it (by simpa [SaveCopyInUndoList, emit, selectionClear] using hi)
        ht hr]
      simp [setTransitions, emit, SaveCopyInUndoList, selectionClear]

theorem Remove_reserved_text_witness :
    (Remove exTextWorld).items = exTextWorld.items
      ∧ (Remove exTextWorld).view = exTextWorld.view
      ∧ (Remove exTextEditWorld).items = exTextEditWorld.items
      ∧ (Remove exTextEditWorld).log = exTextEditWorld.log ++
          ([Effect.runAction COMMON_ACTIONS.selectionClear, Effect.onModify,
            Effect.saveUndo UNDO_REDO_T.UR_DELETED [1]]
            ++ [Effect.displayError ERROR_MSG.cannotDeleteReference]
            ++ [Effect.rnRecalculate, Effect.setTransitions]) :=
  have h := Remove_reserved_text exTextWorld 1
    { exItem KICAD_T.PCB_MODULE_TEXT_T ⟨100, 90⟩ with
      owner := OWNER.container 0, textType := TEXT_TYPE.TEXT_is_REFERENCE }
    rfl rfl rfl (Or.inl rfl)
  have h2 := Remove_reserved_text exTextEditWorld 1
    { exItem KICAD_T.PCB_MODULE_TEXT_T ⟨100, 90⟩ with
      owner := OWNER.container 0, textType := TEXT_TYPE.TEXT_is_REFERENCE }
    rfl rfl rfl (Or.inl rfl)
  ⟨h.2.1, h.2.2.1, h2.2.1, h2.2.2.2⟩

/-- C5, as stated, fails : outside child-edit mode the attempt to remove the
reference text of a footprint, by `remove` or by `Remove`, reports no error :
`remove` adds nothing to the log, and the log of `Remove` holds the clearing of
the selection, the undo entry, the ratsnest recompute and `setTransitions`
only. -/
theorem Remove_reference_reports_nothing :
    exTextWorld.m_editModules = false
      ∧ exTextWorld.selection = [1]
      ∧ TypeOf exTextWorld 1 = KICAD_T.PCB_MODULE_TEXT_T
      ∧ (exTextWorld.items[1]?).map (fun it => it.textType)
          = some TEXT_TYPE.TEXT_is_REFERENCE
      ∧ (remove exTextWorld 1).log = exTextWorld.log
      ∧ (Remove exTextWorld).log =
          [Effect.runAction COMMON_ACTIONS.selectionClear, Effect.onModify,
           Effect.saveUndo UNDO_REDO_T.UR_DELETED [1], Effect.rnRecalculate,
           Effect.setTransitions] := by
  decide

/-! ## Copy and paste -/

theorem copyClone_type (it : BOARD_ITEM) : (copyClone it).type = it.type := by
  simp only [copyClone, BOARD_ITEM.Clone]
  split <;> rfl

theorem copyClone_attrs (it : BOARD_ITEM) : (copyClone it).attrs = it.attrs := by
  simp only [copyClone, BOARD_ITEM.Clone]
  split <;> rfl

theorem copyClone_place (it : BOARD_ITEM) : samePlace it (copyClone it) := by
  simp only [copyClone, BOARD_ITEM.Clone, samePlace]
  split <;> exact ⟨rfl, rfl, rfl⟩

theorem copyModule_fold (w : World) (ids : List Nat) (m : MODULE_DATA) :
    ids.foldl (copyStep w) m =
      { self := m.self,
        m_Pads := m.m_Pads ++
          ((ids.filterMap (fun i => w.items[i]?)).filter
            (fun it => it.type = KICAD_T.PCB_PAD_T)).map copyClone,
        m_Drawings := m.m_Drawings ++
          ((ids.filterMap (fun i => w.items[i]?)).filter
            (fun it => !(it.type = KICAD_T.PCB_PAD_T))).map copyClone } := by
  induction ids generalizing m with
  | nil => simp
  | cons i t ih =>
    rw [List.foldl_cons, ih]
    cases hi : w.items[i]? with
    | none => simp [copyStep, hi]
    | some it =>
      by_cases hp : it.type = KICAD_T.PCB_PAD_T
      · simp [copyStep, hi, MODULE_DATA.Add, copyClone_type, hp]
      · simp [copyStep, hi, MODULE_DATA.Add, copyClone_type, hp]

/-- The footprint `CopyItems` hands to the clipboard : the pads of the working
set and its other items, each converted by `copyClone`. -/
theorem copyModule_eq (w : World) :
    copyModule w =
      { self := MODULE_DATA.empty.self,
        m_Pads := ((selectedItems w).filter (fun it => it.type = KICAD_T.PCB_PAD_T)).map
          copyClone,
        m_Drawings := ((selectedItems w).filter
          (fun it => !(it.type = KICAD_T.PCB_PAD_T))).map copyClone } := by
  unfold copyModule
  rw [copyModule_fold]
  simp [selectedItems, MODULE_DATA.empty]

theorem CopyItems_of_selection (env : ENV) (w : World) (he : w.m_editModules = true)
    (hsel : w.selection ≠ []) :
    CopyItems env w =
      { w with clipboard := env.Format (copyModule w),
               log := w.log ++ [Effect.saveClipboard, Effect.setTransitions] } := by
  unfold CopyItems
  rw [makeSelection_of_ne w hsel]
  simp [he, setTransitions, emit]

theorem modifyAt_append_last (l : List BOARD_ITEM) (x : BOARD_ITEM)
    (f : BOARD_ITEM → BOARD_ITEM) : modifyAt (l ++ [x]) l.length f = l ++ [f x] := by
  unfold modifyAt
  simp

theorem getElem?_append_of_some (l : List BOARD_ITEM) (x p : BOARD_ITEM) (cm : Nat)
    (h : l[cm]? = some p) : (l ++ [x])[cm]? = some p := by
  have hlt : cm < l.length := by
    by_contra hge
    rw [List.getElem?_eq_none (Nat.le_of_not_lt hge)] at h
    cases h
  rw [List.getElem?_append_left hlt]
  exact h

/-- One pad of the pasted footprint becomes one new item of the store. -/
theorem pastePad_eq (env : ENV) (cm : Nat) (p : BOARD_ITEM) (v : World) (pad : BOARD_ITEM)
    (hp : v.items[cm]? = some p) (ht : pad.type = KICAD_T.PCB_PAD_T) :
    pastePad env cm v pad =
      { v with items := v.items ++ [commitClone env cm p pad],
               view := v.view ++ [v.items.length],
               log := v.log ++ [Effect.moduleAdd cm v.items.length,
                                Effect.viewAdd v.items.length] } := by
  have hp2 : ∀ x, (v.items ++ [x])[cm]? = some p :=
    fun x => getElem?_append_of_some v.items x p cm hp
  simp [pastePad, allocItem, moduleAdd, SetLocalCoord, viewAdd, emit, modifyItem,
    modifyAt_append_last, hp2, commitClone, ht, localCoord, BOARD_ITEM.Clone]

/-- One graphical item of the pasted footprint becomes one new item of the
store. -/
theorem pasteDrawing_eq (env : ENV) (cm : Nat) (p : BOARD_ITEM) (v : World) (d : BOARD_ITEM)
    (hp : v.items[cm]? = some p) (ht : d.type ≠ KICAD_T.PCB_PAD_T) :
    ∃ t, pasteDrawing env cm v d =
      { v with items := v.items ++ [commitClone env cm p d],
               view := v.view ++ [v.items.length],
               log := v.log ++ t } := by
  have hp2 : ∀ x, (v.items ++ [x])[cm]? = some p :=
    fun x => getElem?_append_of_some v.items x p cm hp
  by_cases h1 : d.type = KICAD_T.PCB_MODULE_TEXT_T
  · refine ⟨[Effect.moduleAdd cm v.items.length, Effect.viewAdd v.items.length], ?_⟩
    simp [pasteDrawing, allocItem, moduleAdd, SetLocalCoord, viewAdd, emit, modifyItem,
      modifyAt_append_last, hp2, commitClone, h1, localCoord, BOARD_ITEM.Clone]
  · by_cases h2 : d.type = KICAD_T.PCB_MODULE_EDGE_T
    · refine ⟨[Effect.moduleAdd cm v.items.length, Effect.viewAdd v.items.length], ?_⟩
      simp [pasteDrawing, allocItem, moduleAdd, SetLocalCoord, viewAdd, emit, modifyItem,
        modifyAt_append_last, hp2, commitClone, h2, localCoord, BOARD_ITEM.Clone]
    · refine ⟨[Effect.viewAdd v.items.length], ?_⟩
      simp [pasteDrawing, allocItem, viewAdd, emit, commitClone, h1, h2, ht]

theorem pastePads_fold (env : ENV) (cm : Nat) (p : BOARD_ITEM) (pads : List BOARD_ITEM)
    (hpads : ∀ x ∈ pads, x.type = KICAD_T.PCB_PAD_T) (v : World) (hp : v.items[cm]? = some p) :
    (pads.foldl (pastePad env cm) v).items = v.items ++ pads.map (commitClone env cm p) := by
  induction pads generalizing v with
  | nil => simp
  | cons x t ih =>
    rw [List.foldl_cons, ih (fun y hy => hpads y (List.mem_cons_of_mem _ hy))]
    · rw [pastePad_eq env cm p v x hp (hpads x (List.mem_cons_self _ _))]
      simp
    · rw [pastePad_eq env cm p v x hp (hpads x (List.mem_cons_self _ _))]
      exact getElem?_append_of_some _ _ _ _ hp

theorem pasteDrawings_fold (env : ENV) (cm : Nat) (p : BOARD_ITEM) (ds : List BOARD_ITEM)
    (hds : ∀ x ∈ ds, x.type ≠ KICAD_T.PCB_PAD_T) (v : World) (hp : v.items[cm]? = some p) :
    (ds.foldl (pasteDrawing env cm) v).items = v.items ++ ds.map (commitClone env cm p) := by
  induction ds generalizing v with
  | nil => simp
  | cons x t ih =>
    obtain ⟨tr, hx⟩ := pasteDrawing_eq env cm p v x hp (hds x (List.mem_cons_self _ _))
    rw [List.foldl_cons, ih (fun y hy => hds y (List.mem_cons_of_mem _ hy))]
    · rw [hx]
      simp
    · rw [hx]
      exact getElem?_append_of_some _ _ _ _ hp

/-- The items the commit branch of `PasteItems` adds to the store. -/
theorem pasteCommit_items (env : ENV) (w : World) (cm : Nat) (p : BOARD_ITEM)
    (pasted : MODULE_DATA) (hp : w.items[cm]? = some p)
    (hpads : ∀ x ∈ pasted.m_Pads, x.type = KICAD_T.PCB_PAD_T)
    (hds : ∀ x ∈ pasted.m_Drawings, x.type ≠ KICAD_T.PCB_PAD_T) :
    (pasteCommit env w cm pasted).items =
      w.items ++ (pasted.m_Pads ++ pasted.m_Drawings).map (commitClone env cm p) := by
  have key : ∀ v : World, v.items = w.items →
      (emit (pasted.m_Drawings.foldl (pasteDrawing env cm)
        (pasted.m_Pads.foldl (pastePad env cm) v)) Effect.previewClear).items =
        w.items ++ (pasted.m_Pads ++ pasted.m_Drawings).map (commitClone env cm p) := by
    intro v hv
    have hp1 : v.items[cm]? = some p := by rw [hv]; exact hp
    have h1 := pastePads_fold env cm p pasted.m_Pads hpads v hp1
    have hp2 : (pasted.m_Pads.foldl (pastePad env cm) v).items[cm]? = some p := by
      rw [h1]
      have hlt : cm < v.items.length := by
        by_contra hge
        rw [List.getElem?_eq_none (Nat.le_of_not_lt hge)] at hp1
        cases hp1
      rw [List.getElem?_append_left hlt]
      exact hp1
    have h2 := pasteDrawings_fold env cm p pasted.m_Drawings hds _ hp2
    show (pasted.m_Drawings.foldl (pasteDrawing env cm)
        (pasted.m_Pads.foldl (pastePad env cm) v)).items = _
    rw [h2, h1, hv, List.map_append, List.append_assoc]
  unfold pasteCommit
  simp only []
  apply key
  simp [SaveCopyInUndoList, emit]

theorem pasteLoop_cons (env : ENV) (cm : Nat) (w : World) (pasted : MODULE_DATA)
    (evt : TOOL_EVENT) (rest : List TOOL_EVENT) :
    pasteLoop env cm w pasted (evt :: rest) =
      match pasteBranch evt with
      | PASTE_BRANCH.motion =>
        pasteLoop env cm
          (emit (emit (Wait w evt) Effect.previewMove) Effect.previewViewUpdate)
          (pasted.SetPosition evt.cursor) rest
      | PASTE_BRANCH.rotate =>
        pasteLoop env cm
          (emit (emit (Wait w evt) Effect.previewRotate) Effect.previewViewUpdate)
          (pasted.Rotate env.rotateGeneric pasted.self.pos w.rotationAngle) rest
      | PASTE_BRANCH.flip =>
        pasteLoop env cm
          (emit (emit (Wait w evt) Effect.previewFlip) Effect.previewViewUpdate)
          (pasted.Flip pasted.self.pos) rest
      | PASTE_BRANCH.cancel => emit (Wait w evt) Effect.previewClear
      | PASTE_BRANCH.command => pasteLoop env cm (Wait w evt) pasted rest
      | PASTE_BRANCH.click => pasteCommit env (Wait w evt) cm pasted
      | PASTE_BRANCH.ignored => pasteLoop env cm (Wait w evt) pasted rest := by
  rw [pasteLoop]
  unfold pasteBranch
  split_ifs <;> rfl

theorem mapAll_mapAll (f g : BOARD_ITEM → BOARD_ITEM) (m : MODULE_DATA) :
    (m.mapAll f).mapAll g = m.mapAll (g ∘ f) := by
  simp [List.map_map, MODULE_DATA.mapAll]

theorem mapAll_id (m : MODULE_DATA) : m.mapAll id = m := by
  simp [List.map_id, MODULE_DATA.mapAll]

theorem keepsShape_comp (f g : BOARD_ITEM → BOARD_ITEM) (hf : keepsShape f)
    (hg : keepsShape g) : keepsShape (g ∘ f) := by
  intro it
  obtain ⟨a1, a2, a3, a4, a5⟩ := hf it
  obtain ⟨b1, b2, b3, b4, b5⟩ := hg (f it)
  exact ⟨b1.trans a1, b2.trans a2, b3.trans a3, b4.trans a4, b5.trans a5⟩

/-- The preview phase of `PasteItems` : the events before the commit change the
placement of the pasted footprint and nothing in the item store. -/
theorem pasteLoop_preview (env : ENV) (cm : Nat) (pre rest : List TOOL_EVENT)
    (hpre : ∀ e ∈ pre, isPreviewEvent e = true) (w : World) (pasted : MODULE_DATA) :
    ∃ (w2 : World) (f : BOARD_ITEM → BOARD_ITEM),
      pasteLoop env cm w pasted (pre ++ rest) = pasteLoop env cm w2 (pasted.mapAll f) rest
        ∧ w2.items = w.items ∧ keepsShape f ∧ (pre = [] → ∀ it, f it = it) := by
  induction pre generalizing w pasted with
  | nil =>
    exact ⟨w, id, by rw [mapAll_id]; rfl, rfl, fun it => ⟨rfl, rfl, rfl, rfl, rfl⟩,
      fun _ it => rfl⟩
  | cons e t ih =>
    have he := hpre e (List.mem_cons_self _ _)
    have ht := fun x hx => hpre x (List.mem_cons_of_mem _ hx)
    unfold isPreviewEvent at he
    rw [List.cons_append, pasteLoop_cons]
    cases hb : pasteBranch e <;> rw [hb] at he <;> simp only []
    · obtain ⟨w2, f, h1, h2, h3, _⟩ := ih ht
        (emit (emit (Wait w e) Effect.previewMove) Effect.previewViewUpdate)
        (pasted.SetPosition e.cursor)
      refine ⟨w2, f ∘ (fun c => c.Move (e.cursor - pasted.self.pos)), ?_, h2,
        keepsShape_comp _ _ (fun it => ⟨rfl, rfl, rfl, rfl, rfl⟩) h3, ?_⟩
      · rw [h1, ← mapAll_mapAll]; rfl
      · intro h; cases h
    · obtain ⟨w2, f, h1, h2, h3, _⟩ := ih ht
        (emit (emit (Wait w e) Effect.previewRotate) Effect.previewViewUpdate)
        (pasted.Rotate env.rotateGeneric pasted.self.pos w.rotationAngle)
      refine ⟨w2, f ∘ (fun c => c.Rotate env.rotateGeneric pasted.self.pos w.rotationAngle),
        ?_, h2, keepsShape_comp _ _ (fun it => ⟨rfl, rfl, rfl, rfl, rfl⟩) h3, ?_⟩
      · rw [h1, ← mapAll_mapAll]; rfl
      · intro h; cases h
    · obtain ⟨w2, f, h1, h2, h3, _⟩ := ih ht
        (emit (emit (Wait w e) Effect.previewFlip) Effect.previewViewUpdate)
        (pasted.Flip pasted.self.pos)
      refine ⟨w2, f ∘ (fun c => c.Flip pasted.self.pos), ?_, h2,
        keepsShape_comp _ _ (fun it => ⟨rfl, rfl, rfl, rfl, rfl⟩) h3, ?_⟩
      · rw [h1, ← mapAll_mapAll]; rfl
      · intro h; cases h
    · exact absurd he (by decide)
    · obtain ⟨w2, f, h1, h2, h3, _⟩ := ih ht (Wait w e) pasted
      exact ⟨w2, f, h1, h2, h3, fun h => by cases h⟩
    · exact absurd he (by decide)
    · obtain ⟨w2, f, h1, h2, h3, _⟩ := ih ht (Wait w e) pasted
      exact ⟨w2, f, h1, h2, h3, fun h => by cases h⟩

theorem commitClone_pastedFrom (env : ENV) (cm : Nat) (p : BOARD_ITEM)
    (f : BOARD_ITEM → BOARD_ITEM) (hf : keepsShape f) (orig : BOARD_ITEM)
    (hc : isChildType orig.type = true) :
    pastedFrom env cm p orig (commitClone env cm p (f (copyClone orig))) := by
  obtain ⟨h1, _, h3, _, _⟩ := hf (copyClone orig)
  have ht : (f (copyClone orig)).type = orig.type := h1.trans (copyClone_type orig)
  have ha : (f (copyClone orig)).attrs = orig.attrs := h3.trans (copyClone_attrs orig)
  unfold isChildType at hc
  simp only [Bool.or_eq_true, decide_eq_true_eq] at hc
  unfold pastedFrom commitClone
  rcases hc with (hc | hc) | hc <;> rw [ht, hc] <;>
    simp [BOARD_ITEM.Clone, ht, ha, hc]

theorem commitClone_samePlace (env : ENV) (cm : Nat) (p : BOARD_ITEM) (orig : BOARD_ITEM) :
    samePlace orig (commitClone env cm p (copyClone orig)) := by
  obtain ⟨h1, h2, h3⟩ := copyClone_place orig
  unfold samePlace commitClone
  split_ifs <;> exact ⟨h1, h2, h3⟩

theorem selectedItems_length (w : World)
    (hvalid : ∀ i ∈ w.selection, ∃ it, w.items[i]? = some it ∧ isChildType it.type = true) :
    (selectedItems w).length = w.selection.length := by
  unfold selectedItems
  generalize w.selection = l at hvalid
  induction l with
  | nil => rfl
  | cons i t ih =>
    obtain ⟨it, hi, _⟩ := hvalid i (List.mem_cons_self _ _)
    rw [List.filterMap_cons, hi]
    simp only [List.length_cons]
    rw [ih (fun j hj => hvalid j (List.mem_cons_of_mem _ hj))]

theorem pasteOrder_length (l : List BOARD_ITEM) : (pasteOrder l).length = l.length := by
  unfold pasteOrder
  rw [List.length_append]
  exact (List.length_eq_length_filter_add _).symm

theorem mem_pasteOrder (l : List BOARD_ITEM) (x : BOARD_ITEM) (h : x ∈ pasteOrder l) :
    x ∈ l := by
  unfold pasteOrder at h
  rcases List.mem_append.mp h with h | h <;> exact (List.mem_filter.mp h).1

theorem mem_selectedItems (w : World) (x : BOARD_ITEM) (h : x ∈ selectedItems w) :
    ∃ i ∈ w.selection, w.items[i]? = some x := by
  unfold selectedItems at h
  obtain ⟨i, hi, hx⟩ := List.mem_filterMap.mp h
  exact ⟨i, hi, hx⟩

theorem m_Modules_valid (w : World) (cm : Nat) (h : m_Modules w = some cm) :
    ∃ p, w.items[cm]? = some p ∧ p.type = KICAD_T.PCB_MODULE_T
      ∧ p.owner = OWNER.document := by
  unfold m_Modules at h
  have hmem := List.mem_of_mem_head? h
  obtain ⟨p, hp, hprop⟩ := (mem_itemsWhere w _ cm).mp hmem
  simp only [Bool.and_eq_true, decide_eq_true_eq] at hprop
  exact ⟨p, hp, hprop.2, hprop.1⟩

theorem PasteItems_of_parse (env : ENV) (w : World) (events : List TOOL_EVENT)
    (pm : MODULE_DATA) (he : w.m_editModules = true) (hparse : env.Parse w.clipboard = some pm) :
    ∃ w3 : World, w3.items = w.items
      ∧ (PasteItems env w events).items
          = (pasteLoop env ((m_Modules w).getD 0) w3 pm events).items := by
  refine ⟨{ emit (emit (emit (selectionClear (emit w Effect.previewAdd)) (Effect.showCursor true))
      (Effect.setSnapping true)) Effect.activate with toolActive := true }, rfl, ?_⟩
  unfold PasteItems
  simp only [he, hparse, Bool.not_true, Bool.false_eq_true, if_false, setTransitions, emit]

/-- C6 : in child-edit mode, with a clipboard codec that returns the footprint it
was given, `CopyItems` on a working set of `N` footprint children followed by
`PasteItems`, committed with a left click after any preview events, adds
exactly `N` new items to the store, after the items that were there, which stay
as they were : so every copy has an identity of its own.  The copies come pads
first; each has the type and the shape and attributes of its original, is owned
by the destination footprint, has local coordinates that are its position
rebased to that footprint, and has the generic role `TEXT_is_DIVERS` when it is
a text.  When the click is the first event, each copy is placed where its
original is. -/
theorem copy_paste_round_trip (env : ENV) (w : World) (cm : Nat) (pre : List TOOL_EVENT)
    (click : TOOL_EVENT) (rest : List TOOL_EVENT)
    (hedit : w.m_editModules = true) (hsel : w.selection ≠ [])
    (hvalid : ∀ i ∈ w.selection, ∃ it, w.items[i]? = some it ∧ isChildType it.type = true)
    (hcodec : env.Parse (env.Format (copyModule w)) = some (copyModule w))
    (hcm : m_Modules w = some cm)
    (hpre : ∀ e ∈ pre, isPreviewEvent e = true)
    (hclick : pasteBranch click = PASTE_BRANCH.click) :
    ∃ (parent : BOARD_ITEM) (news : List BOARD_ITEM),
      w.items[cm]? = some parent
        ∧ (PasteItems env (CopyItems env w) (pre ++ click :: rest)).items = w.items ++ news
        ∧ news.length = w.selection.length
        ∧ List.Forall₂ (pastedFrom env cm parent) (pasteOrder (selectedItems w)) news
        ∧ (∀ n ∈ news, n.type = KICAD_T.PCB_MODULE_TEXT_T →
            n.textType = TEXT_TYPE.TEXT_is_DIVERS)
        ∧ (pre = [] → List.Forall₂ samePlace (pasteOrder (selectedItems w)) news)
        ∧ (∀ i ∈ w.selection, i < w.items.length) := by
  obtain ⟨parent, hparent, _, _⟩ := m_Modules_valid w cm hcm
  have hchild : ∀ x ∈ pasteOrder (selectedItems w), isChildType x.type = true := by
    intro x hx
    obtain ⟨i, hi, hix⟩ := mem_selectedItems w x (mem_pasteOrder _ x hx)
    obtain ⟨it, hit, hc⟩ := hvalid i hi
    rw [hix] at hit
    cases hit
    exact hc
  -- the copy
  have hcopy := CopyItems_of_selection env w hedit hsel
  obtain ⟨w3, hw3, hP⟩ := PasteItems_of_parse env (CopyItems env w) (pre ++ click :: rest)
    (copyModule w) (by rw [hcopy]; exact hedit) (by rw [hcopy]; exact hcodec)
  have hmod : m_Modules (CopyItems env w) = some cm := by rw [hcopy]; exact hcm
  rw [hmod, Option.getD_some] at hP
  have hw3i : w3.items = w.items := by rw [hw3, hcopy]
  -- the preview phase and the commit
  obtain ⟨w2, f, hloop, hw2, hf, hid⟩ := pasteLoop_preview env cm pre (click :: rest) hpre w3
    (copyModule w)
  rw [hloop, pasteLoop_cons, hclick] at hP
  simp only [] at hP
  have hpads : ∀ x ∈ ((copyModule w).mapAll f).m_Pads, x.type = KICAD_T.PCB_PAD_T := by
    intro x hx
    rw [copyModule_eq] at hx
    simp only [List.map_map, MODULE_DATA.mapAll, List.mem_map, List.mem_filter,
      decide_eq_true_eq, Function.comp_apply] at hx
    obtain ⟨o, ⟨_, ho⟩, rfl⟩ := hx
    rw [(hf _).1, copyClone_type, ho]
  have hds : ∀ x ∈ ((copyModule w).mapAll f).m_Drawings, x.type ≠ KICAD_T.PCB_PAD_T := by
    intro x hx
    rw [copyModule_eq] at hx
    simp only [List.map_map, MODULE_DATA.mapAll, List.mem_map, List.mem_filter,
      Bool.not_eq_true', decide_eq_false_iff_not, Function.comp_apply] at hx
    obtain ⟨o, ⟨_, ho⟩, rfl⟩ := hx
    rw [(hf _).1, copyClone_type]
    exact ho
  have hitems := pasteCommit_items env (Wait w2 click) cm parent ((copyModule w).mapAll f)
    (by show w2.items[cm]? = some parent; rw [hw2, hw3i]; exact hparent) hpads hds
  have hnews : (((copyModule w).mapAll f).m_Pads ++ ((copyModule w).mapAll f).m_Drawings).map
      (commitClone env cm parent) =
      (pasteOrder (selectedItems w)).map (fun o => commitClone env cm parent (f (copyClone o))) := by
    rw [copyModule_eq]
    simp [List.map_map, MODULE_DATA.mapAll, pasteOrder, Function.comp_def]
  have hfrom : ∀ o ∈ pasteOrder (selectedItems w),
      pastedFrom env cm parent o (commitClone env cm parent (f (copyClone o))) :=
    fun o ho => commitClone_pastedFrom env cm parent f hf o (hchild o ho)
  refine ⟨parent,
    (pasteOrder (selectedItems w)).map (fun o => commitClone env cm parent (f (copyClone o))),
    hparent, ?_, ?_, ?_, ?_, ?_, ?_⟩
  · rw [hP, hitems, hnews]
    show w2.items ++ _ = _
    rw [hw2, hw3i]
  · rw [List.length_map, pasteOrder_length, selectedItems_length w hvalid]
  · rw [List.forall₂_map_right_iff, List.forall₂_same]
    exact hfrom
  · intro n hn hnt
    obtain ⟨o, ho, rfl⟩ := List.mem_map.mp hn
    exact (hfrom o ho).2.2.2.1 hnt
  · intro hnil
    rw [List.forall₂_map_right_iff, List.forall₂_same]
    intro o _
    rw [hid hnil]
    exact commitClone_samePlace env cm parent o
  · intro i hi
    obtain ⟨it, hit, _⟩ := hvalid i hi
    by_contra hge
    rw [List.getElem?_eq_none (Nat.le_of_not_lt hge)] at hit
    cases hit


theorem copy_paste_round_trip_witness :
    exCopyWorld.m_editModules = true ∧ exCopyWorld.selection.length = 3
      ∧ (PasteItems exCodecEnv (CopyItems exCodecEnv exCopyWorld)
          [evMotion ⟨1, 1⟩, evClick ⟨1, 1⟩]).items.length = exCopyWorld.items.length + 3 := by
  obtain ⟨_, news, _, hitems, hlen, _⟩ := copy_paste_round_trip exCodecEnv exCopyWorld 0
    [evMotion ⟨1, 1⟩] (evClick ⟨1, 1⟩) [] rfl (by decide)
    (by
      intro i hi
      simp only [exCopyWorld, List.mem_cons, List.mem_singleton, List.not_mem_nil,
        or_false] at hi
      rcases hi with rfl | rfl | rfl <;> exact ⟨_, rfl, rfl⟩)
    rfl (by decide) (by decide) (by decide)
  refine ⟨rfl, rfl, ?_⟩
  rw [show [evMotion ⟨1, 1⟩, evClick ⟨1, 1⟩] = [evMotion ⟨1, 1⟩] ++ evClick ⟨1, 1⟩ :: [] from rfl,
    hitems, List.length_append, hlen]
  rfl

/-! ## The pivot of Rotate and Flip -/

theorem Rotate_items (env : ENV) (w : World) (hsel : w.selection ≠ []) :
    (Rotate env w).items = rotatedItems env w := by
  cases hd : w.m_dragging
  · rw [Rotate_idle env w w (by rw [makeSelection_of_ne w hsel])
      (by rw [makeSelection_of_ne w hsel]) hd]
  · rw [Rotate_dragging env w hsel hd]

theorem Flip_items (w : World) (hsel : w.selection ≠ []) :
    (Flip w).items = flippedItems w := by
  cases hd : w.m_dragging
  · rw [Flip_idle w w (by rw [makeSelection_of_ne w hsel])
      (by rw [makeSelection_of_ne w hsel]) hd]
  · rw [Flip_dragging w hsel hd]

/-- C12 : the pivot `getModificationPoint` returns is, for a selection of exactly
one item, the position of that item minus `m_offset`, and the members of the
tool are left alone; for every other selection size it is `m_cursor`, which is
first re-read from the view controls when the edit tool is not the active tool.
`Rotate` and `Flip` on a non-empty selection turn and mirror every selected
item about that point. -/
theorem getModificationPoint_pivot (env : ENV) (w : World) :
    (w.selection.length = 1 →
        getModificationPoint w = (w, GetPosition w (w.selection.headD 0) - w.m_offset))
      ∧ (w.selection.length ≠ 1 → w.toolActive = true →
          getModificationPoint w = (w, w.m_cursor))
      ∧ (w.selection.length ≠ 1 → w.toolActive = false →
          getModificationPoint w = ({ w with m_cursor := w.viewCursor }, w.viewCursor))
      ∧ (w.selection ≠ [] →
          (Rotate env w).items =
              modifyAll (fun it =>
                it.Rotate env.rotateGeneric (getModificationPoint w).2 w.rotationAngle)
                w.selection w.items
            ∧ (Flip w).items =
              modifyAll (fun it => it.Flip (getModificationPoint w).2) w.selection w.items) := by
  refine ⟨?_, ?_, ?_, ?_⟩
  · intro h
    unfold getModificationPoint
    rw [if_pos h]
  · intro h ht
    unfold getModificationPoint
    rw [if_neg h]
    simp [ht]
  · intro h ht
    unfold getModificationPoint
    rw [if_neg h]
    simp [ht]
  · intro hsel
    rw [Rotate_items env w hsel, Flip_items w hsel, getModificationPoint_eq]
    exact ⟨rfl, rfl⟩

theorem getModificationPoint_pivot_witness :
    getModificationPoint exOneWorld = (exOneWorld, ⟨7, 6⟩)
      ∧ getModificationPoint exWorld
          = ({ exWorld with m_cursor := exWorld.viewCursor }, ⟨12, 10⟩) :=
  ⟨(getModificationPoint_pivot exEnv exOneWorld).1 rfl,
    (getModificationPoint_pivot exEnv exWorld).2.2.1 (by decide) rfl⟩

/-! ## The ratsnest during a drag -/

theorem ratsnestTrace_no_recalculate (aRedraw : Bool) (ids : List Nat) :
    Effect.rnRecalculate ∉ ratsnestTrace aRedraw ids := by
  induction ids with
  | nil => simp [ratsnestTrace]
  | cons i t ih =>
    cases aRedraw <;> simp [ratsnestTrace, ih]

theorem ratsnestTrace_mem (ids : List Nat) (i : Nat) (hi : i ∈ ids) :
    Effect.rnUpdate i ∈ ratsnestTrace true ids
      ∧ Effect.rnAddSimple i ∈ ratsnestTrace true ids := by
  induction ids with
  | nil => cases hi
  | cons j t ih =>
    rcases List.mem_cons.1 hi with h | h
    · subst h
      simp [ratsnestTrace]
    · have := ih h
      simp [ratsnestTrace, this.1, this.2]

/-- A motion event never asks for the ratsnest to be recomputed; while dragging
it clears the simple ratsnest and updates and redraws it for every selected
item. -/
theorem mainMotion_ratsnest (v : World) (ctrl : Bool) :
    ∃ t, (mainMotion v ctrl).log = v.log ++ t ∧ Effect.rnRecalculate ∉ t
      ∧ (v.m_dragging = true → Effect.rnClearSimple ∈ t
          ∧ ∀ i ∈ v.selection, Effect.rnUpdate i ∈ t ∧ Effect.rnAddSimple i ∈ t) := by
  cases hd : v.m_dragging
  · rw [mainMotion_arming v ctrl hd]
    refine ⟨_, rfl, by simp, ?_⟩
    intro h
    cases h
  · rw [mainMotion_dragging v ctrl hd]
    refine ⟨v.selection.map Effect.itemMove
        ++ Effect.rnClearSimple :: ratsnestTrace true v.selection
        ++ [Effect.groupViewUpdate VIEW_UPDATE_FLAGS.GEOMETRY,
            Effect.runAction COMMON_ACTIONS.pointEditorUpdate], ?_, ?_, ?_⟩
    · simp only [List.append_assoc]
    · have := ratsnestTrace_no_recalculate true v.selection
      simp [this]
    · intro _
      refine ⟨by simp, ?_⟩
      intro i hi
      have := ratsnestTrace_mem v.selection i hi
      simp [this.1, this.2]

/-- Events that do not leave the loop of `Main` are handled one after the
other : the loop over a longer list goes on from the world they leave. -/
theorem mainLoop_append (env : ENV) (u : Bool) (tail : List TOOL_EVENT)
    (pre : List TOOL_EVENT) (hpre : ∀ e ∈ pre, staysInLoop e = true) (w : World) :
    mainLoop env w u (pre ++ tail) = mainLoop env (mainLoop env w u pre).1 u tail
      ∧ (mainLoop env w u pre).2 = (false, u) := by
  induction pre generalizing w with
  | nil => exact ⟨rfl, rfl⟩
  | cons e t ih =>
    have he := hpre e (List.mem_cons_self _ _)
    have ht : ∀ x ∈ t, staysInLoop x = true := fun x hx => hpre x (List.mem_cons_of_mem _ hx)
    rw [List.cons_append, mainLoop_cons, mainLoop_cons]
    unfold staysInLoop at he
    cases hb : mainBranch e <;> rw [hb] at he <;> simp only [] at he ⊢
    all_goals first
      | exact absurd he (by decide)
      | exact ih ht _

/-- A run of motion events never asks for the ratsnest to be recomputed. -/
theorem mainLoop_motions (env : ENV) (u : Bool) (motions : List TOOL_EVENT)
    (hm : ∀ e ∈ motions, mainBranch e = MAIN_BRANCH.motion) (w : World) :
    ∃ t, (mainLoop env w u motions).1.log = w.log ++ t ∧ Effect.rnRecalculate ∉ t := by
  induction motions generalizing w with
  | nil => exact ⟨[], by simp [mainLoop], by simp⟩
  | cons e t ih =>
    obtain ⟨t1, h1, n1, _⟩ := mainMotion_ratsnest (Wait w e) e.ctrl
    obtain ⟨t2, hl2, n2⟩ := ih (fun x hx => hm x (List.mem_cons_of_mem _ hx))
      (mainMotion (Wait w e) e.ctrl)
    refine ⟨t1 ++ t2, ?_, ?_⟩
    · rw [mainLoop_cons, hm e (List.mem_cons_self _ _)]
      simp only []
      rw [hl2, h1]
      simp [Wait]
    · simp [n1, n2]

theorem staysInLoop_of_motion (e : TOOL_EVENT) (h : mainBranch e = MAIN_BRANCH.motion) :
    staysInLoop e = true := by
  unfold staysInLoop
  rw [h]

theorem mainFinish_ratsnest (v : World) (u : Bool) :
    ∃ t, (mainFinish v false u).log =
      v.log ++ t ++ [Effect.rnRecalculate, Effect.showCursor false, Effect.setSnapping false,
        Effect.setAutoPan false, Effect.setTransitions] ∧ Effect.rnRecalculate ∉ t := by
  cases u
  · refine ⟨[Effect.itemsViewUpdate v.selection v.m_updateFlag, Effect.rnClearSimple], ?_,
      by simp⟩
    simp [mainFinish, emit, setTransitions]
  · refine ⟨[Effect.itemsViewUpdate v.selection v.m_updateFlag,
      Effect.runAction COMMON_ACTIONS.selectionClear, Effect.rnClearSimple], ?_, by simp⟩
    simp [mainFinish, emit, setTransitions, selectionClear]

theorem mainEntry_log_eq (w : World) :
    (mainEntry w).log = w.log ++ [Effect.activate, Effect.showCursor true,
      Effect.setSnapping true, Effect.setAutoPan true, Effect.forceCursorPosition false] := by
  simp [mainEntry, emit]

/-- C11 : in a `Main` session on a working set, made of motion or left-drag
events followed by a left mouse-up or click, `RN_DATA::Recalculate` is invoked
exactly once, after the last motion event : the effects of the session are the
effects up to the end of the last motion event, without `Recalculate`, then a
trace without `Recalculate`, then `Recalculate`, then the release of the view
controls. Handling a motion event never invokes it : while dragging, a motion
event clears the simple ratsnest and updates and redraws it for every selected
item. -/
theorem Main_recalculates_once (env : ENV) (w : World) (motions : List TOOL_EVENT)
    (up : TOOL_EVENT) (rest : List TOOL_EVENT)
    (hok : (makeSelection w).2 = true)
    (hm : ∀ e ∈ motions, mainBranch e = MAIN_BRANCH.motion)
    (hup : mainBranch up = MAIN_BRANCH.finish) :
    (∃ t0 t1,
        (mainLoop env (mainEntry (makeSelection w).1) w.selection.isEmpty motions).1.log
          = w.log ++ t0
        ∧ (Main env w (motions ++ up :: rest)).log =
            w.log ++ t0 ++ t1 ++ [Effect.rnRecalculate, Effect.showCursor false,
              Effect.setSnapping false, Effect.setAutoPan false, Effect.setTransitions]
        ∧ Effect.rnRecalculate ∉ t0 ∧ Effect.rnRecalculate ∉ t1)
      ∧ (Main env w (motions ++ up :: rest)).log.count Effect.rnRecalculate
          = w.log.count Effect.rnRecalculate + 1
      ∧ ∀ (v : World) (ctrl : Bool), ∃ t, (mainMotion v ctrl).log = v.log ++ t
          ∧ Effect.rnRecalculate ∉ t
          ∧ (v.m_dragging = true → Effect.rnClearSimple ∈ t
              ∧ ∀ i ∈ v.selection, Effect.rnUpdate i ∈ t ∧ Effect.rnAddSimple i ∈ t) := by
  have key : ∃ t0 t1,
        (mainLoop env (mainEntry (makeSelection w).1) w.selection.isEmpty motions).1.log
          = w.log ++ t0
        ∧ (Main env w (motions ++ up :: rest)).log =
            w.log ++ t0 ++ t1 ++ [Effect.rnRecalculate, Effect.showCursor false,
              Effect.setSnapping false, Effect.setAutoPan false, Effect.setTransitions]
        ∧ Effect.rnRecalculate ∉ t0 ∧ Effect.rnRecalculate ∉ t1 := by
    rw [Main_of_ok env w _ hok]
    obtain ⟨happ, _⟩ := mainLoop_append env w.selection.isEmpty (up :: rest) motions
      (fun e he => staysInLoop_of_motion e (hm e he)) (mainEntry (makeSelection w).1)
    obtain ⟨t1, hl, n1⟩ := mainLoop_motions env w.selection.isEmpty motions hm
      (mainEntry (makeSelection w).1)
    rw [happ, mainLoop_cons, hup]
    simp only []
    obtain ⟨t2, h2, n2⟩ := mainFinish_ratsnest
      (Wait (mainLoop env (mainEntry (makeSelection w).1) w.selection.isEmpty motions).1 up)
      w.selection.isEmpty
    refine ⟨(if w.selection.isEmpty then [Effect.runAction COMMON_ACTIONS.selectionSingle]
        else []) ++ [Effect.activate, Effect.showCursor true,
      Effect.setSnapping true, Effect.setAutoPan true, Effect.forceCursorPosition false]
      ++ t1, t2, ?_, ?_, ?_, n2⟩
    · rw [hl, mainEntry_log_eq, makeSelection_log]
      simp only [List.append_assoc]
    · rw [h2]
      have : (Wait (mainLoop env (mainEntry (makeSelection w).1) w.selection.isEmpty
          motions).1 up).log
          = (mainLoop env (mainEntry (makeSelection w).1) w.selection.isEmpty motions).1.log :=
        rfl
      rw [this, hl, mainEntry_log_eq, makeSelection_log]
      simp only [List.append_assoc]
    · by_cases h : w.selection.isEmpty <;> simp [h, n1]
  refine ⟨key, ?_, mainMotion_ratsnest⟩
  obtain ⟨t0, t1, _, ht, hn0, hn1⟩ := key
  rw [ht]
  simp [List.count_append, List.count_eq_zero_of_not_mem hn0,
    List.count_eq_zero_of_not_mem hn1, List.count_cons]

theorem Main_recalculates_once_witness :
    (Main exEnv exWorld [evMotion ⟨12, 10⟩, evMotion ⟨15, 12⟩, evMouseUp ⟨15, 12⟩]).log.count
        Effect.rnRecalculate = exWorld.log.count Effect.rnRecalculate + 1 :=
  (Main_recalculates_once exEnv exWorld [evMotion ⟨12, 10⟩, evMotion ⟨15, 12⟩]
    (evMouseUp ⟨15, 12⟩) [] (by decide) (by decide) (by decide)).2.1

/-! ## An undo or redo notification during `Main` -/

theorem mainFinish_unselect (v : World) :
    mainFinish v false true =
      { v with
        m_dragging := false,
        selection := [],
        log := v.log ++ [Effect.itemsViewUpdate v.selection v.m_updateFlag,
          Effect.runAction COMMON_ACTIONS.selectionClear, Effect.rnClearSimple,
          Effect.rnRecalculate, Effect.showCursor false, Effect.setSnapping false,
          Effect.setAutoPan false, Effect.setTransitions] } := by
  simp [mainFinish, emit, setTransitions, selectionClear]

/-- C14 : when an undo/redo notification (`TA_UNDO_REDO`) is received inside
the loop of `Main`, after any events that did not leave the loop, `Main` leaves
the loop without handling any further event : the events that follow do not
change the outcome. It does not restore items from the undo list : the items,
the undo list and the redo list are those the loop had reached, and the effects
of the exit hold no `RestoreCopyFromUndoList`. And it clears the selection,
whether or not the selection was empty when `Main` was entered. -/
theorem Main_undo_redo_exit (env : ENV) (w : World) (pre : List TOOL_EVENT) (e : TOOL_EVENT)
    (rest : List TOOL_EVENT)
    (hok : (makeSelection w).2 = true)
    (hpre : ∀ x ∈ pre, staysInLoop x = true)
    (he : mainBranch e = MAIN_BRANCH.undoRedo) :
    Main env w (pre ++ e :: rest) = Main env w (pre ++ [e])
      ∧ (Main env w (pre ++ e :: rest)).items
          = (mainLoop env (mainEntry (makeSelection w).1) w.selection.isEmpty pre).1.items
      ∧ (Main env w (pre ++ e :: rest)).undoList
          = (mainLoop env (mainEntry (makeSelection w).1) w.selection.isEmpty pre).1.undoList
      ∧ (Main env w (pre ++ e :: rest)).redoList
          = (mainLoop env (mainEntry (makeSelection w).1) w.selection.isEmpty pre).1.redoList
      ∧ (∃ t, (Main env w (pre ++ e :: rest)).log
            = (mainLoop env (mainEntry (makeSelection w).1) w.selection.isEmpty pre).1.log ++ t
          ∧ Effect.restoreUndo ∉ t
          ∧ Effect.runAction COMMON_ACTIONS.selectionClear ∈ t)
      ∧ (Main env w (pre ++ e :: rest)).selection = [] := by
  have key : ∀ tail, Main env w (pre ++ e :: tail) =
      mainFinish
        (Wait (mainLoop env (mainEntry (makeSelection w).1) w.selection.isEmpty pre).1 e)
        false true := by
    intro tail
    rw [Main_of_ok env w _ hok,
      (mainLoop_append env w.selection.isEmpty (e :: tail) pre hpre _).1, mainLoop_cons, he]
  rw [key rest, key [], mainFinish_unselect]
  refine ⟨rfl, rfl, rfl, rfl, ⟨_, rfl, ?_, ?_⟩, rfl⟩
  · simp
  · simp

theorem Main_undo_redo_exit_witness :
    Main exEnv exWorld
        [evMotion ⟨12, 10⟩, evMotion ⟨17, 15⟩, evUndoRedo ⟨17, 15⟩, evMotion ⟨30, 30⟩]
      = Main exEnv exWorld [evMotion ⟨12, 10⟩, evMotion ⟨17, 15⟩, evUndoRedo ⟨17, 15⟩]
      ∧ (Main exEnv exWorld
          [evMotion ⟨12, 10⟩, evMotion ⟨17, 15⟩, evUndoRedo ⟨17, 15⟩,
            evMotion ⟨30, 30⟩]).selection = [] :=
  ⟨(Main_undo_redo_exit exEnv exWorld [evMotion ⟨12, 10⟩, evMotion ⟨17, 15⟩]
      (evUndoRedo ⟨17, 15⟩) [evMotion ⟨30, 30⟩] (by decide) (by decide) (by decide)).1,
    (Main_undo_redo_exit exEnv exWorld [evMotion ⟨12, 10⟩, evMotion ⟨17, 15⟩]
      (evUndoRedo ⟨17, 15⟩) [evMotion ⟨30, 30⟩] (by decide) (by decide) (by decide)).2.2.2.2.2⟩

/-! ## The undo entry of `Remove` -/

theorem remove_undoList (w : World) (i : Nat) : (remove w i).undoList = w.undoList := by
  have hc : (removeChild w i).undoList = w.undoList := by
    unfold removeChild
    split
    · simp only [DeleteStructure, emit, modifyItem]
      split
      · split <;> rfl
      · rfl
    · rfl
  unfold remove
  split <;> first
    | rfl
    | exact hc
    | (split
       · split <;> first | rfl | exact hc
       · exact hc)
    | (simp [RunOnChildren_viewRemove, removeTopLevel, boardRemove, viewRemove, emit,
        modifyItem, clearFlags])

theorem removeLoop_undoList (l : List (Nat × UNDO_REDO_T)) (w : World) :
    (l.foldl (fun v p => remove v p.1) w).undoList = w.undoList := by
  induction l generalizing w with
  | nil => rfl
  | cons p t ih => rw [List.foldl_cons, ih, remove_undoList]

/-- An item that `remove` declines to take out of the document keeps its state
through the whole loop of `Remove`. -/
theorem removeLoop_kept (i : Nat) (it : BOARD_ITEM) (l : List (Nat × UNDO_REDO_T)) (v : World)
    (hi : v.items[i]? = some it) (hr : removable v.m_editModules it = false) :
    (l.foldl (fun v p => remove v p.1) v).items[i]? = some it := by
  induction l generalizing v with
  | nil => exact hi
  | cons p t ih =>
    obtain ⟨se, _, so, _, ss⟩ := remove_step v p.1
    rw [List.foldl_cons]
    apply ih (remove v p.1)
    · by_cases hp : i = p.1
      · subst hp
        have := ss it hi
        rw [hr] at this
        simpa using this
      · rw [so i hp]
        exact hi
    · rw [se]
      exact hr

/-- C17 : every `Remove` call on a non-empty working set appends exactly one
undo entry, of kind `UR_DELETED`; the entry lists every item of the working set
captured on entry, in order, each with status `UR_DELETED` and its state before
the call. That includes the items `remove` then declines to take out of the
document (a reference or value text in child-edit mode, or a pad, footprint text
or footprint edge outside child-edit mode) : such an item is listed and keeps
its state, while every other item of the set is still taken out of the document
and of the view. -/
theorem Remove_one_deleted_entry (w : World) (hok : (makeSelection w).2 = true) :
    (Remove w).undoList
        = w.undoList ++ [journalEntry (makeSelection w).1 UNDO_REDO_T.UR_DELETED default]
      ∧ (journalEntry (makeSelection w).1 UNDO_REDO_T.UR_DELETED default).m_Status
          = UNDO_REDO_T.UR_DELETED
      ∧ (journalEntry (makeSelection w).1 UNDO_REDO_T.UR_DELETED default).pickers.map
          (fun p => p.item) = (makeSelection w).1.selection
      ∧ (∀ p ∈ (journalEntry (makeSelection w).1 UNDO_REDO_T.UR_DELETED default).pickers,
          p.status = UNDO_REDO_T.UR_DELETED ∧ p.link = w.items[p.item]?)
      ∧ (∀ i ∈ (makeSelection w).1.selection, removableAt w i = false →
          (Remove w).items[i]? = w.items[i]?)
      ∧ (∀ i ∈ (makeSelection w).1.selection, removableAt w i = true →
          gone (Remove w) i ∧ i ∉ (Remove w).view) := by
  have hU : (Remove w).undoList
      = w.undoList ++ [journalEntry (makeSelection w).1 UNDO_REDO_T.UR_DELETED default] := by
    unfold Remove
    rw [makeSelection_pair w hok]
    simp only [Bool.not_true, Bool.false_eq_true, if_false, setTransitions, emit]
    rw [removeLoop_undoList]
    simp [SaveCopyInUndoList, emit, selectionClear, selectionItems, journalEntry,
      makeSelection_undoList, makeSelection_items, List.map_map, Function.comp_def]
  obtain ⟨v, l, hR, hl, hvi, hvv, hve, _⟩ := Remove_of_ok w hok
  obtain ⟨_, hrem⟩ := removeLoop_inv w l v (RemoveInv_refl w v hvi hvv hve)
  have hRi : (Remove w).items = (l.foldl (fun v p => remove v p.1) v).items := by rw [hR]; rfl
  have hRv : (Remove w).view = (l.foldl (fun v p => remove v p.1) v).view := by rw [hR]; rfl
  refine ⟨hU, rfl, ?_, ?_, ?_, ?_⟩
  · simp [journalEntry, List.map_map, Function.comp_def]
  · intro p hp
    simp only [journalEntry, List.mem_map] at hp
    obtain ⟨i, _, rfl⟩ := hp
    exact ⟨rfl, by rw [makeSelection_items]⟩
  · intro i _ hr
    rw [hRi]
    cases hwi : w.items[i]? with
    | none =>
      apply List.getElem?_eq_none
      have hlen : (l.foldl (fun v p => remove v p.1) v).items.length = w.items.length :=
        (removeLoop_inv w l v (RemoveInv_refl w v hvi hvv hve)).1.2.1
      have : w.items.length ≤ i := by
        by_contra hlt
        rw [List.getElem?_eq_getElem (Nat.lt_of_not_le hlt)] at hwi
        cases hwi
      omega
    | some it =>
      unfold removableAt at hr
      rw [hwi] at hr
      exact removeLoop_kept i it l v (by rw [hvi]; exact hwi) (by rw [hve]; exact hr)
  · intro i hi hr
    rw [← hl] at hi
    obtain ⟨p, hp, rfl⟩ := List.mem_map.1 hi
    cases hwi : w.items[p.1]? with
    | none =>
      unfold removableAt at hr
      rw [hwi] at hr
      cases hr
    | some it =>
      unfold removableAt at hr
      rw [hwi] at hr
      obtain ⟨hg, hview, _⟩ := hrem p hp it hwi hr
      refine ⟨?_, by rw [hRv]; exact hview⟩
      unfold gone ownerAt
      rw [hRi]
      exact hg

theorem Remove_one_deleted_entry_witness :
    (Remove exMixedWorld).undoList
        = exMixedWorld.undoList ++ [journalEntry exMixedWorld UNDO_REDO_T.UR_DELETED default]
      ∧ (journalEntry exMixedWorld UNDO_REDO_T.UR_DELETED default).pickers.map
          (fun p => p.item) = [2, 4]
      ∧ (Remove exMixedWorld).items[2]? = exMixedWorld.items[2]?
      ∧ gone (Remove exMixedWorld) 4 :=
  have h := Remove_one_deleted_entry exMixedWorld (by decide)
  ⟨h.1, h.2.2.1, h.2.2.2.2.1 2 (by decide) (by decide),
    (h.2.2.2.2.2 4 (by decide) (by decide)).1⟩

/-! ## A paste that is not committed -/

/-- The loop of `PasteItems`, when it is left by a cancel event or because no
event is left, has changed neither the item store nor the undo list. -/
theorem pasteLoop_no_commit (env : ENV) (cm : Nat) (tail : List TOOL_EVENT)
    (htail : tail = [] ∨ ∃ c rest, tail = c :: rest ∧ pasteBranch c = PASTE_BRANCH.cancel)
    (pre : List TOOL_EVENT) (hpre : ∀ e ∈ pre, isPreviewEvent e = true) (w : World)
    (pasted : MODULE_DATA) :
    (pasteLoop env cm w pasted (pre ++ tail)).items = w.items
      ∧ (pasteLoop env cm w pasted (pre ++ tail)).undoList = w.undoList
      ∧ (pasteLoop env cm w pasted (pre ++ tail)).view = w.view := by
  induction pre generalizing w pasted with
  | nil =>
    rcases htail with h | ⟨c, rest, h, hc⟩
    · rw [h]
      exact ⟨rfl, rfl, rfl⟩
    · rw [h, List.nil_append, pasteLoop_cons, hc]
      exact ⟨rfl, rfl, rfl⟩
  | cons e t ih =>
    have he := hpre e (List.mem_cons_self _ _)
    have ht := fun x hx => hpre x (List.mem_cons_of_mem _ hx)
    unfold isPreviewEvent at he
    rw [List.cons_append, pasteLoop_cons]
    cases hb : pasteBranch e <;> rw [hb] at he <;> simp only []
    all_goals first
      | exact absurd he (by decide)
      | exact ih ht _ _

theorem PasteItems_of_parse_undo (env : ENV) (w : World) (events : List TOOL_EVENT)
    (pm : MODULE_DATA) (he : w.m_editModules = true) (hparse : env.Parse w.clipboard = some pm) :
    ∃ w3 : World, w3.items = w.items ∧ w3.undoList = w.undoList
      ∧ (PasteItems env w events).items
          = (pasteLoop env ((m_Modules w).getD 0) w3 pm events).items
      ∧ (PasteItems env w events).undoList
          = (pasteLoop env ((m_Modules w).getD 0) w3 pm events).undoList := by
  refine ⟨{ emit (emit (emit (selectionClear (emit w Effect.previewAdd)) (Effect.showCursor true))
      (Effect.setSnapping true)) Effect.activate with toolActive := true }, rfl, rfl, ?_, ?_⟩
  · unfold PasteItems
    simp only [he, hparse, Bool.not_true, Bool.false_eq_true, if_false, setTransitions, emit]
  · unfold PasteItems
    simp only [he, hparse, Bool.not_true, Bool.false_eq_true, if_false, setTransitions, emit]

theorem childrenOf_congr (w v : World) (h : v.items = w.items) (m : Nat) :
    childrenOf v m = childrenOf w m := by
  unfold childrenOf Pads GraphicalItems itemsWhere
  rw [h]

/-- C13 : a `PasteItems` run that does not reach the left-click commit changes
no document state. Outside child-edit mode, or when the clipboard payload fails
to parse, the run only re-arms the transitions : items, undo list, selection
and view are as before. When the events before the end are preview events
(motion, rotate, flip and events the loop ignores) and the run ends with a
cancel event, or with no event left, the items of the board, the children of
every footprint, and the undo list are the same after the run as before it. -/
theorem PasteItems_without_commit (env : ENV) (w : World) (pre : List TOOL_EVENT)
    (c : TOOL_EVENT) (rest : List TOOL_EVENT)
    (hpre : ∀ e ∈ pre, isPreviewEvent e = true)
    (hc : pasteBranch c = PASTE_BRANCH.cancel) :
    (w.m_editModules = false ∨ env.Parse w.clipboard = none →
        ∀ events, PasteItems env w events = setTransitions w
          ∧ (PasteItems env w events).items = w.items
          ∧ (PasteItems env w events).undoList = w.undoList
          ∧ (PasteItems env w events).selection = w.selection
          ∧ (PasteItems env w events).view = w.view)
      ∧ (PasteItems env w (pre ++ c :: rest)).items = w.items
      ∧ (PasteItems env w (pre ++ c :: rest)).undoList = w.undoList
      ∧ (∀ m, childrenOf (PasteItems env w (pre ++ c :: rest)) m = childrenOf w m)
      ∧ (PasteItems env w pre).items = w.items
      ∧ (PasteItems env w pre).undoList = w.undoList
      ∧ (∀ m, childrenOf (PasteItems env w pre) m = childrenOf w m) := by
  have quit : w.m_editModules = false ∨ env.Parse w.clipboard = none →
      ∀ events, PasteItems env w events = setTransitions w := by
    intro h events
    unfold PasteItems
    rcases h with h | h
    · simp [h]
    · by_cases he : w.m_editModules = true
      · simp [he, h]
      · simp [he]
  have key : ∀ tail, (tail = [] ∨ ∃ c rest, tail = c :: rest
        ∧ pasteBranch c = PASTE_BRANCH.cancel) →
      (PasteItems env w (pre ++ tail)).items = w.items
        ∧ (PasteItems env w (pre ++ tail)).undoList = w.undoList := by
    intro tail htail
    by_cases he : w.m_editModules = true
    · cases hp : env.Parse w.clipboard with
      | none =>
        rw [quit (Or.inr hp)]
        exact ⟨rfl, rfl⟩
      | some pm =>
        obtain ⟨w3, hi3, hu3, hPi, hPu⟩ := PasteItems_of_parse_undo env w (pre ++ tail) pm he hp
        have h := pasteLoop_no_commit env ((m_Modules w).getD 0) tail htail pre hpre w3 pm
        exact ⟨by rw [hPi, h.1, hi3], by rw [hPu, h.2.1, hu3]⟩
    · have he2 : w.m_editModules = false := by simpa using he
      rw [quit (Or.inl he2)]
      exact ⟨rfl, rfl⟩
  have h1 := key (c :: rest) (Or.inr ⟨c, rest, rfl, hc⟩)
  have h2 := key [] (Or.inl rfl)
  rw [List.append_nil] at h2
  refine ⟨?_, h1.1, h1.2, childrenOf_congr w _ h1.1, h2.1, h2.2, childrenOf_congr w _ h2.1⟩
  intro h events
  rw [quit h events]
  exact ⟨rfl, rfl, rfl, rfl, rfl⟩

theorem PasteItems_without_commit_witness :
    (PasteItems exCodecEnv (CopyItems exCodecEnv exCopyWorld)
        [evMotion ⟨1, 1⟩, evCommand COMMON_ACTIONS.rotate ⟨1, 1⟩, evCancel ⟨1, 1⟩]).items
        = (CopyItems exCodecEnv exCopyWorld).items
      ∧ (PasteItems exCodecEnv (CopyItems exCodecEnv exCopyWorld)
        [evMotion ⟨1, 1⟩, evCommand COMMON_ACTIONS.rotate ⟨1, 1⟩, evCancel ⟨1, 1⟩]).undoList
        = (CopyItems exCodecEnv exCopyWorld).undoList :=
  have h := PasteItems_without_commit exCodecEnv (CopyItems exCodecEnv exCopyWorld)
    [evMotion ⟨1, 1⟩, evCommand COMMON_ACTIONS.rotate ⟨1, 1⟩] (evCancel ⟨1, 1⟩) []
    (by decide) (by decide)
  ⟨h.2.1, h.2.2.1⟩

/-! ## The displacement of a motion event -/

theorem wxPoint.add_sub_cancel_right (p c : wxPoint) : c + (p - c) = p :=
  wxPoint.eq_of _ _ (by simp) (by simp)

/-- An item that the loop visits once has moved by `d`. -/
theorem posAt_modifyAll_move (d : wxPoint) (ids : List Nat) (l : List BOARD_ITEM) (i : Nat)
    (hnd : ids.Nodup) (hi : i ∈ ids) (hlt : i < l.length) :
    posAt (modifyAll (fun it => it.Move d) ids l) i = posAt l i + d := by
  unfold posAt
  rw [modifyAll_getElem?, List.count_eq_one_of_mem hnd hi, List.getElem?_eq_getElem hlt]
  rfl

theorem head_mem_of_ne (l : List Nat) (h : l ≠ []) : l.headD 0 ∈ l := by
  cases l with
  | nil => exact absurd rfl h
  | cons a t => simp

/-- Arming a drag anchors it. -/
theorem mainMotion_arming_anchored (w : World) (ctrl : Bool) (hd : w.m_dragging = false) :
    dragAnchored (mainMotion w ctrl) := by
  rw [mainMotion_arming w ctrl hd]
  unfold dragAnchored GetPosition
  refine ⟨rfl, ?_⟩
  cases ctrl
  · exact (wxPoint.add_sub_cancel_right _ _).symm
  · exact wxPoint.eq_of _ _ (by simp) (by simp)

/-- A motion event, handled while the drag is anchored, moves every item of the
working set by the new cursor position minus `m_cursor`, and keeps the drag
anchored. -/
theorem mainMotion_anchored (w : World) (ctrl : Bool) (hv : validSelection w)
    (ha : dragAnchored w) :
    (∀ i ∈ w.selection,
        GetPosition (mainMotion w ctrl) i = GetPosition w i + (w.viewCursor - w.m_cursor))
      ∧ (mainMotion w ctrl).m_cursor = w.viewCursor
      ∧ dragAnchored (mainMotion w ctrl) := by
  obtain ⟨hne, hnd, hval⟩ := hv
  obtain ⟨hd, hanch⟩ := ha
  unfold GetPosition at hanch
  have hvec : w.viewCursor - posAt w.items (w.selection.headD 0) + w.m_offset
      = w.viewCursor - w.m_cursor := by
    rw [hanch]
    exact wxPoint.eq_of _ _ (by simp only [wxPoint.add_x, wxPoint.sub_x]; omega)
      (by simp only [wxPoint.add_y, wxPoint.sub_y]; omega)
  have hpos : ∀ i ∈ w.selection,
      GetPosition (mainMotion w ctrl) i = GetPosition w i + (w.viewCursor - w.m_cursor) := by
    intro i hi
    rw [mainMotion_dragging w ctrl hd]
    unfold GetPosition
    simp only []
    rw [hvec, posAt_modifyAll_move _ _ _ _ hnd hi (hval i hi)]
  refine ⟨hpos, by rw [mainMotion_dragging w ctrl hd], ?_⟩
  have h0 := hpos _ (head_mem_of_ne w.selection hne)
  unfold dragAnchored
  have hs : (mainMotion w ctrl).selection = w.selection := by
    rw [mainMotion_dragging w ctrl hd]
  have hc : (mainMotion w ctrl).m_cursor = w.viewCursor := by
    rw [mainMotion_dragging w ctrl hd]
  have ho : (mainMotion w ctrl).m_offset = w.m_offset := by
    rw [mainMotion_dragging w ctrl hd]
  have hdd : (mainMotion w ctrl).m_dragging = true := by
    rw [mainMotion_dragging w ctrl hd]
    exact hd
  refine ⟨hdd, ?_⟩
  rw [hs, h0, hc, ho]
  unfold GetPosition
  rw [hanch]
  exact wxPoint.eq_of _ _ (by simp only [wxPoint.add_x, wxPoint.sub_x]; omega)
    (by simp only [wxPoint.add_y, wxPoint.sub_y]; omega)

theorem pivot_anchored (w : World) (ha : dragAnchored w) :
    pivot w = if w.selection.length = 1 ∨ w.toolActive = true then w.m_cursor
              else w.viewCursor := by
  unfold pivot
  by_cases h1 : w.selection.length = 1
  · simp only [h1, true_or, if_true]
    rw [ha.2]
    exact wxPoint.eq_of _ _ (by simp) (by simp)
  · by_cases ht : w.toolActive = true
    · simp [h1, ht]
    · simp [h1, ht]

/-- A rotate command, handled while the drag is anchored, keeps it anchored. -/
theorem Rotate_anchored (env : ENV) (w : World) (hne : w.selection ≠ [])
    (ha : dragAnchored w) : dragAnchored (Rotate env w) := by
  have hp := pivot_anchored w ha
  rw [Rotate_dragging env w hne ha.1]
  unfold dragAnchored GetPosition
  refine ⟨ha.1, ?_⟩
  simp only []
  rw [← hp]
  exact (wxPoint.add_sub_cancel_right _ _).symm

/-- A flip command, handled while the drag is anchored, keeps it anchored. -/
theorem Flip_anchored (w : World) (hne : w.selection ≠ [])
    (ha : dragAnchored w) : dragAnchored (Flip w) := by
  have hp := pivot_anchored w ha
  rw [Flip_dragging w hne ha.1]
  unfold dragAnchored GetPosition
  refine ⟨ha.1, ?_⟩
  simp only []
  rw [← hp]
  exact (wxPoint.add_sub_cancel_right _ _).symm

/-- One drag event, handled while the drag is anchored, keeps it anchored; only
a motion event changes `m_cursor` while the edit tool is the active tool. -/
theorem drag_step_anchored (env : ENV) (u : Bool) (e : TOOL_EVENT) (rest : List TOOL_EVENT)
    (he : isDragEvent e = true) (v : World) (hv : validSelection v) (ha : dragAnchored v) :
    ∃ v1, mainLoop env v u (e :: rest) = mainLoop env v1 u rest
      ∧ v1.selection = v.selection
      ∧ v1.items.length = v.items.length
      ∧ v1.toolActive = v.toolActive
      ∧ dragAnchored v1
      ∧ (v.toolActive = true →
          v1.m_cursor = if mainBranch e = MAIN_BRANCH.motion then e.cursor else v.m_cursor) := by
  have hWv : validSelection (Wait v e) := hv
  have hWa : dragAnchored (Wait v e) := ha
  have hWne : (Wait v e).selection ≠ [] := hv.1
  have hWd : (Wait v e).m_dragging = true := ha.1
  rw [mainLoop_cons]
  unfold isDragEvent at he
  cases hb : mainBranch e <;> simp [hb] at he ⊢
  · refine ⟨_, rfl, ?_, ?_, ?_, Rotate_anchored env _ hWne hWa, ?_⟩
    · rw [Rotate_dragging env _ hWne hWd]; rfl
    · rw [Rotate_dragging env _ hWne hWd]
      exact modifyAll_length _ _ _
    · rw [Rotate_dragging env _ hWne hWd]; rfl
    · intro ht
      rw [Rotate_dragging env _ hWne hWd]
      have : (Wait v e).toolActive = true := ht
      simp [this]
      rfl
  · have hF := Flip_anchored _ hWne hWa
    refine ⟨_, rfl, ?_, ?_, ?_, ?_, ?_⟩
    · rw [Flip_dragging _ hWne hWd]; rfl
    · rw [Flip_dragging _ hWne hWd]
      exact modifyAll_length _ _ _
    · rw [Flip_dragging _ hWne hWd]; rfl
    · exact hF
    · intro ht
      rw [Flip_dragging _ hWne hWd]
      have : (Wait v e).toolActive = true := ht
      simp [enableUpdateFlag, this]
      rfl
  · obtain ⟨_, hc, hA⟩ := mainMotion_anchored (Wait v e) e.ctrl hWv hWa
    refine ⟨_, rfl, ?_, ?_, ?_, hA, ?_⟩
    · rw [mainMotion_dragging _ _ hWd]; rfl
    · rw [mainMotion_dragging _ _ hWd]
      exact modifyAll_length _ _ _
    · rw [mainMotion_dragging _ _ hWd]; rfl
    · intro _
      rw [hc]
      rfl

theorem lastCursor_cons (c : wxPoint) (e : TOOL_EVENT) (t : List TOOL_EVENT) :
    lastCursor c (e :: t)
      = lastCursor (if mainBranch e = MAIN_BRANCH.motion then e.cursor else c) t := rfl

/-- Any number of drag events, handled while the drag is anchored, keep it
anchored. -/
theorem drag_phase_anchored (env : ENV) (u : Bool) (mid : List TOOL_EVENT)
    (hmid : ∀ e ∈ mid, isDragEvent e = true) (v : World) (hv : validSelection v)
    (ha : dragAnchored v) :
    (mainLoop env v u mid).1.selection = v.selection
      ∧ (mainLoop env v u mid).1.items.length = v.items.length
      ∧ dragAnchored (mainLoop env v u mid).1
      ∧ (v.toolActive = true → (mainLoop env v u mid).1.m_cursor = lastCursor v.m_cursor mid) := by
  induction mid generalizing v with
  | nil => exact ⟨rfl, rfl, ha, fun _ => rfl⟩
  | cons e t ih =>
    obtain ⟨v1, h1, hs, hl, hta, hA, hc⟩ := drag_step_anchored env u e t
      (hmid e (List.mem_cons_self _ _)) v hv ha
    have hv1 : validSelection v1 := by
      obtain ⟨a, b, c⟩ := hv
      exact ⟨by rw [hs]; exact a, by rw [hs]; exact b,
        fun i hi => by rw [hl]; exact c i (by rw [← hs]; exact hi)⟩
    obtain ⟨i1, i2, i3, i4⟩ := ih (fun x hx => hmid x (List.mem_cons_of_mem _ hx)) v1 hv1 hA
    rw [h1]
    refine ⟨i1.trans hs, i2.trans hl, i3, ?_⟩
    intro ht
    rw [i4 (hta.trans ht), hc ht, lastCursor_cons]

theorem staysInLoop_of_drag (e : TOOL_EVENT) (h : isDragEvent e = true) :
    staysInLoop e = true := by
  unfold isDragEvent at h
  unfold staysInLoop
  cases hb : mainBranch e <;> simp [hb] at h ⊢

/-- C16 : while `Main` is dragging, every motion event displaces every item of the
working set by one and the same vector, the new cursor position minus the
previous value of `m_cursor`. The drag is armed by a motion event in a world
that is not dragging, on a working set of distinct items of the store; any
number of motion, rotate and flip events follow; then comes the motion event
`m`. Before `m` is handled the tool is dragging and the first item sits at
`m_cursor + m_offset`, whatever rotate and flip commands were handled; after it,
every item of the working set has moved by `m.cursor - m_cursor` and `m_cursor`
is `m.cursor`. While the edit tool is the active tool, the previous `m_cursor`
is the cursor of the last motion event before `m`, or, when the arming event is
the last one, its cursor, or the origin of the first item when it was armed
with Ctrl. -/
theorem drag_motion_displacement (env : ENV) (w : World) (u : Bool) (first : TOOL_EVENT)
    (mid : List TOOL_EVENT) (m : TOOL_EVENT)
    (hv : validSelection w)
    (hd : w.m_dragging = false)
    (hfirst : mainBranch first = MAIN_BRANCH.motion)
    (hmid : ∀ e ∈ mid, isDragEvent e = true)
    (hm : mainBranch m = MAIN_BRANCH.motion) :
    dragAnchored (mainLoop env w u (first :: mid)).1
      ∧ (∀ i ∈ w.selection,
          GetPosition (mainLoop env w u (first :: (mid ++ [m]))).1 i
            = GetPosition (mainLoop env w u (first :: mid)).1 i
                + (m.cursor - (mainLoop env w u (first :: mid)).1.m_cursor))
      ∧ (mainLoop env w u (first :: (mid ++ [m]))).1.m_cursor = m.cursor
      ∧ (w.toolActive = true →
          (mainLoop env w u (first :: mid)).1.m_cursor
            = lastCursor (if first.ctrl then GetPosition w (w.selection.headD 0)
                          else first.cursor) mid) := by
  have hWd : (Wait w first).m_dragging = false := hd
  have harm := mainMotion_arming (Wait w first) first.ctrl hWd
  have hA0 := mainMotion_arming_anchored (Wait w first) first.ctrl hWd
  have hs0 : (mainMotion (Wait w first) first.ctrl).selection = w.selection := by
    rw [harm]; rfl
  have hl0 : (mainMotion (Wait w first) first.ctrl).items = w.items := by
    rw [harm]; rfl
  have hv0 : validSelection (mainMotion (Wait w first) first.ctrl) := by
    obtain ⟨a, b, c⟩ := hv
    exact ⟨by rw [hs0]; exact a, by rw [hs0]; exact b,
      fun i hi => by rw [hl0]; exact c i (by rw [← hs0]; exact hi)⟩
  obtain ⟨ps, pl, pA, pc⟩ := drag_phase_anchored env u mid hmid _ hv0 hA0
  have hstep : mainLoop env w u (first :: mid)
      = mainLoop env (mainMotion (Wait w first) first.ctrl) u mid := by
    rw [mainLoop_cons, hfirst]
  have hall : ∀ x ∈ first :: mid, staysInLoop x = true := by
    intro x hx
    rcases List.mem_cons.1 hx with h | h
    · rw [h]; exact staysInLoop_of_motion first hfirst
    · exact staysInLoop_of_drag x (hmid x h)
  have happ : mainLoop env w u (first :: (mid ++ [m]))
      = mainLoop env (mainLoop env w u (first :: mid)).1 u [m] := by
    rw [← List.cons_append]
    exact (mainLoop_append env u [m] (first :: mid) hall w).1
  rw [happ, hstep]
  generalize hV : (mainLoop env (mainMotion (Wait w first) first.ctrl) u mid).1 = V
    at ps pl pA pc
  have hVv : validSelection V := by
    obtain ⟨a, b, c⟩ := hv0
    exact ⟨by rw [ps]; exact a, by rw [ps]; exact b,
      fun i hi => by rw [pl]; exact c i (by rw [← ps]; exact hi)⟩
  have hWVv : validSelection (Wait V m) := hVv
  have hWVa : dragAnchored (Wait V m) := pA
  obtain ⟨mp, mc, _⟩ := mainMotion_anchored (Wait V m) m.ctrl hWVv hWVa
  have hlast : (mainLoop env V u [m]).1 = mainMotion (Wait V m) m.ctrl := by
    rw [mainLoop_cons, hm]
    rfl
  rw [hlast]
  refine ⟨pA, ?_, mc, ?_⟩
  · intro i hi
    exact mp i (by
      show i ∈ V.selection
      rw [ps, hs0]
      exact hi)
  · intro ht
    have hta : (mainMotion (Wait w first) first.ctrl).toolActive = true := by
      rw [harm]; exact ht
    rw [pc hta, harm]
    cases first.ctrl <;> rfl

theorem drag_motion_displacement_witness :
    GetPosition (mainLoop exEnv (mainEntry exWorld) false
        [evMotion ⟨12, 10⟩, evMotion ⟨17, 15⟩, evCommand COMMON_ACTIONS.rotate ⟨17, 15⟩,
          evMotion ⟨20, 11⟩]).1 1
      = GetPosition (mainLoop exEnv (mainEntry exWorld) false
          [evMotion ⟨12, 10⟩, evMotion ⟨17, 15⟩,
            evCommand COMMON_ACTIONS.rotate ⟨17, 15⟩]).1 1
        + ((evMotion ⟨20, 11⟩).cursor
            - (mainLoop exEnv (mainEntry exWorld) false
                [evMotion ⟨12, 10⟩, evMotion ⟨17, 15⟩,
                  evCommand COMMON_ACTIONS.rotate ⟨17, 15⟩]).1.m_cursor) :=
  (drag_motion_displacement exEnv (mainEntry exWorld) false (evMotion ⟨12, 10⟩)
    [evMotion ⟨17, 15⟩, evCommand COMMON_ACTIONS.rotate ⟨17, 15⟩] (evMotion ⟨20, 11⟩)
    ⟨by decide, by decide, by decide⟩ rfl (by decide) (by decide) (by decide)).2.1 1
    (by decide)

/-! ## Properties : what is propagated after the editor -/

theorem viewOnly_refl (w : World) : viewOnly w w :=
  ⟨rfl, rfl, rfl, [], by simp, by simp⟩

theorem viewOnly_trans {a b c : World} (h1 : viewOnly a b) (h2 : viewOnly b c) :
    viewOnly a c := by
  obtain ⟨s1, i1, u1, t1, l1, n1⟩ := h1
  obtain ⟨s2, i2, u2, t2, l2, n2⟩ := h2
  refine ⟨s2.trans s1, i2.trans i1, u2.trans u1, t1 ++ t2, ?_, ?_⟩
  · rw [l2, l1, List.append_assoc]
  · intro e he
    rcases List.mem_append.1 he with h | h
    · exact n1 e h
    · exact n2 e h

theorem viewOnly_viewUpdate (w : World) (i : Nat) (f : VIEW_UPDATE_FLAGS) :
    viewOnly w (viewUpdate w i f) :=
  ⟨rfl, rfl, rfl, [Effect.viewUpdate i f], rfl, by simp [Effect.isRatsnest]⟩

theorem viewOnly_viewAdd (w : World) (i : Nat) : viewOnly w (viewAdd w i) :=
  ⟨rfl, rfl, rfl, [Effect.viewAdd i], rfl, by simp [Effect.isRatsnest]⟩

theorem viewOnly_viewRemove (w : World) (i : Nat) : viewOnly w (viewRemove w i) :=
  ⟨rfl, rfl, rfl, [Effect.viewRemove i], rfl, by simp [Effect.isRatsnest]⟩

theorem viewOnly_foldl {α : Type} (f : World → α → World) (hf : ∀ w a, viewOnly w (f w a))
    (l : List α) (w : World) : viewOnly w (l.foldl f w) := by
  induction l generalizing w with
  | nil => exact viewOnly_refl w
  | cons a t ih => exact viewOnly_trans (hf w a) (ih (f w a))

theorem viewOnly_RunOnChildren (w : World) (m : Nat) (f : World → Nat → World)
    (hf : ∀ w a, viewOnly w (f w a)) : viewOnly w (RunOnChildren w m f) :=
  viewOnly_foldl f hf _ w

theorem processChanges_eq (w : World) (aList : PICKED_ITEMS_LIST) :
    processChanges w aList = aList.pickers.foldl processStep w := rfl

/-- One step of the loop of `processChanges` only talks to the view. -/
theorem viewOnly_processStep (w1 : World) (p : ITEM_PICKER) :
    viewOnly w1 (processStep w1 p) := by
  unfold processStep
  split
  · exact viewOnly_viewUpdate _ _ _
  · exact viewOnly_viewUpdate _ _ _
  · simp only []
    refine viewOnly_trans ?_ (viewOnly_viewRemove _ _)
    split
    · exact viewOnly_RunOnChildren _ _ _ viewOnly_viewRemove
    · exact viewOnly_refl _
  · simp only []
    refine viewOnly_trans (viewOnly_trans ?_ (viewOnly_viewAdd _ _)) (viewOnly_viewUpdate _ _ _)
    split
    · exact viewOnly_RunOnChildren _ _ _ viewOnly_viewAdd
    · exact viewOnly_refl _
  · exact viewOnly_refl _

theorem processStep_changed (w1 : World) (p : ITEM_PICKER)
    (hp : p.status = UNDO_REDO_T.UR_CHANGED ∨ p.status = UNDO_REDO_T.UR_MODEDIT) :
    (processStep w1 p).log = w1.log ++ [Effect.viewUpdate p.item VIEW_UPDATE_FLAGS.GEOMETRY] := by
  unfold processStep
  rcases hp with h | h <;> rw [h] <;> rfl

/-- The loop of `processChanges` only talks to the view, and asks for a
geometry update of every picked item whose status is `UR_CHANGED` or
`UR_MODEDIT`. -/
theorem processLoop_trace (l : List ITEM_PICKER) (w : World) :
    (l.foldl processStep w).selection = w.selection
      ∧ ∃ t, (l.foldl processStep w).log = w.log ++ t
          ∧ (∀ e ∈ t, Effect.isRatsnest e = false)
          ∧ (∀ p ∈ l, p.status = UNDO_REDO_T.UR_CHANGED ∨ p.status = UNDO_REDO_T.UR_MODEDIT →
              Effect.viewUpdate p.item VIEW_UPDATE_FLAGS.GEOMETRY ∈ t) := by
  induction l generalizing w with
  | nil => exact ⟨rfl, [], by simp, by simp, by simp⟩
  | cons p rest ih =>
    obtain ⟨s1, _, _, t1, l1, n1⟩ := viewOnly_processStep w p
    obtain ⟨s2, t2, l2, n2, m2⟩ := ih (processStep w p)
    rw [List.foldl_cons]
    refine ⟨s2.trans s1, t1 ++ t2, ?_, ?_, ?_⟩
    · rw [l2, l1, List.append_assoc]
    · intro e he
      rcases List.mem_append.1 he with h | h
      · exact n1 e h
      · exact n2 e h
    · intro q hq hs
      rcases List.mem_cons.1 hq with h | h
      · subst h
        have := processStep_changed w q hs
        rw [l1] at this
        have ht : t1 = [Effect.viewUpdate q.item VIEW_UPDATE_FLAGS.GEOMETRY] :=
          List.append_cancel_left this
        rw [ht]
        simp
      · exact List.mem_append_right _ (m2 q h hs)

theorem tipUid_request (env : ENV) (w : World) :
    tipUid (propertiesRequest env (makeSelection w).1) = tipUid w := by
  unfold tipUid propertiesRequest
  simp only [emit, clearFlags, modifyItem, selectionClear]
  rw [makeSelection_undoList]

/-- `Properties` on a working set of one item. -/
theorem Properties_of_one (env : ENV) (w : World) (hok : (makeSelection w).2 = true)
    (hone : (makeSelection w).1.selection.length = 1) :
    Properties env w =
      setTransitions (setFlags
        (if tipUid w ≠ tipUid (propertiesEdited env (makeSelection w).1) then
          emit (viewUpdate (emit (updateRatsnest
            (match (propertiesEdited env (makeSelection w).1).undoList.getLast? with
              | some l => processChanges (propertiesEdited env (makeSelection w).1) l
              | none => propertiesEdited env (makeSelection w).1) true) Effect.rnRecalculate)
            (propertiesTarget env (makeSelection w).1) VIEW_UPDATE_FLAGS.ALL)
            (Effect.runAction COMMON_ACTIONS.pointEditorUpdate)
         else propertiesEdited env (makeSelection w).1)
        (propertiesTarget env (makeSelection w).1)
        (GetFlags (selectionClear (makeSelection w).1)
          (propertiesTarget env (makeSelection w).1))) := by
  rw [← tipUid_request env w]
  unfold Properties
  rw [makeSelection_pair w hok]
  simp only [Bool.not_true, Bool.false_eq_true, if_false, hone, if_true]
  rfl

/-- C15 : what `Properties` propagates on a working set of one item, after the
property editor has returned. When the tip of the undo list is the entry it was
before the call, `Properties` only restores the flags of the item and re-arms
the transitions : no view update, no ratsnest update or recompute. When the tip
differs, `processChanges` asks the view for a geometry update of every item the
new tip entry lists as changed; then `updateRatsnest( true )` runs over the
selection, which `Properties` cleared before calling the editor, the ratsnest is
recomputed, and the view of the edited item is updated. So when the editor
leaves the selection empty, `RN_DATA::Update` is called for no item, whatever
the new tip entry lists. -/
theorem Properties_propagation (env : ENV) (w : World) (hok : (makeSelection w).2 = true)
    (hone : (makeSelection w).1.selection.length = 1) :
    (tipUid (propertiesEdited env (makeSelection w).1) = tipUid w →
        (Properties env w).log =
          (propertiesEdited env (makeSelection w).1).log
            ++ [Effect.setFlags (propertiesTarget env (makeSelection w).1),
                Effect.setTransitions])
      ∧ (tipUid (propertiesEdited env (makeSelection w).1) ≠ tipUid w →
          ∀ tip, (propertiesEdited env (makeSelection w).1).undoList.getLast? = some tip →
            ∃ t, (Properties env w).log =
                (propertiesEdited env (makeSelection w).1).log ++ t
                  ++ Effect.rnClearSimple
                      :: ratsnestTrace true (propertiesEdited env (makeSelection w).1).selection
                  ++ [Effect.rnRecalculate,
                      Effect.viewUpdate (propertiesTarget env (makeSelection w).1)
                        VIEW_UPDATE_FLAGS.ALL,
                      Effect.runAction COMMON_ACTIONS.pointEditorUpdate,
                      Effect.setFlags (propertiesTarget env (makeSelection w).1),
                      Effect.setTransitions]
              ∧ (∀ e ∈ t, Effect.isRatsnest e = false)
              ∧ (∀ p ∈ tip.pickers,
                  p.status = UNDO_REDO_T.UR_CHANGED ∨ p.status = UNDO_REDO_T.UR_MODEDIT →
                    Effect.viewUpdate p.item VIEW_UPDATE_FLAGS.GEOMETRY ∈ t))
      ∧ (tipUid (propertiesEdited env (makeSelection w).1) ≠ tipUid w →
          (propertiesEdited env (makeSelection w).1).selection = [] →
          ∀ tip, (propertiesEdited env (makeSelection w).1).undoList.getLast? = some tip →
            ∃ s, (Properties env w).log = (propertiesEdited env (makeSelection w).1).log ++ s
              ∧ Effect.rnRecalculate ∈ s
              ∧ ∀ i, Effect.rnUpdate i ∉ s) := by
  have hP := Properties_of_one env w hok hone
  generalize hE : propertiesEdited env (makeSelection w).1 = E at hP ⊢
  generalize hI : propertiesTarget env (makeSelection w).1 = item at hP ⊢
  have hB : tipUid E ≠ tipUid w → ∀ tip, E.undoList.getLast? = some tip →
      ∃ t, (Properties env w).log =
          E.log ++ t ++ Effect.rnClearSimple :: ratsnestTrace true E.selection
            ++ [Effect.rnRecalculate, Effect.viewUpdate item VIEW_UPDATE_FLAGS.ALL,
                Effect.runAction COMMON_ACTIONS.pointEditorUpdate,
                Effect.setFlags item, Effect.setTransitions]
        ∧ (∀ e ∈ t, Effect.isRatsnest e = false)
        ∧ (∀ p ∈ tip.pickers,
            p.status = UNDO_REDO_T.UR_CHANGED ∨ p.status = UNDO_REDO_T.UR_MODEDIT →
              Effect.viewUpdate p.item VIEW_UPDATE_FLAGS.GEOMETRY ∈ t) := by
    intro hne tip htip
    have hne2 : tipUid w ≠ tipUid E := fun h => hne h.symm
    rw [if_pos hne2, htip] at hP
    simp only [] at hP
    obtain ⟨hs, t, hl, hn, hm⟩ := processLoop_trace tip.pickers E
    rw [← processChanges_eq] at hs hl
    refine ⟨t, ?_, hn, hm⟩
    rw [hP, updateRatsnest_eq]
    simp only [setTransitions, setFlags, emit, viewUpdate, modifyItem, hs, hl,
      List.append_assoc, List.cons_append, List.nil_append]
  refine ⟨?_, hB, ?_⟩
  · intro h
    rw [hP, if_neg (by rw [h]; exact fun hh => hh rfl)]
    simp [setTransitions, setFlags, emit, modifyItem]
  · intro hne hsel tip htip
    obtain ⟨t, hl, hn, _⟩ := hB hne tip htip
    rw [hsel] at hl
    refine ⟨t ++ Effect.rnClearSimple :: ratsnestTrace true []
      ++ [Effect.rnRecalculate, Effect.viewUpdate item VIEW_UPDATE_FLAGS.ALL,
          Effect.runAction COMMON_ACTIONS.pointEditorUpdate,
          Effect.setFlags item, Effect.setTransitions], ?_, ?_, ?_⟩
    · rw [hl]
      simp only [List.append_assoc]
    · simp
    · intro i hmem
      have hnot : Effect.rnUpdate i ∉ t := by
        intro h
        have := hn _ h
        simp [Effect.isRatsnest] at this
      simp [ratsnestTrace, hnot] at hmem

theorem Properties_propagation_witness :
    ∃ s, (Properties exEditorEnv exFlipWorld).log
        = (propertiesEdited exEditorEnv (makeSelection exFlipWorld).1).log ++ s
      ∧ Effect.rnRecalculate ∈ s
      ∧ ∀ i, Effect.rnUpdate i ∉ s :=
  (Properties_propagation exEditorEnv exFlipWorld (by decide) (by decide)).2.2
    (by decide) (by decide)
    (journalEntry exFlipWorld UNDO_REDO_T.UR_CHANGED default) (by decide)

/-- The property editor of `exEditorEnv` journals the line `A` as changed and
moves it; `Properties` then asks the view to update `A`, clears the simple
ratsnest and recomputes the ratsnest, but never calls `RN_DATA::Update` for
`A`. -/
theorem Properties_edited_line_log :
    (propertiesEdited exEditorEnv exFlipWorld).undoList.map
        (fun l => l.pickers.map (fun p => (p.item, p.status)))
        = [[(0, UNDO_REDO_T.UR_CHANGED)]]
      ∧ GetPosition exFlipWorld 0 = ⟨10, 10⟩
      ∧ GetPosition (Properties exEditorEnv exFlipWorld) 0 = ⟨15, 10⟩
      ∧ (Properties exEditorEnv exFlipWorld).log =
          [Effect.runAction COMMON_ACTIONS.selectionClear, Effect.clearFlags 0,
           Effect.editItemRequest 0, Effect.onModify,
           Effect.saveUndo UNDO_REDO_T.UR_CHANGED [0], Effect.itemMove 0,
           Effect.viewUpdate 0 VIEW_UPDATE_FLAGS.GEOMETRY, Effect.rnClearSimple,
           Effect.rnRecalculate, Effect.viewUpdate 0 VIEW_UPDATE_FLAGS.ALL,
           Effect.runAction COMMON_ACTIONS.pointEditorUpdate, Effect.setFlags 0,
           Effect.setTransitions]
      ∧ Effect.rnUpdate 0 ∉ (Properties exEditorEnv exFlipWorld).log := by
  decide

end EditTool
